import Mathlib

/-!
# PLUTO-guided Tiramisu search: embedding and verified properties

A shallow embedding of `pluto_guided_search.cpp` (candidate generation,
coalescing analysis, bank-conflict analysis, constraint filtering, legality,
cost evaluation, selection, strategy dispatch), of the GEMM driver of
`example_gemm_multi_access.cpp`, of the GEMM benchmark of
`benchmark_search_space_comparison.cpp` and of the extraction of tiles in
`pluto_to_tiramisu.cpp`, followed by the properties proved about them.

Conventions of the embedding
* `std::vector<T>` is `List T`; `v.back()` is the last element, `push_back`
  appends at the end; a range-`for` loop is a left fold in list order.
* `int` and `int64_t` values are integers of `ℤ`.  Where the source narrows a
  64-bit product to `int` (the stride computation) the narrowing is explicit,
  see `toInt32`.  `%` on `int` is the C++ remainder, `Int.tmod`.
* `double` values are rationals of `ℚ`; `double` arithmetic and the conversion
  of an integer to `double` are exact, rounding is not rendered.  The
  byte-traffic weight `access_frequency * element_size * dimension_size` is
  formed by the source in unsigned 64-bit arithmetic (an `int64_t` times a
  `size_t` times an `int64_t`), so the product is reduced modulo `2^64` before
  it is converted to `double`.  The largest `double`, the initial best time of
  the selection loop, is the constant `DBL_MAX`: a time that is not below it,
  which a `double` computation turns into `DBL_MAX` or infinity, never replaces
  the initial best time.
* An output parameter (`int& conflict_way`) becomes a component of the result.
* A baseline handle `PlutoProg*` is an `Option`, and a function that
  dereferences it returns an `Option`, `none` for a fault.
* The random source `rand()` is an explicit state, threaded through the
  evaluations; the two readings of the clock are arguments.
* The library function `std::sort` is a parameter of the function that calls it;
  `std::max_element` is rendered by its specification, the first largest element.
* Printing to `std::cout` is not part of the embedding.

The file has three parts: the embedding of the source, reference definitions
that follow the words of the specification, and the properties.
-/

namespace pluto_tiramisu

/-! ## Data model (`pluto_to_tiramisu.h`, `pluto_guided_search.h`) -/

/-- Kind of a transformation: `enum TransformType`. -/
inductive TransformType where
  | TRANS_TILE
  | TRANS_GPU_TILE
  | TRANS_INTERCHANGE
  | TRANS_SKEW
  | TRANS_PARALLELIZE
  | TRANS_SPLIT
  deriving DecidableEq

/-- One transformation: `struct Transformation`. -/
structure Transformation where
  type : TransformType
  loop_dims : List Int
  tile_sizes : List Int
  iterator_names : List String
  statement_id : Int
  factor : Int
  deriving DecidableEq

/-- The constructor `Transformation(TransformType t)`: empty vectors,
`statement_id = 0`, `factor = 0`. -/
def Transformation.new (t : TransformType) : Transformation :=
  { type := t, loop_dims := [], tile_sizes := [], iterator_names := [],
    statement_id := 0, factor := 0 }

/-- One entry of the tile-size table: `ScheduleConfig::TileSize`. -/
structure TileSize where
  loop_name : String
  size : Int
  deriving DecidableEq

/-- A candidate schedule: `struct ScheduleConfig`.  The `std::map` of per-array
coalescing flags is an association list. -/
structure ScheduleConfig where
  transformations : List Transformation
  tile_sizes : List TileSize
  execution_time_ms : ℚ
  is_valid : Bool
  has_coalescing_violation : Bool
  has_bank_conflict : Bool
  bank_conflict_way : Int
  weighted_coalescing_score : ℚ
  array_coalescing_status : List (String × Bool)
  description : String
  deriving DecidableEq

/-- The default constructor `ScheduleConfig()`. -/
def ScheduleConfig.new : ScheduleConfig :=
  { transformations := [], tile_sizes := [], execution_time_ms := -1,
    is_valid := true, has_coalescing_violation := false,
    has_bank_conflict := false, bank_conflict_way := 0,
    weighted_coalescing_score := 0, array_coalescing_status := [],
    description := "" }

/-- Assignment `m[key] = value` on the association list standing for a
`std::map<std::string, bool>`. -/
def map_assign (m : List (String × Bool)) (key : String) (value : Bool) :
    List (String × Bool) :=
  match m with
  | [] => [(key, value)]
  | (k, v) :: rest =>
    if k = key then (k, value) :: rest else (k, v) :: map_assign rest key value

/-- One array access: `struct AccessPattern`. -/
structure AccessPattern where
  array_name : String
  indices : List String
  access_frequency : Int
  element_size : Nat
  dimension_size : Int
  is_write : Bool
  deriving DecidableEq

/-- The default constructor `AccessPattern()`. -/
def AccessPattern.new : AccessPattern :=
  { array_name := "", indices := [], access_frequency := 1, element_size := 4,
    dimension_size := 1024, is_write := false }

/-- The constraint modes: `enum class ConstraintMode`. -/
inductive ConstraintMode where
  | HARD_CONSTRAINT
  | SOFT_CONSTRAINT
  | PENALTY_BASED
  | NO_CONSTRAINT
  deriving DecidableEq

/-- Narrowing of an integer to `int`: the representative of `x` modulo `2^32`
in `[-2^31, 2^31)`.  A product formed in 64 bits and then narrowed has the same
value, since `2^32` divides `2^64`. -/
def toInt32 (x : Int) : Int :=
  (x + 2147483648) % 4294967296 - 2147483648

/-! ## Constraint solver (`pluto_guided_search.cpp`) -/

/-- Embedding of `PlutoConstraintSolver::satisfies_coalescing_constraint`. -/
def satisfies_coalescing_constraint (config : ScheduleConfig) : Bool :=
  match config.transformations.getLast? with
  | none => false
  | some innermost =>
    if innermost.type = TransformType.TRANS_GPU_TILE then true
    else true

/-- The loop `for (int d = 2; d <= 32; d++)` of `check_bank_conflict`, started
with the current `conflict_way` for the remainder `remainder`. -/
def bank_conflict_degree_loop (remainder : Int) (conflict_way : Int) : Int :=
  (List.range' 2 31).foldl
    (fun (cw : Int) (d : Nat) =>
      if Int.tmod 32 (d : Int) = 0 ∧ Int.tmod remainder (d : Int) = 0 then max cw (d : Int)
      else cw)
    conflict_way

/-- Body of the loop over `config.tile_sizes` in `check_bank_conflict`. -/
def bank_conflict_step (conflict_way : Int) (ts : TileSize) : Int :=
  let cw1 :=
    if Int.tmod ts.size 32 ≠ 0 ∧ ts.size > 1 then
      let remainder := Int.tmod ts.size 32
      if remainder ≠ 0 then bank_conflict_degree_loop remainder conflict_way
      else conflict_way
    else conflict_way
  if ts.size = 33 ∨ ts.size = 65 ∨ ts.size = 17 then max cw1 2 else cw1

/-- Embedding of `PlutoConstraintSolver::check_bank_conflict`: the returned flag and the
value left in the output parameter `conflict_way`. -/
def check_bank_conflict (config : ScheduleConfig) : Bool × Int :=
  let conflict_way := config.tile_sizes.foldl bank_conflict_step 1
  (decide (conflict_way > 1), conflict_way)

/-- Embedding of `PlutoConstraintSolver::check_coalescing_for_pattern`. -/
def check_coalescing_for_pattern (config : ScheduleConfig) (pattern : AccessPattern) :
    Bool :=
  match config.transformations.getLast? with
  | none => false
  | some innermost =>
    match pattern.indices.getLast? with
    | none => false
    | some last_index =>
      match innermost.iterator_names.getLast? with
      | none => false
      | some inner_var => if last_index = inner_var then true else false

/-- The search loop of `compute_stride_for_pattern` over the remaining indices:
at the first index equal to `inner_var` the stride is the product, narrowed to
`int` after each multiplication, of `dimension_size` over the indices after it;
`none` when the loop ends without a match. -/
def stride_search (inner_var : String) (dimension_size : Int) : List String → Option Int
  | [] => none
  | index :: rest =>
    if index = inner_var then
      some (rest.foldl (fun stride _ => toInt32 (stride * dimension_size)) 1)
    else stride_search inner_var dimension_size rest

/-- Embedding of `PlutoConstraintSolver::compute_stride_for_pattern`. -/
def compute_stride_for_pattern (config : ScheduleConfig) (pattern : AccessPattern) : Int :=
  match config.transformations.getLast? with
  | none => 1
  | some innermost =>
    if pattern.indices.isEmpty then 1
    else
      match innermost.iterator_names.getLast? with
      | none => 1
      | some inner_var =>
        match stride_search inner_var pattern.dimension_size pattern.indices with
        | some stride => stride
        | none => toInt32 (pattern.dimension_size * pattern.dimension_size)

/-- The variable `weight` of `compute_weighted_coalescing_score` for one
pattern.  The product `access_frequency * element_size * dimension_size` has
operands `int64_t`, `size_t`, `int64_t`: it is formed in unsigned 64-bit
arithmetic, that is modulo `2^64`, and then converted to `double`; a write
multiplies it by 1.5. -/
def pattern_weight (pattern : AccessPattern) : ℚ :=
  let weight : ℚ :=
    (((pattern.access_frequency * (pattern.element_size : Int) * pattern.dimension_size)
        % 18446744073709551616 : Int) : ℚ)
  if pattern.is_write then weight * 1.5 else weight

/-- Embedding of `PlutoConstraintSolver::compute_weighted_coalescing_score`. -/
def compute_weighted_coalescing_score (config : ScheduleConfig)
    (patterns : List AccessPattern) : ℚ :=
  patterns.foldl
    (fun total_score pattern =>
      let weight := pattern_weight pattern
      let stride := compute_stride_for_pattern config pattern
      if stride = 1 then total_score + weight else total_score)
    0

/-- Body of the loop of `filter_by_constraints`: the candidate with its
annotations recomputed, and the flag `should_keep`. -/
def filter_step (coalescing_mode bank_conflict_mode : ConstraintMode)
    (config : ScheduleConfig) : ScheduleConfig × Bool :=
  let has_coalescing := satisfies_coalescing_constraint config
  let config1 := { config with has_coalescing_violation := !has_coalescing }
  let keep1 :=
    if coalescing_mode = ConstraintMode.HARD_CONSTRAINT ∧ has_coalescing = false then false
    else true
  let conflict_way := (check_bank_conflict config1).2
  let config2 :=
    { config1 with bank_conflict_way := conflict_way,
                   has_bank_conflict := decide (conflict_way > 1) }
  let keep2 :=
    if bank_conflict_mode = ConstraintMode.HARD_CONSTRAINT ∧ config2.has_bank_conflict = true
    then false
    else keep1
  (config2, keep2)

/-- Embedding of `PlutoConstraintSolver::filter_by_constraints`, with the two mode members of
the solver as arguments. -/
def filter_by_constraints (coalescing_mode bank_conflict_mode : ConstraintMode)
    (candidates : List ScheduleConfig) : List ScheduleConfig :=
  candidates.foldl
    (fun filtered config =>
      let r := filter_step coalescing_mode bank_conflict_mode config
      if r.2 then filtered ++ [r.1] else filtered)
    []

/-- The loop over `config.tile_sizes` of `is_legal_config`. -/
def legal_tile_sizes : List TileSize → Bool
  | [] => true
  | ts :: rest =>
    if ts.size ≤ 0 ∨ ts.size > 1024 then false else legal_tile_sizes rest

/-- Embedding of `PlutoConstraintSolver::is_legal_config`. -/
def is_legal_config (config : ScheduleConfig) : Bool :=
  if config.transformations.isEmpty then false
  else legal_tile_sizes config.tile_sizes

/-! ## GEMM driver (`example_gemm_multi_access.cpp`) -/

/-- Body of the loop over `orders` in `generate_gemm_loop_orders`: the config
built for one loop order, one single-iterator interchange per loop in the given
order, tile size 32 on `i`, `j` and `k`. -/
def gemm_loop_order_config (order : List String) : ScheduleConfig :=
  let config0 := ScheduleConfig.new
  let config1 :=
    order.foldl
      (fun config var =>
        let trans0 := Transformation.new TransformType.TRANS_INTERCHANGE
        let trans := { trans0 with iterator_names := trans0.iterator_names ++ [var] }
        { config with transformations := config.transformations ++ [trans] })
      config0
  let config2 :=
    { config1 with
      tile_sizes :=
        config1.tile_sizes ++ [TileSize.mk "i" 32] ++ [TileSize.mk "j" 32]
          ++ [TileSize.mk "k" 32] }
  { config2 with
    description :=
      "Loop order: (" ++ order.getD 0 "" ++ ", " ++ order.getD 1 "" ++ ", "
        ++ order.getD 2 "" ++ ")" }

/-- Embedding of `generate_gemm_loop_orders`: the six orders of the loops `i`, `j`, `k`. -/
def generate_gemm_loop_orders : List ScheduleConfig :=
  let orders : List (List String) :=
    [["i", "j", "k"], ["i", "k", "j"], ["j", "i", "k"],
     ["j", "k", "i"], ["k", "i", "j"], ["k", "j", "i"]]
  orders.foldl (fun configs order => configs ++ [gemm_loop_order_config order]) []

/-- The local `pattern_A` of `create_gemm_access_patterns`: `A[i][k]`, read. -/
def pattern_A : AccessPattern :=
  { AccessPattern.new with
    array_name := "A", indices := ["i", "k"], access_frequency := 1,
    element_size := 4, dimension_size := 1024, is_write := false }

/-- The local `pattern_B` of `create_gemm_access_patterns`: `B[k][j]`, read. -/
def pattern_B : AccessPattern :=
  { AccessPattern.new with
    array_name := "B", indices := ["k", "j"], access_frequency := 1,
    element_size := 4, dimension_size := 1024, is_write := false }

/-- The local `pattern_C` of `create_gemm_access_patterns`: `C[i][j]`, read and
written. -/
def pattern_C : AccessPattern :=
  { AccessPattern.new with
    array_name := "C", indices := ["i", "j"], access_frequency := 2,
    element_size := 4, dimension_size := 1024, is_write := true }

/-- Embedding of `create_gemm_access_patterns`. -/
def create_gemm_access_patterns : List AccessPattern :=
  [pattern_A, pattern_B, pattern_C]

/-- State of the loop of `evaluate_all_loop_orders`: the configs annotated so
far, `best_score` and `best_idx`. -/
structure LoopOrderSearch where
  configs : List ScheduleConfig
  best_score : ℚ
  best_idx : Int

/-- The loop `for (size_t i = 0; i < configs.size(); i++)` of
`evaluate_all_loop_orders`, from index `i` on. -/
def evaluate_loop_orders_from (patterns : List AccessPattern) :
    Nat → List ScheduleConfig → LoopOrderSearch → LoopOrderSearch
  | _, [], st => st
  | i, config :: rest, st =>
    let a_coal := check_coalescing_for_pattern config (patterns.getD 0 AccessPattern.new)
    let b_coal := check_coalescing_for_pattern config (patterns.getD 1 AccessPattern.new)
    let c_coal := check_coalescing_for_pattern config (patterns.getD 2 AccessPattern.new)
    let score := compute_weighted_coalescing_score config patterns
    let status :=
      map_assign (map_assign (map_assign config.array_coalescing_status "A" a_coal) "B" b_coal)
        "C" c_coal
    let config1 :=
      { config with array_coalescing_status := status, weighted_coalescing_score := score }
    let st1 : LoopOrderSearch :=
      if score > st.best_score then
        { configs := st.configs ++ [config1], best_score := score, best_idx := (i : Int) }
      else { st with configs := st.configs ++ [config1] }
    evaluate_loop_orders_from patterns (i + 1) rest st1

/-- Embedding of `evaluate_all_loop_orders`: the annotated configs, the best score and the
index of the config that reached it first. -/
def evaluate_all_loop_orders : LoopOrderSearch :=
  evaluate_loop_orders_from create_gemm_access_patterns 0 generate_gemm_loop_orders
    { configs := [], best_score := -1000000000, best_idx := -1 }

/-! ## Baseline program (PLUTO) -/

/-- Modelled from the spec: the transformation matrix `PlutoMatrix` of the
external polyhedral scheduler, with the members the source reads: the rows
`val` of 64-bit coefficients and the numbers `nrows` and `ncols`. -/
structure PlutoMatrix where
  val : List (List Int)
  nrows : Int
  ncols : Int

/-- Modelled from the spec: a statement of the baseline schedule, declared in
the headers of the external polyhedral scheduler.  Of `struct Stmt` the source
reads the dimension, the iterator names and the transformation matrix;
`iterators` is a `char **`, `none` for a null pointer, and an entry `none` is a
null name; `trans` is a `PlutoMatrix *`, `none` for a null pointer. -/
structure Stmt where
  dim : Int
  iterators : Option (List (Option String))
  trans : Option PlutoMatrix := none

/-- Modelled from the spec: the baseline program `PlutoProg` of the external
polyhedral scheduler, with the members the source reads: the number of loop
dimensions `nvar`, the number of statements `nstmts`, the number of parameters
`npar` and the statement array `stmts`.  A handle `PlutoProg*` is an
`Option PlutoProg`, `none` for the null handle. -/
structure PlutoProg where
  nvar : Int
  nstmts : Int
  npar : Int
  stmts : List Stmt

/-! ## Candidate generation (`pluto_guided_search.cpp`)

A function that dereferences the baseline returns an `Option`: `none` stands
for a fault (null dereference, read past the end of an array, a `std::string`
built from a null pointer). -/

/-- Body of the loop of `pluto_prog_to_config` for dimension `i`: one
interchange transformation, named by iterator `i` when the statement has
iterator names and the entry is not null. -/
def pluto_prog_to_config_step (stmt : Stmt) (config : ScheduleConfig) (i : Nat) :
    Option ScheduleConfig :=
  let trans := Transformation.new TransformType.TRANS_INTERCHANGE
  match stmt.iterators with
  | none => some { config with transformations := config.transformations ++ [trans] }
  | some iterators =>
    match iterators[i]? with
    | none => none
    | some none => some { config with transformations := config.transformations ++ [trans] }
    | some (some name) =>
      let trans1 := { trans with iterator_names := trans.iterator_names ++ [name] }
      some { config with transformations := config.transformations ++ [trans1] }

/-- Embedding of `PlutoConstraintSolver::pluto_prog_to_config`. -/
def pluto_prog_to_config (prog : Option PlutoProg) : Option ScheduleConfig :=
  let config := ScheduleConfig.new
  match prog with
  | none => some config
  | some p =>
    if p.nstmts = 0 then some config
    else
      match p.stmts.head? with
      | none => none
      | some stmt =>
        (List.range p.nvar.toNat).foldlM (pluto_prog_to_config_step stmt) config

/-- The conversion `(size_t)num_candidates` of an `int`. -/
def size_t_of_int (k : Int) : Nat :=
  (k % 18446744073709551616).toNat

/-- The read `optimal_prog->stmts[0]->iterators[d]` assigned to a `std::string`. -/
def read_iterator_name (p : PlutoProg) (d : Nat) : Option String :=
  match p.stmts.head? with
  | none => none
  | some stmt =>
    match stmt.iterators with
    | none => none
    | some iterators =>
      match iterators[d]? with
      | none => none
      | some entry => entry

/-- The variant built in the loop of `generate_candidates_from_optimal` for the
tile size `base_tile`, with its constraint annotations. -/
def tiling_variant (p : PlutoProg) (optimal_config : ScheduleConfig) (base_tile : Int) :
    Option ScheduleConfig :=
  let variant0 := { optimal_config with tile_sizes := [] }
  match
    (List.range p.nvar.toNat).foldlM
      (fun (variant : ScheduleConfig) (d : Nat) =>
        match read_iterator_name p d with
        | none => none
        | some loop_name =>
          some { variant with
                 tile_sizes := variant.tile_sizes ++ [TileSize.mk loop_name base_tile] })
      variant0
  with
  | none => none
  | some variant1 =>
    let variant2 :=
      { variant1 with description := "Tiling variant " ++ toString base_tile }
    let variant3 :=
      { variant2 with has_coalescing_violation := !satisfies_coalescing_constraint variant2 }
    let variant4 := { variant3 with bank_conflict_way := (check_bank_conflict variant3).2 }
    some { variant4 with has_bank_conflict := decide (variant4.bank_conflict_way > 1) }

/-- The loop `for (int base_tile : tile_variants)` of
`generate_candidates_from_optimal` over the remaining tile sizes. -/
def generate_candidates_loop (p : PlutoProg) (optimal_config : ScheduleConfig)
    (num_candidates : Int) : List Int → List ScheduleConfig → Option (List ScheduleConfig)
  | [], candidates => some candidates
  | base_tile :: rest, candidates =>
    if candidates.length ≥ size_t_of_int num_candidates then some candidates
    else
      match tiling_variant p optimal_config base_tile with
      | none => none
      | some variant =>
        if satisfies_coalescing_constraint variant then
          generate_candidates_loop p optimal_config num_candidates rest (candidates ++ [variant])
        else generate_candidates_loop p optimal_config num_candidates rest candidates

/-- Embedding of `PlutoConstraintSolver::generate_candidates_from_optimal`. -/
def generate_candidates_from_optimal (optimal_prog : Option PlutoProg)
    (num_candidates : Int) : Option (List ScheduleConfig) :=
  match pluto_prog_to_config optimal_prog with
  | none => none
  | some config0 =>
    let optimal_config := { config0 with description := "PLUTO Optimal" }
    let candidates := [optimal_config]
    match optimal_prog with
    | none => none
    | some p =>
      generate_candidates_loop p optimal_config num_candidates [16, 32, 64, 128, 256]
        candidates

/-- Embedding of `PlutoConstraintSolver::generate_all_legal_configs`. -/
def generate_all_legal_configs (num_loops : Int) (_loop_names : List String)
    (only_coalesced : Bool) : List ScheduleConfig :=
  (List.range num_loops.toNat).foldl
    (fun candidates i =>
      let config :=
        { ScheduleConfig.new with
          description := "Config with loop " ++ toString i ++ " innermost" }
      if !only_coalesced || is_legal_config config then candidates ++ [config]
      else candidates)
    []

/-- Body of the loop of `generate_by_constraint_sampling`: the copy of
`candidates[0]` described as a tile variant, every entry of its tile-size table
set to `tile`. -/
def sampling_variant (first : ScheduleConfig) (tile : Int) : ScheduleConfig :=
  let config0 := { first with description := "Tile variant " ++ toString tile }
  { config0 with tile_sizes := config0.tile_sizes.map (fun ts => { ts with size := tile }) }

/-- The loop `for (size_t i = 1; i < tile_variants.size() && ...; i++)` of
`generate_by_constraint_sampling` over the remaining indices `i`. -/
def sampling_loop (tile_variants : List Int) (num_samples : Int) :
    List Nat → List ScheduleConfig → Option (List ScheduleConfig)
  | [], candidates => some candidates
  | i :: rest, candidates =>
    if (candidates.length : Int) < num_samples then
      match candidates.head?, tile_variants[i]? with
      | some first, some tile =>
        let config := sampling_variant first tile
        if satisfies_coalescing_constraint config then
          sampling_loop tile_variants num_samples rest (candidates ++ [config])
        else sampling_loop tile_variants num_samples rest candidates
      | _, _ => none
    else some candidates

/-- Embedding of `PlutoConstraintSolver::generate_by_constraint_sampling`. -/
def generate_by_constraint_sampling (base_prog : Option PlutoProg) (num_samples : Int) :
    Option (List ScheduleConfig) :=
  match pluto_prog_to_config base_prog with
  | none => none
  | some config0 =>
    let candidates := [{ config0 with description := "Base PLUTO solution" }]
    sampling_loop [16, 32, 64, 128] num_samples [1, 2, 3] candidates

/-! ## Cost evaluator (`pluto_guided_search.cpp`) -/

/-- The ambient random source: the values the successive calls of `rand()`
return, the next one first. -/
abbrev RandSource := Nat → Int

/-- One call of `rand()`: the value returned and the source after the call. -/
def rand (rng : RandSource) : Int × RandSource :=
  (rng 0, fun n => rng (n + 1))

/-- The settings of `class TiramisuConfigEvaluator`. -/
structure TiramisuConfigEvaluator where
  apply_bank_conflict_penalty_ : Bool
  bank_conflict_penalty_factor_ : ℚ

/-- The constructor of `TiramisuConfigEvaluator`: penalty enabled, factor 2.0. -/
def TiramisuConfigEvaluator.new : TiramisuConfigEvaluator :=
  { apply_bank_conflict_penalty_ := true, bank_conflict_penalty_factor_ := 2 }

/-- Embedding of `TiramisuConfigEvaluator::set_bank_conflict_penalty`. -/
def TiramisuConfigEvaluator.set_bank_conflict_penalty (_ev : TiramisuConfigEvaluator)
    (enable : Bool) (factor : ℚ) : TiramisuConfigEvaluator :=
  { apply_bank_conflict_penalty_ := enable, bank_conflict_penalty_factor_ := factor }

/-- Embedding of `TiramisuConfigEvaluator::compute_penalized_score`. -/
def compute_penalized_score (ev : TiramisuConfigEvaluator) (config : ScheduleConfig)
    (raw_time : ℚ) : ℚ :=
  if config.has_bank_conflict = false then raw_time
  else
    let penalty_multiplier : ℚ :=
      if config.bank_conflict_way = 2 then ev.bank_conflict_penalty_factor_
      else if config.bank_conflict_way = 4 then ev.bank_conflict_penalty_factor_ * 1.5
      else if config.bank_conflict_way = 8 then ev.bank_conflict_penalty_factor_ * 2.0
      else if config.bank_conflict_way = 16 then ev.bank_conflict_penalty_factor_ * 4.0
      else if config.bank_conflict_way = 32 then ev.bank_conflict_penalty_factor_ * 16.0
      else if config.bank_conflict_way > 1 then
        (config.bank_conflict_way : ℚ) * (ev.bank_conflict_penalty_factor_ / 2.0)
      else 1.0
    raw_time * penalty_multiplier

/-- Embedding of `TiramisuConfigEvaluator::satisfies_coalescing_constraint`, the
private copy of the evaluator. -/
def TiramisuConfigEvaluator.satisfies_coalescing_constraint (config : ScheduleConfig) :
    Bool :=
  match config.transformations.getLast? with
  | none => false
  | some innermost =>
    if innermost.type = TransformType.TRANS_GPU_TILE then true
    else true

/-- The variable `avg_tile` of `evaluate_config` for a non-empty tile table: the
sum of the sizes, divided by the table length in `size_t` arithmetic (the `int`
sum is converted to 64-bit unsigned) and narrowed back to `int`. -/
def average_tile (tile_sizes : List TileSize) : Int :=
  let sum := tile_sizes.foldl (fun (avg_tile : Int) ts => avg_tile + ts.size) 0
  toInt32 ((sum % 18446744073709551616) / (tile_sizes.length : Int))

/-- Embedding of `TiramisuConfigEvaluator::evaluate_config`: the estimated time
and the random source after the one call of `rand()`. -/
def evaluate_config (ev : TiramisuConfigEvaluator) (config : ScheduleConfig)
    (rng : RandSource) : ℚ × RandSource :=
  let estimated_time : ℚ := 100.0
  let time1 : ℚ :=
    if config.tile_sizes.isEmpty then estimated_time
    else
      let avg_tile := average_tile config.tile_sizes
      if avg_tile ≥ 32 ∧ avg_tile ≤ 64 then estimated_time * 0.8
      else if avg_tile < 16 then estimated_time * 1.3
      else if avg_tile > 128 then estimated_time * 1.2
      else estimated_time
  let time2 : ℚ :=
    if TiramisuConfigEvaluator.satisfies_coalescing_constraint config then time1 * 0.7
    else time1
  let r := rand rng
  let noise : ℚ := ((Int.tmod r.1 20 - 10 : Int) : ℚ) / 100.0
  let time3 : ℚ := time2 * (1.0 + noise)
  let time4 : ℚ :=
    if ev.apply_bank_conflict_penalty_ = true ∧ config.has_bank_conflict = true then
      compute_penalized_score ev config time3
    else time3
  (time4, r.2)

/-- The largest finite `double`, `std::numeric_limits<double>::max()`:
`(2 - 2^(-52)) × 2^1023`. -/
def DBL_MAX : ℚ := 2 ^ 1024 - 2 ^ 971

/-- The test `time > 0 && time < best_time` of `search_best_config`. -/
def improves (time : ℚ) (best_time : ℚ) : Bool :=
  decide (time > 0 ∧ time < best_time)

/-- The loop of `search_best_config` over the remaining candidates, on the
state `(best_config, best_time)`. -/
def search_best_loop (ev : TiramisuConfigEvaluator) :
    List ScheduleConfig → ScheduleConfig × ℚ → RandSource →
      (ScheduleConfig × ℚ) × RandSource
  | [], state, rng => (state, rng)
  | config :: rest, state, rng =>
    let r := evaluate_config ev config rng
    let time := r.1
    if improves time state.2 then
      search_best_loop ev rest ({ config with execution_time_ms := time }, time) r.2
    else search_best_loop ev rest state r.2

/-- Embedding of `TiramisuConfigEvaluator::search_best_config`: the best config
and the random source after the evaluations.  The initial `best_time` is the
largest `double`. -/
def search_best_config (ev : TiramisuConfigEvaluator) (candidates : List ScheduleConfig)
    (rng : RandSource) : ScheduleConfig × RandSource :=
  let r := search_best_loop ev candidates (ScheduleConfig.new, DBL_MAX) rng
  (r.1.1, r.2)

/-- The first loop of `evaluate_all_configs`: every candidate with its evaluated
time and validity flag. -/
def evaluate_all_loop (ev : TiramisuConfigEvaluator) :
    List ScheduleConfig → RandSource → List ScheduleConfig × RandSource
  | [], rng => ([], rng)
  | config :: rest, rng =>
    let r := evaluate_config ev config rng
    let config1 := { config with execution_time_ms := r.1 }
    let config2 := { config1 with is_valid := decide (config1.execution_time_ms > 0) }
    let tail := evaluate_all_loop ev rest r.2
    (config2 :: tail.1, tail.2)

/-- The comparator passed to `std::sort` in `evaluate_all_configs`. -/
def config_less (a b : ScheduleConfig) : Bool :=
  if a.is_valid = false then false
  else if b.is_valid = false then true
  else decide (a.execution_time_ms < b.execution_time_ms)

/-- Embedding of `TiramisuConfigEvaluator::evaluate_all_configs`.  The library
function `std::sort` is the parameter `std_sort`. -/
def evaluate_all_configs
    (std_sort : (ScheduleConfig → ScheduleConfig → Bool) → List ScheduleConfig →
      List ScheduleConfig)
    (ev : TiramisuConfigEvaluator) (candidates : List ScheduleConfig) (rng : RandSource) :
    List ScheduleConfig × RandSource :=
  let r := evaluate_all_loop ev candidates rng
  (std_sort config_less r.1, r.2)

/-! ## Hybrid optimizer (`pluto_guided_search.cpp`) -/

/-- The result record `HybridOptimizer::OptimizationResult`.  A statistic of type
`double` is `none` when it holds no number: the member was never assigned, or
it is the result of dividing by zero. -/
structure OptimizationResult where
  best_config : ScheduleConfig
  all_candidates : List ScheduleConfig
  num_candidates_generated : Int
  num_legal_candidates : Int
  num_evaluated : Int
  total_search_time_ms : ℚ
  best_time_ms : Option ℚ
  worst_time_ms : Option ℚ
  average_time_ms : Option ℚ

/-- Division of a `double` by an `int`, `none` when the divisor is zero. -/
def double_div (x : ℚ) (n : Int) : Option ℚ :=
  if n = 0 then none else some (x / (n : ℚ))

/-- Embedding of `HybridOptimizer::optimize_with_neighbors`.  The two readings of
the clock are the arguments `start_time` and `end_time`, in milliseconds. -/
def optimize_with_neighbors (ev : TiramisuConfigEvaluator) (optimal_prog : Option PlutoProg)
    (num_neighbors : Int) (rng : RandSource) (start_time end_time : ℚ) :
    Option (OptimizationResult × RandSource) :=
  match generate_candidates_from_optimal optimal_prog num_neighbors with
  | none => none
  | some all_candidates =>
    let legal_candidates :=
      all_candidates.foldl
        (fun legal config => if is_legal_config config then legal ++ [config] else legal) []
    let best := search_best_config ev legal_candidates rng
    let stats :=
      legal_candidates.foldl
        (fun (acc : ℚ × ℚ) config =>
          if config.execution_time_ms > 0 then
            (acc.1 + config.execution_time_ms, max acc.2 config.execution_time_ms)
          else acc)
        ((0 : ℚ), (0 : ℚ))
    let num_evaluated : Int := (legal_candidates.length : Int)
    some
      ({ best_config := best.1,
         all_candidates := all_candidates,
         num_candidates_generated := (all_candidates.length : Int),
         num_legal_candidates := (legal_candidates.length : Int),
         num_evaluated := num_evaluated,
         total_search_time_ms := end_time - start_time,
         best_time_ms := some best.1.execution_time_ms,
         worst_time_ms := some stats.2,
         average_time_ms := double_div stats.1 num_evaluated },
       best.2)

/-- Embedding of `HybridOptimizer::optimize_with_all_legal`. -/
def optimize_with_all_legal (ev : TiramisuConfigEvaluator) (num_loops : Int)
    (loop_names : List String) (rng : RandSource) (start_time end_time : ℚ) :
    OptimizationResult × RandSource :=
  let all_candidates := generate_all_legal_configs num_loops loop_names true
  let best := search_best_config ev all_candidates rng
  ({ best_config := best.1,
     all_candidates := all_candidates,
     num_candidates_generated := (all_candidates.length : Int),
     num_legal_candidates := (all_candidates.length : Int),
     num_evaluated := (all_candidates.length : Int),
     total_search_time_ms := end_time - start_time,
     best_time_ms := none,
     worst_time_ms := none,
     average_time_ms := none },
   best.2)

/-- Embedding of `HybridOptimizer::optimize_with_sampling`. -/
def optimize_with_sampling (ev : TiramisuConfigEvaluator) (base_prog : Option PlutoProg)
    (num_samples : Int) (rng : RandSource) (start_time end_time : ℚ) :
    Option (OptimizationResult × RandSource) :=
  match generate_by_constraint_sampling base_prog num_samples with
  | none => none
  | some all_candidates =>
    let best := search_best_config ev all_candidates rng
    some
      ({ best_config := best.1,
         all_candidates := all_candidates,
         num_candidates_generated := (all_candidates.length : Int),
         num_legal_candidates := (all_candidates.length : Int),
         num_evaluated := (all_candidates.length : Int),
         total_search_time_ms := end_time - start_time,
         best_time_ms := none,
         worst_time_ms := none,
         average_time_ms := none },
       best.2)

/-- The loop of `optimize` that collects `base_prog->stmts[0]->iterators[i]` for
`i < ndims` into `names`. -/
def read_iterator_names (p : PlutoProg) : Option (List String) :=
  (List.range p.nvar.toNat).foldlM
    (fun (names : List String) (i : Nat) =>
      match read_iterator_name p i with
      | none => none
      | some name => some (names ++ [name]))
    []

/-- Embedding of `HybridOptimizer::optimize`. -/
def optimize (ev : TiramisuConfigEvaluator) (base_prog : Option PlutoProg)
    (strategy : String) (rng : RandSource) (start_time end_time : ℚ) :
    Option (OptimizationResult × RandSource) :=
  if strategy = "optimal_neighbors" then
    optimize_with_neighbors ev base_prog 10 rng start_time end_time
  else if strategy = "all_legal" then
    match base_prog with
    | none => none
    | some p =>
      match read_iterator_names p with
      | none => none
      | some names => some (optimize_with_all_legal ev p.nvar names rng start_time end_time)
  else if strategy = "sampling" then
    optimize_with_sampling ev base_prog 5 rng start_time end_time
  else optimize_with_neighbors ev base_prog 10 rng start_time end_time

/-! ## Search-space benchmark (`benchmark_search_space_comparison.cpp`) -/

/-- The record `struct SearchSpaceEstimate`. -/
structure SearchSpaceEstimate where
  num_loop_orders : Int
  num_tile_sizes : Int
  total_configs : Int
  deriving DecidableEq

/-- The constructor `SearchSpaceEstimate(int loops, int tile_options)`: the
factorial of `loops`, the power `tile_options ^ loops` and their product.  The
source forms the products in `int`; they are taken exact here, as they are for
every use in the benchmark (the largest is `4! × 5^4 = 15000`). -/
def SearchSpaceEstimate.new (loops tile_options : Int) : SearchSpaceEstimate :=
  let num_loop_orders :=
    (List.range' 1 loops.toNat).foldl (fun (acc : Int) (i : Nat) => acc * (i : Int)) 1
  let num_tile_sizes :=
    (List.range loops.toNat).foldl (fun (acc : Int) (_ : Nat) => acc * tile_options) 1
  { num_loop_orders := num_loop_orders, num_tile_sizes := num_tile_sizes,
    total_configs := num_loop_orders * num_tile_sizes }

/-- The vector `patterns` of `benchmark_gemm`: `A[i][k]` and `B[k][j]` read,
`C[i][j]` read and written. -/
def benchmark_gemm_patterns : List AccessPattern :=
  [{ array_name := "A", indices := ["i", "k"], access_frequency := 1, element_size := 4,
     dimension_size := 1024, is_write := false },
   { array_name := "B", indices := ["k", "j"], access_frequency := 1, element_size := 4,
     dimension_size := 1024, is_write := false },
   { array_name := "C", indices := ["i", "j"], access_frequency := 2, element_size := 4,
     dimension_size := 1024, is_write := true }]

/-- The vector `all_orders` of `benchmark_gemm`. -/
def benchmark_gemm_all_orders : List (List String) :=
  [["i", "j", "k"], ["i", "k", "j"], ["j", "i", "k"],
   ["j", "k", "i"], ["k", "i", "j"], ["k", "j", "i"]]

/-- The config that the loop over `all_orders` of `benchmark_gemm` builds for one
order: one single-iterator interchange per loop, no tile size. -/
def benchmark_gemm_config (order : List String) : ScheduleConfig :=
  order.foldl
    (fun config var =>
      let trans0 := Transformation.new TransformType.TRANS_INTERCHANGE
      let trans := { trans0 with iterator_names := trans0.iterator_names ++ [var] }
      { config with transformations := config.transformations ++ [trans] })
    ScheduleConfig.new

/-- The vector `scored_orders` of `benchmark_gemm` after the loop over
`all_orders`: every order with its weighted coalescing score. -/
def benchmark_gemm_scored_orders : List (List String × ℚ) :=
  benchmark_gemm_all_orders.foldl
    (fun scored_orders order =>
      let config := benchmark_gemm_config order
      let score := compute_weighted_coalescing_score config benchmark_gemm_patterns
      scored_orders ++ [(order, score)])
    []

/-- The library function `std::max_element` with a comparator: the first element
that no other element exceeds, `none` (the end iterator) for an empty range. -/
def std_max_element {α : Type} (comp : α → α → Bool) : List α → Option α
  | [] => none
  | first :: rest =>
    some (rest.foldl (fun largest it => if comp largest it then it else largest) first)

/-- The values that `benchmark_gemm` computes and prints. -/
structure GemmBenchmark where
  original : SearchSpaceEstimate
  scored_orders : List (List String × ℚ)
  retained_orders : Int
  retained_configs : Int
  best : Option (List String × ℚ)

/-- Embedding of `benchmark_gemm`. -/
def benchmark_gemm : GemmBenchmark :=
  let original := SearchSpaceEstimate.new 3 5
  let scored_orders := benchmark_gemm_scored_orders
  let retained_orders :=
    scored_orders.foldl
      (fun (retained_orders : Int) entry =>
        if entry.2 > 0 then retained_orders + 1 else retained_orders)
      0
  let retained_configs := retained_orders * 25
  let best := std_max_element (fun a b => decide (a.2 < b.2)) scored_orders
  { original := original, scored_orders := scored_orders, retained_orders := retained_orders,
    retained_configs := retained_configs, best := best }

/-! ## Bridge to Tiramisu (`pluto_to_tiramisu.cpp`)

The functions read the baseline through pointers: a read of a missing statement,
iterator entry or matrix coefficient is a fault, `none`.  The reads that
`print_pluto_transformation_matrix` and the progress lines make only to print
are not part of the embedding. -/

/-- The read `trans->val[i][j]` of a matrix coefficient. -/
def matrix_read (trans : PlutoMatrix) (i j : Int) : Option Int :=
  if i < 0 ∨ j < 0 then none
  else
    match trans.val[i.toNat]? with
    | none => none
    | some row => row[j.toNat]?

/-- The inner loop of `extract_loop_order` for the hyperplane `h`: the state is
`(max_dim, max_coeff)`; the coefficients are compared as `abs((int)...)`. -/
def extract_loop_order_row (trans : PlutoMatrix) (dim : Int) (h : Nat) : Option (Int × Int) :=
  (List.range dim.toNat).foldlM
    (fun (st : Int × Int) (d : Nat) =>
      match matrix_read trans (h : Int) (d : Int) with
      | none => none
      | some coeff =>
        if (toInt32 coeff).natAbs > (toInt32 st.2).natAbs then some ((d : Int), coeff)
        else some st)
    ((0 : Int), (0 : Int))

/-- Embedding of `extract_loop_order`. -/
def extract_loop_order (trans : Option PlutoMatrix) (dim : Int) : Option (List Int) :=
  let default_order :=
    (List.range dim.toNat).foldl
      (fun (loop_order : List Int) (i : Nat) => loop_order ++ [(i : Int)]) []
  match trans with
  | none => some default_order
  | some m =>
    if m.nrows = 0 then some default_order
    else
      (List.range (min m.nrows dim).toNat).foldlM
        (fun (loop_order : List Int) (h : Nat) =>
          match extract_loop_order_row m dim h with
          | none => none
          | some st => some (loop_order ++ [st.1]))
        []

/-- Embedding of `extract_iterator_names`: the names of the statement, a default
name for a null entry, default names when the statement has no name array. -/
def extract_iterator_names (stmt : Stmt) : Option (List String) :=
  match stmt.iterators with
  | some iterators =>
    (List.range stmt.dim.toNat).foldlM
      (fun (names : List String) (d : Nat) =>
        match iterators[d]? with
        | none => none
        | some (some name) => some (names ++ [name])
        | some none =>
          if d < 3 then some (names ++ [(["i", "j", "k"] : List String).getD d ""])
          else some (names ++ ["i" ++ toString d]))
      []
  | none =>
    some
      ((List.range stmt.dim.toNat).foldl
        (fun (names : List String) (d : Nat) =>
          if d < 6 then names ++ [(["i", "j", "k", "l", "m", "n"] : List String).getD d ""]
          else names ++ ["i" ++ toString d])
        [])

/-- The tile that `extract_transformations` builds for a statement of dimension
`dim ≥ 2`: a GPU tile when the innermost hyperplane is coalescing, the first
three dimensions at most as tiled dimensions, tile size 32. -/
def extract_tile (dim : Int) (is_coalescing : Bool) (iterator_names : List String)
    (s : Nat) : Transformation :=
  let tile0 :=
    Transformation.new
      (if is_coalescing then TransformType.TRANS_GPU_TILE else TransformType.TRANS_TILE)
  let max_dims := if dim < 3 then dim else 3
  let tile1 :=
    { tile0 with
      loop_dims :=
        (List.range max_dims.toNat).foldl (fun (dims : List Int) (d : Nat) => dims ++ [(d : Int)])
          tile0.loop_dims }
  let tile2 :=
    if dim = 2 then { tile1 with tile_sizes := [32, 32] }
    else if dim = 3 then { tile1 with tile_sizes := [32, 32, 32] }
    else
      { tile1 with
        tile_sizes :=
          (List.range dim.toNat).foldl (fun (sizes : List Int) (_ : Nat) => sizes ++ [32])
            tile1.tile_sizes }
  { tile2 with iterator_names := iterator_names, statement_id := toInt32 (s : Int) }

/-- Body of the loop over the statements in `extract_transformations`, for the
statement of index `s`. -/
def extract_transformations_step (stmts : List Stmt) (transforms : List Transformation)
    (s : Nat) : Option (List Transformation) :=
  match stmts[s]? with
  | none => none
  | some stmt =>
    match extract_iterator_names stmt with
    | none => none
    | some iterator_names =>
      match stmt.trans with
      | none => some transforms
      | some m =>
        if m.nrows > 0 then
          match extract_loop_order (some m) stmt.dim with
          | none => none
          | some _loop_order =>
            let last_hyp := m.nrows - 1
            let coalescing : Option Bool :=
              if stmt.dim > 0 ∧ last_hyp ≥ 0 then
                match matrix_read m last_hyp (stmt.dim - 1) with
                | none => none
                | some innermost_coeff => some (decide (toInt32 innermost_coeff ≥ 1))
              else some false
            match coalescing with
            | none => none
            | some is_coalescing =>
              if stmt.dim ≥ 2 then
                some (transforms ++ [extract_tile stmt.dim is_coalescing iterator_names s])
              else some transforms
        else some transforms

/-- Embedding of `PlutoToTiramisuConverter::extract_transformations`.  The loop
counter is `unsigned`, so the loop runs over `nstmts` taken modulo `2^32`. -/
def extract_transformations (pluto_prog : Option PlutoProg) : Option (List Transformation) :=
  match pluto_prog with
  | none => some []
  | some p =>
    if p.nstmts = 0 then some []
    else
      (List.range (p.nstmts % 4294967296).toNat).foldlM
        (extract_transformations_step p.stmts) []

/-! ## Reference definitions, in the words of the specification -/

/-- The drop rule of the constraint filter: the coalescing mode is hard and the
candidate violates coalescing, or the bank-conflict mode is hard and the
candidate has a bank conflict (`way > 1`). -/
def is_dropped (coalescing_mode bank_conflict_mode : ConstraintMode)
    (config : ScheduleConfig) : Bool :=
  (decide (coalescing_mode = ConstraintMode.HARD_CONSTRAINT)
      && !satisfies_coalescing_constraint config)
    || (decide (bank_conflict_mode = ConstraintMode.HARD_CONSTRAINT)
      && decide ((check_bank_conflict config).2 > 1))

/-- A candidate with its coalescing-violation and bank-conflict annotations
recomputed, every other field unchanged. -/
def with_constraint_annotations (config : ScheduleConfig) : ScheduleConfig :=
  { config with
    has_coalescing_violation := !satisfies_coalescing_constraint config,
    bank_conflict_way := (check_bank_conflict config).2,
    has_bank_conflict := decide ((check_bank_conflict config).2 > 1) }

/-- The innermost loop variable of a config: the last iterator name of its last
transformation, when there is one. -/
def innermost_variable (config : ScheduleConfig) : Option String :=
  match config.transformations.getLast? with
  | none => none
  | some innermost => innermost.iterator_names.getLast?

/-- The weight of a pattern in the words of the specification:
`access_frequency × element_size × dimension_size × (1.5 if is_write else 1.0)`. -/
def spec_weight (pattern : AccessPattern) : ℚ :=
  (pattern.access_frequency : ℚ) * (pattern.element_size : ℚ) * (pattern.dimension_size : ℚ)
    * (if pattern.is_write then 1.5 else 1.0)

/-- The stride as claimed for a pattern and the innermost loop variable `v`: if
`v` occurs in the index list at position `i` the stride is
`dimension_size ^ (n - 1 - i)`, and if `v` does not occur it is
`dimension_size ^ 2`. -/
def stride_as_claimed (config : ScheduleConfig) (pattern : AccessPattern) (v : String) : Prop :=
  (∀ i : Nat, pattern.indices[i]? = some v →
      compute_stride_for_pattern config pattern
        = pattern.dimension_size ^ (pattern.indices.length - 1 - i))
  ∧ (v ∉ pattern.indices →
      compute_stride_for_pattern config pattern = pattern.dimension_size ^ 2)

/-- The largest `d` in `[2, 32]` dividing both 32 and `r`, when there is one. -/
def largest_conflict_degree (r : Int) : Option Int :=
  ((List.range' 2 31).reverse.find?
      (fun d => decide ((d : Int) ∣ 32 ∧ (d : Int) ∣ r))).map (fun d => (d : Int))

/-- The conflict degrees contributed by the sizes `s` with `s % 32 ≠ 0`: for each
the largest `d` in `[2, 32]` dividing both 32 and `s % 32`, when such a `d`
exists. -/
def conflict_degrees (sizes : List Int) : List Int :=
  sizes.filterMap
    (fun s => if Int.tmod s 32 ≠ 0 then largest_conflict_degree (Int.tmod s 32) else none)

/-- The degree 2 forced by a size 17, 33 or 65. -/
def forced_degrees (sizes : List Int) : List Int :=
  if sizes.any (fun s => decide (s = 17 ∨ s = 33 ∨ s = 65)) then [2] else []

/-- The way as claimed: the maximum of 1, of the conflict degrees of every size,
and of the forced degree. -/
def claimed_conflict_way (sizes : List Int) : Int :=
  (conflict_degrees sizes ++ forced_degrees sizes).foldl max 1

/-- The way with the guard of the source: as `claimed_conflict_way`, the
conflict degrees being taken over the sizes greater than 1 only. -/
def guarded_conflict_way (sizes : List Int) : Int :=
  (conflict_degrees (sizes.filter (fun s => decide (s > 1))) ++ forced_degrees sizes).foldl max 1

/-- The conflict degrees that the penalty table of `compute_penalized_score`
lists: 2, 4, 8, 16 and 32. -/
def listed_degree (w : Int) : Prop :=
  w = 2 ∨ w = 4 ∨ w = 8 ∨ w = 16 ∨ w = 32

/-- The times that `evaluate_config` returns for the candidates, evaluated in
input order from the random source `rng`. -/
def evaluated_times (ev : TiramisuConfigEvaluator) :
    List ScheduleConfig → RandSource → List ℚ
  | [], _ => []
  | config :: rest, rng =>
    (evaluate_config ev config rng).1
      :: evaluated_times ev rest (evaluate_config ev config rng).2

/-- The contract of `std::sort` for the comparator `comp`: the result is a
permutation of the input in which no element compares less than an element
before it. -/
def sorts_by (comp : ScheduleConfig → ScheduleConfig → Bool)
    (sort : List ScheduleConfig → List ScheduleConfig) : Prop :=
  ∀ l : List ScheduleConfig,
    (sort l).Perm l ∧ (sort l).Pairwise (fun a b => comp b a = false)

/-- A sorting function meeting the contract of `std::sort`: merge sort by "not
greater". -/
def reference_sort (comp : ScheduleConfig → ScheduleConfig → Bool)
    (l : List ScheduleConfig) : List ScheduleConfig :=
  l.mergeSort (fun a b => !comp b a)

/-- The candidates, each annotated with its evaluated time and the validity flag
`time > 0`, in input order. -/
def annotated_with_times (ev : TiramisuConfigEvaluator) (candidates : List ScheduleConfig)
    (rng : RandSource) : List ScheduleConfig :=
  List.zipWith
    (fun c t => { c with execution_time_ms := t, is_valid := decide (t > 0) })
    candidates (evaluated_times ev candidates rng)

/-- The interchange transformation that carries one iterator name only. -/
def named_interchange (name : String) : Transformation :=
  { Transformation.new TransformType.TRANS_INTERCHANGE with iterator_names := [name] }

/-- A baseline whose first statement names its loop dimensions: the statement
array is not empty and the first `nvar` entries of the iterator array of its
first statement are the names `names`, none of them null. -/
def named_baseline (p : PlutoProg) (names : List String) : Prop :=
  ∃ (stmt : Stmt) (rest : List Stmt) (more : List (Option String)),
    p.stmts = stmt :: rest
    ∧ stmt.iterators = some (names.map some ++ more)
    ∧ names.length = p.nvar.toNat

/-- An example baseline: one statement with the three loops `i`, `j`, `k` of
GEMM. -/
def gemm_prog : PlutoProg :=
  { nvar := 3, nstmts := 1, npar := 0,
    stmts := [{ dim := 3, iterators := some [some "i", some "j", some "k"] }] }

/-- The loop order of a config: the iterator names of its transformations,
outermost to innermost. -/
def loop_order (config : ScheduleConfig) : List String :=
  config.transformations.flatMap (fun t => t.iterator_names)

/-- The tile-size factor of `evaluate_config`: the factor by which its first
block multiplies the nominal cost, chosen by the integer `avg_tile`. -/
def tile_size_factor (config : ScheduleConfig) : ℚ :=
  if config.tile_sizes.isEmpty then 1
  else
    let avg_tile := average_tile config.tile_sizes
    if avg_tile ≥ 32 ∧ avg_tile ≤ 64 then 0.8
    else if avg_tile < 16 then 1.3
    else if avg_tile > 128 then 1.2
    else 1

/-- The sum of the tile sizes of a tile-size table. -/
def tile_size_sum (tile_sizes : List TileSize) : Int :=
  (tile_sizes.map (fun ts => ts.size)).sum

/-- The arithmetic mean of the tile sizes of a non-empty tile-size table. -/
def mean_tile_size (tile_sizes : List TileSize) : ℚ :=
  (tile_size_sum tile_sizes : ℚ) / (tile_sizes.length : ℚ)

/-- The tile-size factor in the words of the specification: chosen by the
arithmetic mean of the tile sizes, 1 for an empty table. -/
def claimed_tile_factor (tile_sizes : List TileSize) : ℚ :=
  if tile_sizes.isEmpty then 1
  else if 32 ≤ mean_tile_size tile_sizes ∧ mean_tile_size tile_sizes ≤ 64 then 0.8
  else if mean_tile_size tile_sizes < 16 then 1.3
  else if mean_tile_size tile_sizes > 128 then 1.2
  else 1

/-- The coalescing factor of `evaluate_config`: 0.7 when the config passes the
coarse coalescing predicate, 1 otherwise. -/
def coalescing_factor (config : ScheduleConfig) : ℚ :=
  if satisfies_coalescing_constraint config then 0.7 else 1

/-- The noise multiplier of `evaluate_config` for the value `r` returned by
`rand()`; `%` is the remainder of C++. -/
def noise_multiplier (r : Int) : ℚ :=
  1 + ((Int.tmod r 20 - 10 : Int) : ℚ) / 100

/-- The multiplier chosen by the `switch` of `compute_penalized_score`. -/
def penalty_multiplier (ev : TiramisuConfigEvaluator) (config : ScheduleConfig) : ℚ :=
  if config.bank_conflict_way = 2 then ev.bank_conflict_penalty_factor_
  else if config.bank_conflict_way = 4 then ev.bank_conflict_penalty_factor_ * 1.5
  else if config.bank_conflict_way = 8 then ev.bank_conflict_penalty_factor_ * 2.0
  else if config.bank_conflict_way = 16 then ev.bank_conflict_penalty_factor_ * 4.0
  else if config.bank_conflict_way = 32 then ev.bank_conflict_penalty_factor_ * 16.0
  else if config.bank_conflict_way > 1 then
    (config.bank_conflict_way : ℚ) * (ev.bank_conflict_penalty_factor_ / 2.0)
  else 1.0

/-- The penalty factor of `evaluate_config`: the multiplier of
`compute_penalized_score` when penalties are enabled and the config is marked
with a bank conflict, 1 otherwise. -/
def applied_penalty (ev : TiramisuConfigEvaluator) (config : ScheduleConfig) : ℚ :=
  if ev.apply_bank_conflict_penalty_ = true ∧ config.has_bank_conflict = true then
    penalty_multiplier ev config
  else 1

/-- The baseline config of the GEMM baseline, as `generate_candidates_from_optimal`
describes it. -/
def gemm_optimal_config : ScheduleConfig :=
  { ScheduleConfig.new with
    transformations := ["i", "j", "k"].map named_interchange
    description := "PLUTO Optimal" }

/-- The tiling variant of the GEMM baseline for the tile size `t`, whose conflict
degree is `way`. -/
def gemm_tiling_variant (t way : Int) : ScheduleConfig :=
  { gemm_optimal_config with
    tile_sizes := ["i", "j", "k"].map (fun name => TileSize.mk name t)
    description := "Tiling variant " ++ toString t
    has_coalescing_violation := false
    bank_conflict_way := way
    has_bank_conflict := decide (way > 1) }

/-- An empty baseline: no statement, no loop dimension. -/
def empty_prog : PlutoProg :=
  { nvar := 0, nstmts := 0, npar := 0, stmts := [] }

/-- The conflict degree of one tile size in terms of the greatest common divisor:
`gcd(s, 32)`, raised to at least 2 when `s` is 17, 33 or 65. -/
def gcd_conflict_degree (s : Int) : Int :=
  if s = 17 ∨ s = 33 ∨ s = 65 then max (Int.gcd s 32 : Int) 2 else (Int.gcd s 32 : Int)

/-- The way in terms of the greatest common divisor: the maximum of 1 and, over
the tile sizes `s > 1` that are not multiples of 32, of their conflict degree. -/
def gcd_conflict_way (sizes : List Int) : Int :=
  ((sizes.filter (fun s => decide (s > 1 ∧ ¬ (32 : Int) ∣ s))).map gcd_conflict_degree).foldl
    max 1

/-- An example baseline for the bridge: one statement of dimension 3 with the
loops `i`, `j`, `k` and the identity schedule. -/
def bridge_prog_3 : PlutoProg :=
  { nvar := 3, nstmts := 1, npar := 0,
    stmts :=
      [{ dim := 3, iterators := some [some "i", some "j", some "k"],
         trans := some { val := [[1, 0, 0, 0], [0, 1, 0, 0], [0, 0, 1, 0]],
                         nrows := 3, ncols := 4 } }] }

/-- An example baseline for the bridge: one statement of dimension 4 with the
loops `i`, `j`, `k`, `l` and the identity schedule. -/
def bridge_prog_4 : PlutoProg :=
  { nvar := 4, nstmts := 1, npar := 0,
    stmts :=
      [{ dim := 4, iterators := some [some "i", some "j", some "k", some "l"],
         trans := some { val := [[1, 0, 0, 0, 0], [0, 1, 0, 0, 0], [0, 0, 1, 0, 0],
                                 [0, 0, 0, 1, 0]],
                         nrows := 4, ncols := 5 } }] }


/-- The tile extracted from `bridge_prog_3`. -/
def bridge_tile_3 : Transformation :=
  { type := TransformType.TRANS_GPU_TILE, loop_dims := [0, 1, 2], tile_sizes := [32, 32, 32],
    iterator_names := ["i", "j", "k"], statement_id := 0, factor := 0 }

/-- A statement whose arrays hold what its dimension announces: an iterator
array, when there is one, has at least `dim` entries, and a transformation
matrix with `nrows > 0` has at least `nrows` rows of at least `dim`
coefficients. -/
def stmt_arrays_complete (stmt : Stmt) : Prop :=
  (∀ iterators, stmt.iterators = some iterators → stmt.dim.toNat ≤ iterators.length)
  ∧ (∀ m, stmt.trans = some m → 0 < m.nrows →
      m.nrows.toNat ≤ m.val.length ∧ ∀ row ∈ m.val, stmt.dim.toNat ≤ row.length)

/-- A baseline whose statement array holds its `nstmts` statements, each with
complete arrays. -/
def prog_arrays_complete (p : PlutoProg) : Prop :=
  0 ≤ p.nstmts ∧ p.nstmts ≤ 2147483647 ∧ p.nstmts.toNat ≤ p.stmts.length
  ∧ ∀ stmt ∈ p.stmts, stmt_arrays_complete stmt

/-- The integer product `access_frequency × element_size × dimension_size` of a
pattern, not reduced. -/
def weight_product (pattern : AccessPattern) : Int :=
  pattern.access_frequency * (pattern.element_size : Int) * pattern.dimension_size

/-- A read of `B[i][k]` with frequency `2^32`, element size 4 and dimension
size `2^30`: three positive fields whose product is `2^64`. -/
def wide_pattern : AccessPattern :=
  { array_name := "B", indices := ["i", "k"], access_frequency := 4294967296,
    element_size := 4, dimension_size := 1073741824, is_write := false }

/-- The GEMM config of loop order `(i,j,k)` marked with a 16-way bank
conflict. -/
def overflow_candidate : ScheduleConfig :=
  { gemm_loop_order_config ["i", "j", "k"] with
    has_bank_conflict := true, bank_conflict_way := 16 }

theorem foldl_push_if {α β : Type} (f : α → β × Bool) (init : List β) (l : List α) :
    l.foldl (fun acc a => if (f a).2 then acc ++ [(f a).1] else acc) init
      = init ++ (l.filter (fun a => (f a).2)).map (fun a => (f a).1) := by
  induction l generalizing init with
  | nil => simp
  | cons a l ih =>
    rw [List.foldl_cons, ih]
    by_cases h : (f a).2 = true <;> simp [h]

theorem filter_step_fst (cm bm : ConstraintMode) (c : ScheduleConfig) :
    (filter_step cm bm c).1 = with_constraint_annotations c := rfl

theorem filter_step_snd (cm bm : ConstraintMode) (c : ScheduleConfig) :
    (filter_step cm bm c).2 = !is_dropped cm bm c := by
  have hbank : (check_bank_conflict
      { c with has_coalescing_violation := !satisfies_coalescing_constraint c }).2
        = (check_bank_conflict c).2 := rfl
  simp only [filter_step, is_dropped, hbank]
  by_cases h1 : cm = ConstraintMode.HARD_CONSTRAINT <;>
    by_cases h2 : bm = ConstraintMode.HARD_CONSTRAINT <;>
    by_cases h3 : satisfies_coalescing_constraint c = true <;>
    by_cases h4 : (check_bank_conflict c).2 > 1 <;>
    simp [h1, h2, h3, h4]

/-- C1. For every candidate list and every pair of constraint modes,
`filter_by_constraints` returns, in the original relative order, the candidates
that are not dropped (each carrying its recomputed annotations), where a
candidate is dropped iff the coalescing mode is hard and
`satisfies_coalescing_constraint` is false for it, or the bank-conflict mode is
hard and `check_bank_conflict` reports `way > 1` for it; and the input size is
the output size plus the number of dropped candidates. -/
theorem filter_by_constraints_keeps_undropped (cm bm : ConstraintMode)
    (candidates : List ScheduleConfig) :
    filter_by_constraints cm bm candidates
        = (candidates.filter (fun c => !is_dropped cm bm c)).map with_constraint_annotations
      ∧ candidates.length
        = (filter_by_constraints cm bm candidates).length
          + (candidates.filter (is_dropped cm bm)).length := by
  have hmain : filter_by_constraints cm bm candidates
      = (candidates.filter (fun c => !is_dropped cm bm c)).map with_constraint_annotations := by
    unfold filter_by_constraints
    rw [foldl_push_if (filter_step cm bm) [] candidates]
    simp only [filter_step_snd, filter_step_fst, List.nil_append]
  refine ⟨hmain, ?_⟩
  rw [hmain, List.length_map, List.length_eq_length_filter_add (is_dropped cm bm), add_comm]

/-! ### Legality -/

theorem legal_tile_sizes_eq_false (l : List TileSize) :
    legal_tile_sizes l = false ↔ ∃ ts ∈ l, ts.size < 1 ∨ 1024 < ts.size := by
  induction l with
  | nil => simp [legal_tile_sizes]
  | cons ts rest ih =>
    by_cases h : ts.size ≤ 0 ∨ ts.size > 1024
    · have h2 : ts.size < 1 ∨ 1024 < ts.size := by omega
      simp [legal_tile_sizes, h, h2]
    · have h2 : ¬ (ts.size < 1 ∨ 1024 < ts.size) := by omega
      simp only [legal_tile_sizes, h, if_false, ih, List.mem_cons, exists_eq_or_imp, h2,
        false_or]

/-- C2. For every config, `is_legal_config` returns false if and only if the
config has no transformations or some entry of its tile-size table has a size
outside `[1, 1024]`. -/
theorem is_legal_config_false_iff (config : ScheduleConfig) :
    is_legal_config config = false
      ↔ config.transformations = []
        ∨ ∃ ts ∈ config.tile_sizes, ts.size < 1 ∨ 1024 < ts.size := by
  unfold is_legal_config
  cases htr : config.transformations with
  | nil => simp
  | cons t rest => simp [legal_tile_sizes_eq_false]

/-! ### Per-pattern coalescing -/

/-- C6. For every config and pattern, `check_coalescing_for_pattern` returns true
if and only if the config has a last transformation with a non-empty iterator
list, the pattern has a non-empty index list, and the pattern's last index is
the last iterator name of that transformation; it returns false exactly in the
other cases: empty config, empty pattern, empty iterator list, or a last index
different from the innermost iterator. -/
theorem check_coalescing_for_pattern_iff (config : ScheduleConfig) (pattern : AccessPattern) :
    (check_coalescing_for_pattern config pattern = true
      ↔ ∃ innermost inner_var,
          config.transformations.getLast? = some innermost
          ∧ innermost.iterator_names.getLast? = some inner_var
          ∧ pattern.indices.getLast? = some inner_var)
    ∧ (check_coalescing_for_pattern config pattern = false
      ↔ config.transformations = []
        ∨ pattern.indices = []
        ∨ (∃ innermost, config.transformations.getLast? = some innermost
            ∧ innermost.iterator_names = [])
        ∨ (∃ innermost inner_var last_index,
            config.transformations.getLast? = some innermost
            ∧ innermost.iterator_names.getLast? = some inner_var
            ∧ pattern.indices.getLast? = some last_index
            ∧ last_index ≠ inner_var)) := by
  unfold check_coalescing_for_pattern
  cases h1 : config.transformations.getLast? with
  | none => simp [List.getLast?_eq_none_iff.mp h1]
  | some innermost =>
    have hne : config.transformations ≠ [] := by
      intro h; rw [h] at h1; simp at h1
    cases h2 : pattern.indices.getLast? with
    | none => simp [List.getLast?_eq_none_iff.mp h2]
    | some last_index =>
      have hne2 : pattern.indices ≠ [] := by
        intro h; rw [h] at h2; simp at h2
      cases h3 : innermost.iterator_names.getLast? with
      | none => simp [List.getLast?_eq_none_iff.mp h3, hne, hne2]
      | some inner_var =>
        have hne3 : innermost.iterator_names ≠ [] := by
          intro h; rw [h] at h3; simp at h3
        by_cases h : last_index = inner_var
        · simp [h, h3, hne, hne2, hne3]
        · simp [h, h3, hne, hne2, hne3]
          intro h'; exact h h'.symm

/-! ### Bank conflicts -/

/-- C10. For a config whose tile-size table holds a single size `s`,
`check_bank_conflict` yields `way = 1` and returns false for `s = 32` and
`s = 64`, and yields `way ≥ 2` and returns true for `s = 33` and `s = 17`. -/
theorem check_bank_conflict_single_sizes (config : ScheduleConfig) (loop_name : String) :
    check_bank_conflict { config with tile_sizes := [TileSize.mk loop_name 32] } = (false, 1)
    ∧ check_bank_conflict { config with tile_sizes := [TileSize.mk loop_name 64] } = (false, 1)
    ∧ (check_bank_conflict { config with tile_sizes := [TileSize.mk loop_name 33] }).1 = true
    ∧ 2 ≤ (check_bank_conflict { config with tile_sizes := [TileSize.mk loop_name 33] }).2
    ∧ (check_bank_conflict { config with tile_sizes := [TileSize.mk loop_name 17] }).1 = true
    ∧ 2 ≤ (check_bank_conflict { config with tile_sizes := [TileSize.mk loop_name 17] }).2 := by
  refine ⟨rfl, rfl, rfl, ?_, rfl, ?_⟩
  · show (2:Int) ≤ 2
    decide
  · show (2:Int) ≤ 2
    decide

/-! ### Weighted coalescing score -/

theorem pattern_weight_nonneg (p : AccessPattern) : 0 ≤ pattern_weight p := by
  have h : (0 : Int) ≤ (p.access_frequency * (p.element_size : Int) * p.dimension_size)
      % 18446744073709551616 := Int.emod_nonneg _ (by decide)
  have hq : (0 : ℚ) ≤ (((p.access_frequency * (p.element_size : Int) * p.dimension_size)
      % 18446744073709551616 : Int) : ℚ) := by exact_mod_cast h
  unfold pattern_weight
  by_cases hw : p.is_write = true
  · simp only [hw, if_true]
    linarith
  · simp only [hw]
    exact hq

theorem pattern_weight_eq_spec_weight (p : AccessPattern) (h0 : 0 ≤ weight_product p)
    (hfit : weight_product p < 18446744073709551616) :
    pattern_weight p = spec_weight p := by
  unfold weight_product at h0 hfit
  unfold pattern_weight spec_weight
  rw [Int.emod_eq_of_lt h0 hfit]
  by_cases h : p.is_write = true
  · simp [h]
  · simp [h]; norm_num

theorem weight_product_pos (p : AccessPattern)
    (hpos : 0 < p.access_frequency ∧ 0 < p.element_size ∧ 0 < p.dimension_size) :
    0 ≤ weight_product p := by
  unfold weight_product
  have h2 : (0 : Int) < (p.element_size : Int) := by exact_mod_cast hpos.2.1
  exact le_of_lt (mul_pos (mul_pos hpos.1 h2) hpos.2.2)

theorem score_foldl_eq (config : ScheduleConfig) (init : ℚ) (ps : List AccessPattern) :
    ps.foldl
        (fun total_score pattern =>
          let weight := pattern_weight pattern
          let stride := compute_stride_for_pattern config pattern
          if stride = 1 then total_score + weight else total_score)
        init
      = init + (ps.map (fun p =>
          if compute_stride_for_pattern config p = 1 then pattern_weight p else 0)).sum := by
  induction ps generalizing init with
  | nil => simp
  | cons p ps ih =>
    rw [List.foldl_cons, ih]
    by_cases h : compute_stride_for_pattern config p = 1
    · simp [h, add_assoc]
    · simp [h]

theorem score_eq_indicator_sum (config : ScheduleConfig) (ps : List AccessPattern) :
    compute_weighted_coalescing_score config ps
      = (ps.map (fun p =>
          if compute_stride_for_pattern config p = 1 then pattern_weight p else 0)).sum := by
  unfold compute_weighted_coalescing_score
  rw [score_foldl_eq, zero_add]

theorem indicator_sum_congr (config : ScheduleConfig) (ps : List AccessPattern)
    (h : ∀ p ∈ ps, pattern_weight p = spec_weight p) :
    (ps.map (fun p =>
        if compute_stride_for_pattern config p = 1 then pattern_weight p else 0)).sum
      = (ps.map (fun p =>
        if compute_stride_for_pattern config p = 1 then spec_weight p else 0)).sum := by
  induction ps with
  | nil => simp
  | cons p ps ih =>
    have hp := h p (List.mem_cons_self p ps)
    have hrest := ih (fun q hq => h q (List.mem_cons_of_mem p hq))
    simp only [List.map_cons, List.sum_cons, hp, hrest]

theorem indicator_sum_eq_filter_sum (config : ScheduleConfig) (ps : List AccessPattern) :
    (ps.map (fun p =>
        if compute_stride_for_pattern config p = 1 then spec_weight p else 0)).sum
      = ((ps.filter (fun p => decide (compute_stride_for_pattern config p = 1))).map
          spec_weight).sum := by
  induction ps with
  | nil => simp
  | cons p ps ih =>
    by_cases h : compute_stride_for_pattern config p = 1
    · simp [h, ih]
    · simp [h, ih]

theorem score_eq_spec_sum (config : ScheduleConfig) (ps : List AccessPattern)
    (h : ∀ p ∈ ps, 0 ≤ weight_product p ∧ weight_product p < 18446744073709551616) :
    compute_weighted_coalescing_score config ps
      = (ps.map (fun p =>
          if compute_stride_for_pattern config p = 1 then spec_weight p else 0)).sum := by
  rw [score_eq_indicator_sum]
  exact indicator_sum_congr config ps
    (fun p hp => pattern_weight_eq_spec_weight p (h p hp).1 (h p hp).2)

/-- C3, as amended. For every config and every list of access patterns with
positive `access_frequency`, `element_size` and `dimension_size` whose product
`access_frequency × element_size × dimension_size` is below `2^64`,
`compute_weighted_coalescing_score` is the sum, over the patterns whose
`compute_stride_for_pattern` is 1, of
`access_frequency × element_size × dimension_size × (1.5 if is_write else 1.0)`;
a pattern with stride different from 1 contributes 0 and the empty list scores 0. -/
theorem compute_weighted_coalescing_score_eq_sum (config : ScheduleConfig)
    (patterns : List AccessPattern)
    (hpos : ∀ p ∈ patterns,
      0 < p.access_frequency ∧ 0 < p.element_size ∧ 0 < p.dimension_size)
    (hfit : ∀ p ∈ patterns,
      p.access_frequency * (p.element_size : Int) * p.dimension_size
        < 18446744073709551616) :
    compute_weighted_coalescing_score config patterns
        = ((patterns.filter (fun p => decide (compute_stride_for_pattern config p = 1))).map
            spec_weight).sum
      ∧ compute_weighted_coalescing_score config patterns
        = (patterns.map (fun p =>
            if compute_stride_for_pattern config p = 1 then spec_weight p else 0)).sum
      ∧ compute_weighted_coalescing_score config [] = 0 := by
  have hrange : ∀ p ∈ patterns,
      0 ≤ weight_product p ∧ weight_product p < 18446744073709551616 :=
    fun p hp => ⟨weight_product_pos p (hpos p hp), hfit p hp⟩
  refine ⟨?_, score_eq_spec_sum config patterns hrange, rfl⟩
  rw [score_eq_spec_sum config patterns hrange, indicator_sum_eq_filter_sum]

/-- Witness for C3: the GEMM patterns have positive fields with products below
`2^64`, and the score of the loop order `(i,k,j)` is the sum of the weights of
its unit-stride patterns. -/
theorem compute_weighted_coalescing_score_eq_sum_witness :
    (∀ p ∈ create_gemm_access_patterns,
      0 < p.access_frequency ∧ 0 < p.element_size ∧ 0 < p.dimension_size)
    ∧ (∀ p ∈ create_gemm_access_patterns,
      p.access_frequency * (p.element_size : Int) * p.dimension_size
        < 18446744073709551616)
    ∧ compute_weighted_coalescing_score (generate_gemm_loop_orders.getD 1 ScheduleConfig.new)
          create_gemm_access_patterns
        = ((create_gemm_access_patterns.filter (fun p =>
              decide (compute_stride_for_pattern
                (generate_gemm_loop_orders.getD 1 ScheduleConfig.new) p = 1))).map
            spec_weight).sum :=
  have h : ∀ p ∈ create_gemm_access_patterns,
      0 < p.access_frequency ∧ 0 < p.element_size ∧ 0 < p.dimension_size := by
    decide
  have hfit : ∀ p ∈ create_gemm_access_patterns,
      p.access_frequency * (p.element_size : Int) * p.dimension_size
        < 18446744073709551616 := by
    decide
  ⟨h, hfit, (compute_weighted_coalescing_score_eq_sum _ _ h hfit).1⟩

/-- Counterexample to C3 as stated: the pattern `wide_pattern` has positive
fields and stride 1 under the loop order `(i,j,k)`, its claimed weight is
`2^64`, and the score of the one-pattern list is 0, because the product wraps
in unsigned 64-bit arithmetic. -/
theorem compute_weighted_coalescing_score_eq_sum_counterexample :
    (0 < wide_pattern.access_frequency ∧ 0 < wide_pattern.element_size
      ∧ 0 < wide_pattern.dimension_size)
    ∧ compute_stride_for_pattern (gemm_loop_order_config ["i", "j", "k"]) wide_pattern = 1
    ∧ compute_weighted_coalescing_score (gemm_loop_order_config ["i", "j", "k"])
        [wide_pattern] = 0
    ∧ (([wide_pattern].filter (fun p =>
          decide (compute_stride_for_pattern
            (gemm_loop_order_config ["i", "j", "k"]) p = 1))).map spec_weight).sum
        = 18446744073709551616
    ∧ compute_weighted_coalescing_score (gemm_loop_order_config ["i", "j", "k"])
          [wide_pattern]
        ≠ (([wide_pattern].filter (fun p =>
            decide (compute_stride_for_pattern
              (gemm_loop_order_config ["i", "j", "k"]) p = 1))).map spec_weight).sum := by
  have hstride : compute_stride_for_pattern (gemm_loop_order_config ["i", "j", "k"])
      wide_pattern = 1 := by decide
  have hscore : compute_weighted_coalescing_score (gemm_loop_order_config ["i", "j", "k"])
      [wide_pattern] = 0 := by
    rw [score_eq_indicator_sum]
    simp only [List.map_cons, List.map_nil, List.sum_cons, List.sum_nil, hstride, if_true]
    norm_num [pattern_weight, wide_pattern]
  have hsum : (([wide_pattern].filter (fun p =>
      decide (compute_stride_for_pattern
        (gemm_loop_order_config ["i", "j", "k"]) p = 1))).map spec_weight).sum
      = 18446744073709551616 := by
    rw [← indicator_sum_eq_filter_sum]
    simp only [List.map_cons, List.map_nil, List.sum_cons, List.sum_nil, hstride, if_true]
    norm_num [spec_weight, wide_pattern]
  refine ⟨by decide, hstride, hscore, hsum, ?_⟩
  rw [hscore, hsum]
  norm_num

theorem indicator_sum_sublist_le (config : ScheduleConfig) {qs ps : List AccessPattern}
    (hsub : qs.Sublist ps) :
    (qs.map (fun p =>
        if compute_stride_for_pattern config p = 1 then pattern_weight p else 0)).sum
      ≤ (ps.map (fun p =>
        if compute_stride_for_pattern config p = 1 then pattern_weight p else 0)).sum := by
  induction hsub with
  | slnil => simp
  | cons a _ ih =>
    rename_i l₁ l₂ hs
    have ha := pattern_weight_nonneg a
    simp only [List.map_cons, List.sum_cons]
    by_cases h : compute_stride_for_pattern config a = 1
    · simp only [h, if_true]; linarith
    · simp only [h, if_false]; linarith
  | cons₂ a _ ih =>
    rename_i l₁ l₂ hs
    simp only [List.map_cons, List.sum_cons]
    linarith

theorem score_append_singleton (config : ScheduleConfig) (ps : List AccessPattern)
    (p : AccessPattern) :
    compute_weighted_coalescing_score config (ps ++ [p])
      = (if compute_stride_for_pattern config p = 1
          then compute_weighted_coalescing_score config ps + pattern_weight p
          else compute_weighted_coalescing_score config ps) := by
  simp only [score_eq_indicator_sum, List.map_append, List.sum_append, List.map_cons,
    List.map_nil, List.sum_cons, List.sum_nil, add_zero]
  by_cases h : compute_stride_for_pattern config p = 1 <;> simp [h]

/-- C8, as amended. `compute_weighted_coalescing_score` is additive over the
pattern list: for a pattern `p` whose product
`access_frequency × element_size × dimension_size` is non-negative and below
`2^64`, appending `p` adds the weight of `p`,
`access_frequency × element_size × dimension_size × (1.5 if is_write else 1.0)`,
when `p` has stride 1 under the config and leaves the score unchanged
otherwise.  The weight that the function adds is never negative, so appending a
pattern never lowers the score, and the score of a sub-list of patterns is at
most the score of the whole list. -/
theorem weighted_score_monotone (config : ScheduleConfig) (ps : List AccessPattern)
    (p : AccessPattern)
    (h0 : 0 ≤ p.access_frequency * (p.element_size : Int) * p.dimension_size)
    (hfit : p.access_frequency * (p.element_size : Int) * p.dimension_size
      < 18446744073709551616) :
    compute_weighted_coalescing_score config (ps ++ [p])
        = (if compute_stride_for_pattern config p = 1
            then compute_weighted_coalescing_score config ps + spec_weight p
            else compute_weighted_coalescing_score config ps)
      ∧ 0 ≤ spec_weight p
      ∧ compute_weighted_coalescing_score config ps
          ≤ compute_weighted_coalescing_score config (ps ++ [p])
      ∧ (∀ qs : List AccessPattern, qs.Sublist ps →
          compute_weighted_coalescing_score config qs
            ≤ compute_weighted_coalescing_score config ps) := by
  have hw : pattern_weight p = spec_weight p := pattern_weight_eq_spec_weight p h0 hfit
  have hnn : 0 ≤ pattern_weight p := pattern_weight_nonneg p
  have happ := score_append_singleton config ps p
  refine ⟨?_, ?_, ?_, ?_⟩
  · rw [happ, hw]
  · rw [← hw]; exact hnn
  · rw [happ]
    by_cases h : compute_stride_for_pattern config p = 1
    · simp [h, hnn]
    · simp [h]
  · intro qs hsub
    simp only [score_eq_indicator_sum]
    exact indicator_sum_sublist_le config hsub

/-- Witness for C8: the product of the GEMM pattern `C[i][j]` is 8192, and
appending the pattern to `A`, `B` under the loop order `(i,k,j)`, where it has
stride 1, adds its weight 12288 to the score. -/
theorem weighted_score_monotone_witness :
    (0 ≤ pattern_C.access_frequency * (pattern_C.element_size : Int)
        * pattern_C.dimension_size
      ∧ pattern_C.access_frequency * (pattern_C.element_size : Int)
        * pattern_C.dimension_size < 18446744073709551616)
    ∧ compute_stride_for_pattern (gemm_loop_order_config ["i", "k", "j"]) pattern_C = 1
    ∧ spec_weight pattern_C = 12288
    ∧ compute_weighted_coalescing_score (gemm_loop_order_config ["i", "k", "j"])
          ([pattern_A, pattern_B] ++ [pattern_C])
        = (if compute_stride_for_pattern (gemm_loop_order_config ["i", "k", "j"]) pattern_C = 1
            then compute_weighted_coalescing_score (gemm_loop_order_config ["i", "k", "j"])
              [pattern_A, pattern_B] + spec_weight pattern_C
            else compute_weighted_coalescing_score (gemm_loop_order_config ["i", "k", "j"])
              [pattern_A, pattern_B])
    ∧ compute_weighted_coalescing_score (gemm_loop_order_config ["i", "k", "j"])
          [pattern_A, pattern_B]
        ≤ compute_weighted_coalescing_score (gemm_loop_order_config ["i", "k", "j"])
          ([pattern_A, pattern_B] ++ [pattern_C]) :=
  have h0 : 0 ≤ pattern_C.access_frequency * (pattern_C.element_size : Int)
      * pattern_C.dimension_size := by decide
  have hfit : pattern_C.access_frequency * (pattern_C.element_size : Int)
      * pattern_C.dimension_size < 18446744073709551616 := by decide
  have hthm := weighted_score_monotone (gemm_loop_order_config ["i", "k", "j"])
    [pattern_A, pattern_B] pattern_C h0 hfit
  ⟨⟨h0, hfit⟩, by decide, by norm_num [spec_weight, pattern_C, AccessPattern.new],
    hthm.1, hthm.2.2.1⟩

/-- Counterexample to C8 as stated: `wide_pattern` has stride 1 under the loop
order `(i,j,k)` and the positive weight `2^64`, yet appending it to the empty
list leaves the score at 0; and a read with frequency `-1` adds
`2^64 - 4096` where its weight is `-4096`. -/
theorem weighted_score_monotone_counterexample :
    compute_stride_for_pattern (gemm_loop_order_config ["i", "j", "k"]) wide_pattern = 1
    ∧ spec_weight wide_pattern = 18446744073709551616
    ∧ compute_weighted_coalescing_score (gemm_loop_order_config ["i", "j", "k"]) [] = 0
    ∧ compute_weighted_coalescing_score (gemm_loop_order_config ["i", "j", "k"])
        ([] ++ [wide_pattern]) = 0
    ∧ compute_weighted_coalescing_score (gemm_loop_order_config ["i", "j", "k"])
          ([] ++ [wide_pattern])
        ≠ compute_weighted_coalescing_score (gemm_loop_order_config ["i", "j", "k"]) []
          + spec_weight wide_pattern
    ∧ compute_stride_for_pattern (gemm_loop_order_config ["i", "j", "k"])
        { pattern_A with access_frequency := -1 } = 1
    ∧ spec_weight { pattern_A with access_frequency := -1 } = -4096
    ∧ compute_weighted_coalescing_score (gemm_loop_order_config ["i", "j", "k"])
        ([] ++ [{ pattern_A with access_frequency := -1 }]) = 18446744073709547520 := by
  have hstride : compute_stride_for_pattern (gemm_loop_order_config ["i", "j", "k"])
      wide_pattern = 1 := by decide
  have hstride2 : compute_stride_for_pattern (gemm_loop_order_config ["i", "j", "k"])
      { pattern_A with access_frequency := -1 } = 1 := by decide
  have hw : spec_weight wide_pattern = 18446744073709551616 := by
    norm_num [spec_weight, wide_pattern]
  have hscore : compute_weighted_coalescing_score (gemm_loop_order_config ["i", "j", "k"])
      ([] ++ [wide_pattern]) = 0 := by
    rw [score_append_singleton, if_pos hstride]
    norm_num [compute_weighted_coalescing_score, pattern_weight, wide_pattern]
  have hscore2 : compute_weighted_coalescing_score (gemm_loop_order_config ["i", "j", "k"])
      ([] ++ [{ pattern_A with access_frequency := -1 }]) = 18446744073709547520 := by
    rw [score_append_singleton, if_pos hstride2]
    norm_num [compute_weighted_coalescing_score, pattern_weight, pattern_A, AccessPattern.new]
  refine ⟨hstride, hw, rfl, hscore, ?_, hstride2, ?_, hscore2⟩
  · rw [hscore, hw]
    norm_num [compute_weighted_coalescing_score]
  · norm_num [spec_weight, pattern_A, AccessPattern.new]

/-- C4. For the GEMM patterns and the six configs of `generate_gemm_loop_orders`
(one single-iterator interchange per loop, in the given order):
`compute_weighted_coalescing_score` is 4096 for `(i,j,k)`, where only `A` is
coalesced, and 16384 for `(i,k,j)`, where `B` and `C` are coalesced and `A` is
not; the six scores are 4096, 16384, 4096, 0, 16384, 0, and the selection of
`evaluate_all_loop_orders`, which keeps the first config of maximal score,
ends with index 1, the order `(i,k,j)`, and best score 16384. -/
theorem gemm_scores :
    generate_gemm_loop_orders.map
        (fun c => c.transformations.map (fun t => (t.type, t.iterator_names)))
      = [[(TransformType.TRANS_INTERCHANGE, ["i"]), (TransformType.TRANS_INTERCHANGE, ["j"]),
          (TransformType.TRANS_INTERCHANGE, ["k"])],
         [(TransformType.TRANS_INTERCHANGE, ["i"]), (TransformType.TRANS_INTERCHANGE, ["k"]),
          (TransformType.TRANS_INTERCHANGE, ["j"])],
         [(TransformType.TRANS_INTERCHANGE, ["j"]), (TransformType.TRANS_INTERCHANGE, ["i"]),
          (TransformType.TRANS_INTERCHANGE, ["k"])],
         [(TransformType.TRANS_INTERCHANGE, ["j"]), (TransformType.TRANS_INTERCHANGE, ["k"]),
          (TransformType.TRANS_INTERCHANGE, ["i"])],
         [(TransformType.TRANS_INTERCHANGE, ["k"]), (TransformType.TRANS_INTERCHANGE, ["i"]),
          (TransformType.TRANS_INTERCHANGE, ["j"])],
         [(TransformType.TRANS_INTERCHANGE, ["k"]), (TransformType.TRANS_INTERCHANGE, ["j"]),
          (TransformType.TRANS_INTERCHANGE, ["i"])]]
    ∧ generate_gemm_loop_orders.map
        (fun c => compute_weighted_coalescing_score c create_gemm_access_patterns)
      = [4096, 16384, 4096, 0, 16384, 0]
    ∧ generate_gemm_loop_orders.map
        (fun c => create_gemm_access_patterns.map (check_coalescing_for_pattern c))
      = [[true, false, false], [false, true, true], [true, false, false],
         [false, false, false], [false, true, true], [false, false, false]]
    ∧ evaluate_all_loop_orders.best_idx = 1
    ∧ evaluate_all_loop_orders.best_score = 16384 := by
  refine ⟨by decide, ?_, by decide, ?_, ?_⟩
  · simp [generate_gemm_loop_orders, gemm_loop_order_config, create_gemm_access_patterns,
      pattern_A, pattern_B, pattern_C,
      compute_weighted_coalescing_score, compute_stride_for_pattern, stride_search,
      pattern_weight, toInt32, ScheduleConfig.new, Transformation.new, AccessPattern.new]
    norm_num
  · simp [evaluate_all_loop_orders, evaluate_loop_orders_from, generate_gemm_loop_orders,
      gemm_loop_order_config, create_gemm_access_patterns, pattern_A, pattern_B, pattern_C,
      compute_weighted_coalescing_score, compute_stride_for_pattern, stride_search,
      pattern_weight, toInt32, ScheduleConfig.new, Transformation.new, AccessPattern.new]
    norm_num
  · simp [evaluate_all_loop_orders, evaluate_loop_orders_from, generate_gemm_loop_orders,
      gemm_loop_order_config, create_gemm_access_patterns, pattern_A, pattern_B, pattern_C,
      compute_weighted_coalescing_score, compute_stride_for_pattern, stride_search,
      pattern_weight, toInt32, ScheduleConfig.new, Transformation.new, AccessPattern.new]
    norm_num

/-! ### Stride of a pattern -/

theorem toInt32_of_fits (x : Int) (h1 : -2147483648 ≤ x) (h2 : x < 2147483648) :
    toInt32 x = x := by
  unfold toInt32; omega

theorem toInt32_mul_left (a d : Int) : toInt32 (toInt32 a * d) = toInt32 (a * d) := by
  unfold toInt32
  have h : ((a + 2147483648) % 4294967296 - 2147483648) * d + 2147483648
      = (a * d + 2147483648) + (-((a + 2147483648) / 4294967296) * d) * 4294967296 := by
    have := Int.emod_add_ediv (a + 2147483648) 4294967296
    linear_combination d * this
  rw [h, Int.add_mul_emod_self]

theorem stride_product (d : Int) (rest : List String) (x : Int) :
    rest.foldl (fun stride _ => toInt32 (stride * d)) (toInt32 x)
      = toInt32 (x * d ^ rest.length) := by
  induction rest generalizing x with
  | nil => simp
  | cons a rest ih =>
    rw [List.foldl_cons, toInt32_mul_left, ih, List.length_cons, pow_succ']
    congr 1; ring

theorem stride_search_of_split (v : String) (d : Int) (pre post : List String)
    (hpre : v ∉ pre) :
    stride_search v d (pre ++ v :: post) = some (toInt32 (d ^ post.length)) := by
  induction pre with
  | nil =>
    have h1 : (1 : Int) = toInt32 1 := by decide
    simp only [List.nil_append, stride_search, if_true]
    conv_lhs => rw [h1]
    rw [stride_product, one_mul]
  | cons a pre ih =>
    have ha : a ≠ v := fun h => hpre (by simp [h])
    have hpre2 : v ∉ pre := fun h => hpre (List.mem_cons_of_mem a h)
    have e : (a :: pre) ++ v :: post = a :: (pre ++ v :: post) := rfl
    rw [e]
    simp only [stride_search, ha, if_false, ih hpre2]

theorem stride_search_of_not_mem (v : String) (d : Int) (l : List String) (h : v ∉ l) :
    stride_search v d l = none := by
  induction l with
  | nil => rfl
  | cons a l ih =>
    have ha : a ≠ v := fun e => h (by simp [e])
    have hl : v ∉ l := fun e => h (List.mem_cons_of_mem a e)
    simp only [stride_search, ha, if_false, ih hl]

theorem compute_stride_of_innermost (config : ScheduleConfig) (pattern : AccessPattern)
    (v : String) (hv : innermost_variable config = some v) (hne : pattern.indices ≠ []) :
    compute_stride_for_pattern config pattern
      = match stride_search v pattern.dimension_size pattern.indices with
        | some stride => stride
        | none => toInt32 (pattern.dimension_size * pattern.dimension_size) := by
  unfold innermost_variable at hv
  unfold compute_stride_for_pattern
  cases h1 : config.transformations.getLast? with
  | none => rw [h1] at hv; simp at hv
  | some innermost =>
    rw [h1] at hv
    simp only at hv
    have hemp : pattern.indices.isEmpty = false := by
      cases h : pattern.indices with
      | nil => exact absurd h hne
      | cons a l => rfl
    simp only [hemp, hv]
    rfl

theorem split_at_first_occurrence (l : List String) (v : String) (i : Nat)
    (hi : l[i]? = some v) (hfirst : ∀ j < i, l[j]? ≠ some v) :
    ∃ pre post, l = pre ++ v :: post ∧ v ∉ pre ∧ post.length = l.length - 1 - i := by
  obtain ⟨hlt, hget⟩ := List.getElem?_eq_some_iff.mp hi
  refine ⟨l.take i, l.drop (i + 1), ?_, ?_, ?_⟩
  · rw [← hget, ← List.drop_eq_getElem_cons hlt, List.take_append_drop]
  · intro hmem
    obtain ⟨j, hj, hjv⟩ := List.getElem_of_mem hmem
    rw [List.length_take] at hj
    have hji : j < i := by omega
    apply hfirst j hji
    rw [List.getElem_take] at hjv
    rw [List.getElem?_eq_getElem (by omega), hjv]
  · rw [List.length_drop]; omega


/-- C7 (amended). For every config with innermost loop variable `v` and every
pattern with index list of length `n`: if the first occurrence of `v` in the
index list is at position `i` and `dimension_size ^ (n - 1 - i)` fits in a
signed 32-bit `int`, `compute_stride_for_pattern` returns
`dimension_size ^ (n - 1 - i)`, the product of `dimension_size` over the
positions after `i`; if the index list is non-empty, `v` does not occur in it
and `dimension_size ^ 2` fits in a signed 32-bit `int`, it returns
`dimension_size ^ 2`. -/
theorem compute_stride_for_pattern_value (config : ScheduleConfig) (pattern : AccessPattern)
    (v : String) (hv : innermost_variable config = some v) :
    (∀ i : Nat, pattern.indices[i]? = some v → (∀ j < i, pattern.indices[j]? ≠ some v) →
        -2147483648 ≤ pattern.dimension_size ^ (pattern.indices.length - 1 - i) →
        pattern.dimension_size ^ (pattern.indices.length - 1 - i) < 2147483648 →
        compute_stride_for_pattern config pattern
          = pattern.dimension_size ^ (pattern.indices.length - 1 - i))
    ∧ (pattern.indices ≠ [] → v ∉ pattern.indices →
        pattern.dimension_size ^ 2 < 2147483648 →
        compute_stride_for_pattern config pattern = pattern.dimension_size ^ 2) := by
  constructor
  · intro i hi hfirst hlo hhi
    have hne : pattern.indices ≠ [] := by
      intro h; rw [h] at hi; simp at hi
    obtain ⟨pre, post, hsplit, hpre, hlen⟩ :=
      split_at_first_occurrence pattern.indices v i hi hfirst
    rw [compute_stride_of_innermost config pattern v hv hne]
    have hs := stride_search_of_split v pattern.dimension_size pre post hpre
    rw [← hsplit] at hs
    rw [hs, hlen]
    exact toInt32_of_fits _ hlo hhi
  · intro hne hnot hfit
    rw [compute_stride_of_innermost config pattern v hv hne,
      stride_search_of_not_mem v pattern.dimension_size pattern.indices hnot]
    have hsq : pattern.dimension_size * pattern.dimension_size = pattern.dimension_size ^ 2 := by
      ring
    simp only [hsq]
    exact toInt32_of_fits _ (by have := sq_nonneg pattern.dimension_size; omega) hfit

/-- Witness for C7 (amended): under the loop order `(i,j,k)` the stride of
`B[k][j]` is `1024 ^ 1` and the stride of `C[i][j]`, where `k` does not occur, is
`1024 ^ 2`. -/
theorem compute_stride_for_pattern_value_witness :
    innermost_variable (gemm_loop_order_config ["i", "j", "k"]) = some "k"
    ∧ compute_stride_for_pattern (gemm_loop_order_config ["i", "j", "k"]) pattern_B
        = (1024 : Int) ^ (2 - 1 - 0)
    ∧ compute_stride_for_pattern (gemm_loop_order_config ["i", "j", "k"]) pattern_C
        = (1024 : Int) ^ 2 :=
  ⟨by decide,
    (compute_stride_for_pattern_value (gemm_loop_order_config ["i", "j", "k"])
      pattern_B "k" (by decide)).1 0
      (by decide) (by decide) (by decide) (by decide),
    (compute_stride_for_pattern_value (gemm_loop_order_config ["i", "j", "k"])
      pattern_C "k" (by decide)).2
      (by decide) (by decide) (by decide)⟩

/-- Counterexample to C7 as stated, under the loop order `(i,j,k)` whose
innermost variable is `k`.  Repeated index: in `[k, k]` the variable occurs at
position 1, where the claim gives `1024 ^ 0`, but the stride is 1024 (first
occurrence).  Empty pattern: `k` does not occur, where the claim gives
`1024 ^ 2`, but the stride is 1.  Narrowing: for `[i, j]` with
`dimension_size = 65536` the claim gives `65536 ^ 2`, but the stride is 0. -/
theorem compute_stride_for_pattern_value_counterexample :
    innermost_variable (gemm_loop_order_config ["i", "j", "k"]) = some "k"
    ∧ ¬ stride_as_claimed (gemm_loop_order_config ["i", "j", "k"])
          { AccessPattern.new with indices := ["k", "k"] } "k"
    ∧ ¬ stride_as_claimed (gemm_loop_order_config ["i", "j", "k"])
          { AccessPattern.new with indices := [] } "k"
    ∧ ¬ stride_as_claimed (gemm_loop_order_config ["i", "j", "k"])
          { AccessPattern.new with indices := ["i", "j"], dimension_size := 65536 } "k" := by
  refine ⟨by decide, ?_, ?_, ?_⟩
  · intro h
    have h1 := h.1 1 (by decide)
    revert h1
    decide
  · intro h
    have h2 := h.2 (by decide)
    revert h2
    decide
  · intro h
    have h2 := h.2 (by decide)
    revert h2
    decide

/-! ### Coalescing check against unit stride -/

theorem exists_first_split (l : List String) (v : String) (h : v ∈ l) :
    ∃ pre post, l = pre ++ v :: post ∧ v ∉ pre := by
  induction l with
  | nil => simp at h
  | cons a l ih =>
    by_cases ha : a = v
    · exact ⟨[], l, by simp [ha], by simp⟩
    · have hl : v ∈ l := by
        rcases List.mem_cons.mp h with e | e
        · exact absurd e.symm ha
        · exact e
      obtain ⟨pre, post, hs, hp⟩ := ih hl
      refine ⟨a :: pre, post, by simp [hs], ?_⟩
      intro hm
      rcases List.mem_cons.mp hm with e | e
      · exact ha e.symm
      · exact hp e

theorem check_coalescing_of_innermost (config : ScheduleConfig) (pattern : AccessPattern)
    (v : String) (hv : innermost_variable config = some v) :
    check_coalescing_for_pattern config pattern = true
      ↔ pattern.indices.getLast? = some v := by
  unfold innermost_variable at hv
  unfold check_coalescing_for_pattern
  cases h1 : config.transformations.getLast? with
  | none => rw [h1] at hv; simp at hv
  | some innermost =>
    rw [h1] at hv
    simp only at hv
    cases h2 : pattern.indices.getLast? with
    | none => simp
    | some last_index => simp [hv]

/-- C5 (amended). For every config that has an innermost loop variable `v` (a
last transformation with a non-empty iterator list) and every pattern with a
non-empty index list of length `n` in which `v` occurs at most once, with
`dimension_size ≥ 2` and `dimension_size ^ max 2 (n - 1) < 2^31` (no stride
leaves the range of `int`): `check_coalescing_for_pattern` is true if and only
if `compute_stride_for_pattern` equals 1. -/
theorem check_coalescing_iff_unit_stride (config : ScheduleConfig) (pattern : AccessPattern)
    (v : String) (hv : innermost_variable config = some v)
    (hne : pattern.indices ≠ [])
    (honce : pattern.indices.count v ≤ 1)
    (hd : 2 ≤ pattern.dimension_size)
    (hfit : pattern.dimension_size ^ (max 2 (pattern.indices.length - 1)) < 2147483648) :
    check_coalescing_for_pattern config pattern = true
      ↔ compute_stride_for_pattern config pattern = 1 := by
  rw [check_coalescing_of_innermost config pattern v hv,
    compute_stride_of_innermost config pattern v hv hne]
  have hpow : ∀ k : Nat, 1 ≤ k → k ≤ max 2 (pattern.indices.length - 1) →
      toInt32 (pattern.dimension_size ^ k) ≠ 1 := by
    intro k hk1 hk2
    have h2 : 2 ≤ pattern.dimension_size ^ k :=
      calc (2 : Int) ≤ pattern.dimension_size := hd
        _ = pattern.dimension_size ^ 1 := (pow_one _).symm
        _ ≤ pattern.dimension_size ^ k := pow_le_pow_right₀ (by omega) hk1
    have h3 : pattern.dimension_size ^ k < 2147483648 :=
      lt_of_le_of_lt (pow_le_pow_right₀ (by omega) hk2) hfit
    rw [toInt32_of_fits _ (by omega) h3]
    omega
  by_cases hmem : v ∈ pattern.indices
  · obtain ⟨pre, post, hsplit, hpre⟩ := exists_first_split pattern.indices v hmem
    have hs := stride_search_of_split v pattern.dimension_size pre post hpre
    rw [← hsplit] at hs
    rw [hs]
    have hpost : v ∉ post := by
      rw [hsplit, List.count_append, List.count_cons_self] at honce
      have : post.count v = 0 := by omega
      exact List.count_eq_zero.mp this
    cases post with
    | nil =>
      have hlast : pattern.indices.getLast? = some v := by
        rw [hsplit]; simp
      simp only [hlast, List.length_nil, pow_zero, true_iff]
      decide
    | cons b post =>
      have hlast : pattern.indices.getLast? ≠ some v := by
        intro h
        rw [hsplit] at h
        have e : pre ++ v :: b :: post = (pre ++ [v]) ++ (b :: post) := by simp
        rw [e, List.getLast?_append_of_ne_nil _ (by simp)] at h
        exact hpost (List.mem_of_getLast?_eq_some h)
      have hlen : pattern.indices.length = pre.length + 1 + (post.length + 1) := by
        rw [hsplit]; simp; omega
      have := hpow (b :: post).length (by simp) (by rw [hlen]; simp; omega)
      simp only [hlast, false_iff]
      exact this
  · have hlast : pattern.indices.getLast? ≠ some v :=
      fun h => hmem (List.mem_of_getLast?_eq_some h)
    rw [stride_search_of_not_mem v pattern.dimension_size pattern.indices hmem]
    have hsq : pattern.dimension_size * pattern.dimension_size = pattern.dimension_size ^ 2 := by
      ring
    have := hpow 2 (by omega) (by omega)
    simp only [hlast, false_iff, hsq]
    exact this

/-- Witness for C5 (amended): the loop order `(i,j,k)` and the pattern `A[i][k]`
with `dimension_size = 1024`. -/
theorem check_coalescing_iff_unit_stride_witness :
    check_coalescing_for_pattern (gemm_loop_order_config ["i", "j", "k"]) pattern_A = true
      ↔ compute_stride_for_pattern (gemm_loop_order_config ["i", "j", "k"]) pattern_A = 1 :=
  check_coalescing_iff_unit_stride (gemm_loop_order_config ["i", "j", "k"]) pattern_A "k"
    (by decide) (by decide) (by decide) (by decide) (by decide)

/-- Counterexample to C5 as stated: the equivalence fails for the config without
transformations (not coalesced, stride 1); under the loop order `(i,j,k)` for
the pattern `[k, k]` (coalesced, stride 1024), for `[i, j]` with
`dimension_size = 1` (not coalesced, stride 1) and for `[i, j]` with
`dimension_size = 2147483647`, whose square narrows to 1 (not coalesced,
stride 1). -/
theorem check_coalescing_iff_unit_stride_counterexample :
    ¬ (check_coalescing_for_pattern ScheduleConfig.new
          { AccessPattern.new with indices := ["i", "k"] } = true
        ↔ compute_stride_for_pattern ScheduleConfig.new
          { AccessPattern.new with indices := ["i", "k"] } = 1)
    ∧ ¬ (check_coalescing_for_pattern (gemm_loop_order_config ["i", "j", "k"])
          { AccessPattern.new with indices := ["k", "k"] } = true
        ↔ compute_stride_for_pattern (gemm_loop_order_config ["i", "j", "k"])
          { AccessPattern.new with indices := ["k", "k"] } = 1)
    ∧ ¬ (check_coalescing_for_pattern (gemm_loop_order_config ["i", "j", "k"])
          { AccessPattern.new with indices := ["i", "j"], dimension_size := 1 } = true
        ↔ compute_stride_for_pattern (gemm_loop_order_config ["i", "j", "k"])
          { AccessPattern.new with indices := ["i", "j"], dimension_size := 1 } = 1)
    ∧ ¬ (check_coalescing_for_pattern (gemm_loop_order_config ["i", "j", "k"])
          { AccessPattern.new with indices := ["i", "j"], dimension_size := 2147483647 } = true
        ↔ compute_stride_for_pattern (gemm_loop_order_config ["i", "j", "k"])
          { AccessPattern.new with indices := ["i", "j"], dimension_size := 2147483647 }
            = 1) := by
  decide

/-! ### Conflict degree of the tile sizes -/

theorem foldl_max_init (a : Int) (l : List Int) :
    l.foldl max a = max a (l.foldl max 1) ∨ (a < 1 ∧ l.foldl max a < 1) := by
  induction l generalizing a with
  | nil => simp only [List.foldl_nil]; omega
  | cons x l ih =>
    simp only [List.foldl_cons]
    rcases ih (max a x) with h | h <;> rcases ih (max 1 x) with h' | h' <;> omega

theorem foldl_max_of_one_le (a : Int) (ha : 1 ≤ a) (l : List Int) :
    l.foldl max a = max a (l.foldl max 1) := by
  rcases foldl_max_init a l with h | h
  · exact h
  · omega

theorem one_le_foldl_max (l : List Int) : 1 ≤ l.foldl max 1 := by
  have key : ∀ (l : List Int) (a : Int), 1 ≤ a → 1 ≤ l.foldl max a := by
    intro l
    induction l with
    | nil => intro a ha; simpa using ha
    | cons x l ih => intro a ha; exact ih (max a x) (by omega)
  exact key l 1 (le_refl 1)

theorem foldl_max_append_one (l₁ l₂ : List Int) :
    (l₁ ++ l₂).foldl max 1 = max (l₁.foldl max 1) (l₂.foldl max 1) := by
  rw [List.foldl_append, foldl_max_of_one_le _ (one_le_foldl_max l₁)]

theorem degree_loop_eq (r cw : Int) :
    bank_conflict_degree_loop r cw
      = (((List.range' 2 31).filter
            (fun (d : Nat) => decide (Int.tmod 32 (d : Int) = 0 ∧ Int.tmod r (d : Int) = 0))).map
          (fun (d : Nat) => (d : Int))).foldl max cw := by
  unfold bank_conflict_degree_loop
  generalize List.range' 2 31 = l
  induction l generalizing cw with
  | nil => rfl
  | cons d l ih =>
    by_cases h : Int.tmod 32 (d : Int) = 0 ∧ Int.tmod r (d : Int) = 0
    · simp [h, ih]
    · simp [h, ih]

theorem degree_loop_small (r : Int) (h1 : 1 ≤ r) (h2 : r ≤ 31) :
    bank_conflict_degree_loop r 1 = (largest_conflict_degree r).toList.foldl max 1 := by
  interval_cases r <;> decide


theorem degree_loop_of_one_le (r cw : Int) (hcw : 1 ≤ cw) :
    bank_conflict_degree_loop r cw = max cw (bank_conflict_degree_loop r 1) := by
  rw [degree_loop_eq r cw, degree_loop_eq r 1]
  exact foldl_max_of_one_le cw hcw _

/-- Contribution of one size to the way, in the terms of the reference
definitions: its conflict degree when it is greater than 1, and the forced
degree. -/
theorem bank_conflict_step_eq (cw : Int) (hcw : 1 ≤ cw) (ts : TileSize) :
    bank_conflict_step cw ts
      = max cw (max ((conflict_degrees ([ts.size].filter (fun s => decide (s > 1)))).foldl max 1)
          ((forced_degrees [ts.size]).foldl max 1)) := by
  have hforced : (forced_degrees [ts.size]).foldl max 1
      = if ts.size = 33 ∨ ts.size = 65 ∨ ts.size = 17 then 2 else 1 := by
    unfold forced_degrees
    by_cases hb : ts.size = 33 ∨ ts.size = 65 ∨ ts.size = 17
    · have hb2 : ts.size = 17 ∨ ts.size = 33 ∨ ts.size = 65 := by omega
      simp [hb, hb2]
    · have hb2 : ¬ (ts.size = 17 ∨ ts.size = 33 ∨ ts.size = 65) := by omega
      simp [hb, hb2]
  have hdeg : (conflict_degrees ([ts.size].filter (fun s => decide (s > 1)))).foldl max 1
      = if Int.tmod ts.size 32 ≠ 0 ∧ ts.size > 1
          then bank_conflict_degree_loop (Int.tmod ts.size 32) 1 else 1 := by
    by_cases hs : ts.size > 1
    · by_cases hr : Int.tmod ts.size 32 = 0
      · simp [conflict_degrees, hs, hr]
      · have hmod : Int.tmod ts.size 32 = ts.size % 32 :=
          Int.tmod_eq_emod (by omega) (by omega)
        have h1 : 1 ≤ Int.tmod ts.size 32 := by rw [hmod] at hr ⊢; omega
        have h2 : Int.tmod ts.size 32 ≤ 31 := by rw [hmod]; omega
        rw [degree_loop_small _ h1 h2]
        cases hl : largest_conflict_degree (Int.tmod ts.size 32) <;>
          simp [conflict_degrees, hs, hr, hl]
    · simp [conflict_degrees, hs]
  rw [hforced, hdeg]
  unfold bank_conflict_step
  have hone := one_le_foldl_max
  by_cases hg : Int.tmod ts.size 32 ≠ 0 ∧ ts.size > 1
  · have hloop := degree_loop_of_one_le (Int.tmod ts.size 32) cw hcw
    simp only [hg, and_self, if_true, ne_eq, not_false_eq_true, hloop]
    split_ifs <;> omega
  · simp only [hg, if_false]
    split_ifs <;> omega

theorem forced_flag_max (b₁ b₂ : Bool) :
    (if (b₁ || b₂) = true then [(2 : Int)] else []).foldl max 1
      = max ((if b₁ = true then [(2 : Int)] else []).foldl max 1)
          ((if b₂ = true then [(2 : Int)] else []).foldl max 1) := by
  cases b₁ <;> cases b₂ <;> decide

theorem guarded_conflict_way_cons (s : Int) (l : List Int) :
    guarded_conflict_way (s :: l)
      = max (max ((conflict_degrees ([s].filter (fun s => decide (s > 1)))).foldl max 1)
            ((forced_degrees [s]).foldl max 1))
          (guarded_conflict_way l) := by
  have hcd : conflict_degrees ((s :: l).filter (fun s => decide (s > 1)))
      = conflict_degrees ([s].filter (fun s => decide (s > 1)))
        ++ conflict_degrees (l.filter (fun s => decide (s > 1))) := by
    have e : s :: l = [s] ++ l := rfl
    rw [e, List.filter_append]
    unfold conflict_degrees
    rw [List.filterMap_append]
  have hf : (forced_degrees (s :: l)).foldl max 1
      = max ((forced_degrees [s]).foldl max 1) ((forced_degrees l).foldl max 1) := by
    unfold forced_degrees
    simp only [List.any_cons, List.any_nil, Bool.or_false]
    exact forced_flag_max _ _
  unfold guarded_conflict_way
  rw [foldl_max_append_one, foldl_max_append_one, hcd, foldl_max_append_one, hf]
  omega

theorem foldl_bank_conflict_step (l : List TileSize) (cw : Int) (hcw : 1 ≤ cw) :
    l.foldl bank_conflict_step cw
      = max cw (guarded_conflict_way (l.map (fun ts => ts.size))) := by
  induction l generalizing cw with
  | nil =>
    have : guarded_conflict_way [] = 1 := by decide
    simp only [List.foldl_nil, List.map_nil, this]
    omega
  | cons ts l ih =>
    have hstep := bank_conflict_step_eq cw hcw ts
    have hge : 1 ≤ bank_conflict_step cw ts := by rw [hstep]; omega
    rw [List.foldl_cons, ih _ hge, List.map_cons, guarded_conflict_way_cons, hstep]
    omega

/-- C9 (amended). For every config, `check_bank_conflict` sets `way` to the
maximum of 1, of the largest `d` in `[2, 32]` dividing both 32 and `s % 32`
taken over every tile size `s > 1` with `s % 32 ≠ 0` (when such a `d` exists),
and of 2 when some tile size is 17, 33 or 65; a size with `s % 32 = 0` or
`s ≤ 1` contributes no conflict degree; the function returns true iff
`way > 1`. -/
theorem check_bank_conflict_way (config : ScheduleConfig) :
    (check_bank_conflict config).2
        = guarded_conflict_way (config.tile_sizes.map (fun ts => ts.size))
      ∧ ((check_bank_conflict config).1 = true ↔ (check_bank_conflict config).2 > 1) := by
  constructor
  · show config.tile_sizes.foldl bank_conflict_step 1 = _
    rw [foldl_bank_conflict_step _ 1 (le_refl 1)]
    have : 1 ≤ guarded_conflict_way (config.tile_sizes.map (fun ts => ts.size)) :=
      one_le_foldl_max _
    omega
  · simp [check_bank_conflict]

/-- Counterexample to C9 as stated: for the single tile size `-2` the remainder
`-2 % 32` is not 0 (it is `-2` in C++, 30 as a least non-negative residue) and
the largest `d` in `[2, 32]` dividing both 32 and it is 2, so the claimed way
is 2; `check_bank_conflict` skips sizes that are not greater than 1 and leaves
`way = 1`, returning false. -/
theorem check_bank_conflict_way_counterexample :
    check_bank_conflict { ScheduleConfig.new with tile_sizes := [TileSize.mk "i" (-2)] }
        = (false, 1)
      ∧ Int.tmod (-2) 32 ≠ 0
      ∧ largest_conflict_degree (Int.tmod (-2) 32) = some 2
      ∧ largest_conflict_degree ((-2) % 32) = some 2
      ∧ claimed_conflict_way [-2] = 2 := by
  decide

/-! ### Bank-conflict penalty -/

/-- The multiplier chosen by the `switch` of `compute_penalized_score`. -/
theorem compute_penalized_score_of_conflict (ev : TiramisuConfigEvaluator)
    (config : ScheduleConfig) (t : ℚ) (h : config.has_bank_conflict = true) :
    compute_penalized_score ev config t
      = t * (if config.bank_conflict_way = 2 then ev.bank_conflict_penalty_factor_
          else if config.bank_conflict_way = 4 then ev.bank_conflict_penalty_factor_ * 1.5
          else if config.bank_conflict_way = 8 then ev.bank_conflict_penalty_factor_ * 2.0
          else if config.bank_conflict_way = 16 then ev.bank_conflict_penalty_factor_ * 4.0
          else if config.bank_conflict_way = 32 then ev.bank_conflict_penalty_factor_ * 16.0
          else if config.bank_conflict_way > 1 then
            (config.bank_conflict_way : ℚ) * (ev.bank_conflict_penalty_factor_ / 2.0)
          else 1.0) := by
  simp [compute_penalized_score, h]

/-- C11. For every config with `has_bank_conflict = true`, raw time `t` and
penalty factor `F`, `compute_penalized_score` returns `t × m` where `m = F` for
degree 2, `1.5 F` for 4, `2 F` for 8, `4 F` for 16, `16 F` for 32, and
`w × (F / 2)` for any other degree `w > 1`; for a config with
`has_bank_conflict = false` it returns `t` unchanged. -/
theorem compute_penalized_score_table (ev : TiramisuConfigEvaluator)
    (config : ScheduleConfig) (t : ℚ) :
    (config.has_bank_conflict = true →
      (config.bank_conflict_way = 2 →
        compute_penalized_score ev config t = t * ev.bank_conflict_penalty_factor_)
      ∧ (config.bank_conflict_way = 4 →
        compute_penalized_score ev config t = t * (1.5 * ev.bank_conflict_penalty_factor_))
      ∧ (config.bank_conflict_way = 8 →
        compute_penalized_score ev config t = t * (2 * ev.bank_conflict_penalty_factor_))
      ∧ (config.bank_conflict_way = 16 →
        compute_penalized_score ev config t = t * (4 * ev.bank_conflict_penalty_factor_))
      ∧ (config.bank_conflict_way = 32 →
        compute_penalized_score ev config t = t * (16 * ev.bank_conflict_penalty_factor_))
      ∧ (config.bank_conflict_way > 1 → ¬ listed_degree config.bank_conflict_way →
        compute_penalized_score ev config t
          = t * ((config.bank_conflict_way : ℚ) * (ev.bank_conflict_penalty_factor_ / 2))))
    ∧ (config.has_bank_conflict = false → compute_penalized_score ev config t = t) := by
  constructor
  · intro h
    rw [compute_penalized_score_of_conflict ev config t h]
    refine ⟨?_, ?_, ?_, ?_, ?_, ?_⟩
    · intro hw; simp only [hw]; norm_num
    · intro hw; simp only [hw]; norm_num [mul_comm]
    · intro hw; simp only [hw]; norm_num [mul_comm]
    · intro hw; simp only [hw]; norm_num [mul_comm]
    · intro hw; simp only [hw]; norm_num [mul_comm]
    · intro hgt hnot
      unfold listed_degree at hnot
      have h2 : config.bank_conflict_way ≠ 2 := fun e => hnot (by simp [e])
      have h4 : config.bank_conflict_way ≠ 4 := fun e => hnot (by simp [e])
      have h8 : config.bank_conflict_way ≠ 8 := fun e => hnot (by simp [e])
      have h16 : config.bank_conflict_way ≠ 16 := fun e => hnot (by simp [e])
      have h32 : config.bank_conflict_way ≠ 32 := fun e => hnot (by simp [e])
      simp only [h2, h4, h8, h16, h32, hgt, if_true, if_false]
      norm_num
  · intro h
    simp [compute_penalized_score, h]

/-- Witness for C11: with the default factor 2, a 4-way conflict turns a raw time
of 10 into `10 × (1.5 × 2)`, a 6-way conflict into `10 × (6 × (2 / 2))`, and a
config without conflict keeps 10. -/
theorem compute_penalized_score_table_witness :
    compute_penalized_score TiramisuConfigEvaluator.new
        { ScheduleConfig.new with has_bank_conflict := true, bank_conflict_way := 4 } 10
      = 10 * (1.5 * 2)
    ∧ compute_penalized_score TiramisuConfigEvaluator.new
        { ScheduleConfig.new with has_bank_conflict := true, bank_conflict_way := 6 } 10
      = 10 * (((6 : Int) : ℚ) * (2 / 2))
    ∧ compute_penalized_score TiramisuConfigEvaluator.new ScheduleConfig.new 10 = 10 :=
  ⟨((compute_penalized_score_table TiramisuConfigEvaluator.new
        { ScheduleConfig.new with has_bank_conflict := true, bank_conflict_way := 4 } 10).1
      rfl).2.1 rfl,
   ((compute_penalized_score_table TiramisuConfigEvaluator.new
        { ScheduleConfig.new with has_bank_conflict := true, bank_conflict_way := 6 } 10).1
      rfl).2.2.2.2.2 (by decide) (by unfold listed_degree; decide),
   (compute_penalized_score_table TiramisuConfigEvaluator.new ScheduleConfig.new 10).2 rfl⟩

theorem improves_pos (t best : ℚ) (h : improves t best = true) : 0 < t := by
  simp only [improves, decide_eq_true_eq] at h
  exact h.1

theorem improves_lt (t best : ℚ) (h : improves t best = true) : t < best := by
  simp only [improves, decide_eq_true_eq] at h
  exact h.2

theorem improves_of_pos_of_lt (t best : ℚ) (h0 : 0 < t) (h1 : t < best) :
    improves t best = true := by
  simp only [improves, decide_eq_true_eq]
  exact ⟨h0, h1⟩

theorem improves_of_lt (t t0 best : ℚ) (h0 : improves t0 best = true)
    (ht : improves t t0 = true) : improves t best = true := by
  simp only [improves, decide_eq_true_eq] at *
  exact ⟨ht.1, lt_trans ht.2 h0.2⟩

theorem le_of_not_improves (t t0 : ℚ) (h : improves t t0 = false) (ht : 0 < t) :
    t0 ≤ t := by
  simp only [improves, decide_eq_false_iff_not, not_and, not_lt] at h
  exact h ht

theorem lt_of_improves_of_not (t t0 best : ℚ) (h0 : improves t0 best = false)
    (h0pos : 0 < t0) (ht : improves t best = true) : t < t0 := by
  simp only [improves, decide_eq_true_eq, decide_eq_false_iff_not, not_and, not_lt] at *
  exact lt_of_lt_of_le ht.2 (h0 h0pos)

/-- Invariant of the loop of `search_best_config`: either no evaluated time
improves on the initial state, which is then returned, or the loop ends on the
first candidate of smallest positive time, that time improving on the initial
state. -/
theorem search_best_loop_spec (ev : TiramisuConfigEvaluator) (cands : List ScheduleConfig)
    (state : ScheduleConfig × ℚ) (rng : RandSource) :
    ((∀ t ∈ evaluated_times ev cands rng, improves t state.2 = false)
      ∧ (search_best_loop ev cands state rng).1 = state)
    ∨ ∃ (i : Nat) (c : ScheduleConfig) (t : ℚ),
        cands[i]? = some c ∧ (evaluated_times ev cands rng)[i]? = some t
        ∧ improves t state.2 = true
        ∧ (search_best_loop ev cands state rng).1
            = ({ c with execution_time_ms := t }, t)
        ∧ (∀ (j : Nat) (u : ℚ), (evaluated_times ev cands rng)[j]? = some u → 0 < u → t ≤ u)
        ∧ (∀ (j : Nat) (u : ℚ), j < i → (evaluated_times ev cands rng)[j]? = some u →
            0 < u → t < u) := by
  induction cands generalizing state rng with
  | nil =>
    left
    simp [evaluated_times, search_best_loop]
  | cons c0 rest ih =>
    have htimes : evaluated_times ev (c0 :: rest) rng
        = (evaluate_config ev c0 rng).1
          :: evaluated_times ev rest (evaluate_config ev c0 rng).2 := rfl
    rw [htimes]
    generalize ht0 : (evaluate_config ev c0 rng).1 = t0
    generalize hrng : (evaluate_config ev c0 rng).2 = rng1
    by_cases himp : improves t0 state.2 = true
    · have hloop : (search_best_loop ev (c0 :: rest) state rng)
          = search_best_loop ev rest ({ c0 with execution_time_ms := t0 }, t0) rng1 := by
        simp only [search_best_loop, ht0, hrng, himp, if_true]
      have ht0pos : 0 < t0 := improves_pos t0 state.2 himp
      right
      rcases ih ({ c0 with execution_time_ms := t0 }, t0) rng1 with ⟨hall, hres⟩ | hex
      · refine ⟨0, c0, t0, by simp, by simp, himp, ?_, ?_, ?_⟩
        · rw [hloop, hres]
        · intro j u hj hu
          cases j with
          | zero =>
            simp only [List.getElem?_cons_zero, Option.some.injEq] at hj
            exact le_of_eq hj
          | succ j =>
            simp only [List.getElem?_cons_succ] at hj
            exact le_of_not_improves u t0 (hall u (List.getElem?_mem hj)) hu
        · intro j u hj
          exact absurd hj (Nat.not_lt_zero j)
      · obtain ⟨i, c, t, hc, ht, himp1, hres, hmin, hfirst⟩ := hex
        have hlt : t < t0 := improves_lt t t0 himp1
        refine ⟨i + 1, c, t, by simpa using hc, by simpa using ht,
          improves_of_lt t t0 state.2 himp himp1, ?_, ?_, ?_⟩
        · rw [hloop, hres]
        · intro j u hj hu
          cases j with
          | zero =>
            simp only [List.getElem?_cons_zero, Option.some.injEq] at hj
            rw [← hj]; exact le_of_lt hlt
          | succ j =>
            simp only [List.getElem?_cons_succ] at hj
            exact hmin j u hj hu
        · intro j u hji hj hu
          cases j with
          | zero =>
            simp only [List.getElem?_cons_zero, Option.some.injEq] at hj
            rw [← hj]; exact hlt
          | succ j =>
            simp only [List.getElem?_cons_succ] at hj
            exact hfirst j u (by omega) hj hu
    · have himp' : improves t0 state.2 = false := by
        cases h : improves t0 state.2
        · rfl
        · exact absurd h himp
      have hloop : (search_best_loop ev (c0 :: rest) state rng)
          = search_best_loop ev rest state rng1 := by
        simp only [search_best_loop, ht0, hrng, himp']
        rfl
      rcases ih state rng1 with ⟨hall, hres⟩ | hex
      · left
        refine ⟨?_, by rw [hloop, hres]⟩
        intro u hu
        rcases List.mem_cons.mp hu with e | e
        · rw [e]; exact himp'
        · exact hall u e
      · right
        obtain ⟨i, c, t, hc, ht, himp1, hres, hmin, hfirst⟩ := hex
        refine ⟨i + 1, c, t, by simpa using hc, by simpa using ht, himp1, ?_, ?_, ?_⟩
        · rw [hloop, hres]
        · intro j u hj hu
          cases j with
          | zero =>
            simp only [List.getElem?_cons_zero, Option.some.injEq] at hj
            rw [← hj] at hu ⊢
            exact le_of_lt (lt_of_improves_of_not t t0 state.2 himp' hu himp1)
          | succ j =>
            simp only [List.getElem?_cons_succ] at hj
            exact hmin j u hj hu
        · intro j u hji hj hu
          cases j with
          | zero =>
            simp only [List.getElem?_cons_zero, Option.some.injEq] at hj
            rw [← hj] at hu ⊢
            exact lt_of_improves_of_not t t0 state.2 himp' hu himp1
          | succ j =>
            simp only [List.getElem?_cons_succ] at hj
            exact hfirst j u (by omega) hj hu

/-- The largest `double` is above 1000000, hence above every time of a
concrete trace in this file. -/
theorem million_lt_DBL_MAX : (1000000 : ℚ) < DBL_MAX := by
  unfold DBL_MAX
  norm_num

/-- When an evaluated time is positive and below `DBL_MAX`, the selection ends
on the first candidate of smallest positive time. -/
theorem search_best_config_of_improving (ev : TiramisuConfigEvaluator)
    (candidates : List ScheduleConfig) (rng : RandSource)
    (hpos : ∃ t ∈ evaluated_times ev candidates rng, 0 < t ∧ t < DBL_MAX) :
    ∃ (i : Nat) (c : ScheduleConfig) (t : ℚ),
      candidates[i]? = some c
      ∧ (evaluated_times ev candidates rng)[i]? = some t
      ∧ 0 < t ∧ t < DBL_MAX
      ∧ (∀ (j : Nat) (u : ℚ),
          (evaluated_times ev candidates rng)[j]? = some u → 0 < u → t ≤ u)
      ∧ (∀ (j : Nat) (u : ℚ), j < i →
          (evaluated_times ev candidates rng)[j]? = some u → 0 < u → t < u)
      ∧ (search_best_config ev candidates rng).1 = { c with execution_time_ms := t } := by
  rcases search_best_loop_spec ev candidates (ScheduleConfig.new, DBL_MAX) rng with
    ⟨hall, _⟩ | ⟨i, c, t, hc, ht, himp, hres, hmin, hfirst⟩
  · obtain ⟨t, hmem, htpos, htlt⟩ := hpos
    have hno := hall t hmem
    rw [improves_of_pos_of_lt t DBL_MAX htpos htlt] at hno
    exact absurd hno (by decide)
  · exact ⟨i, c, t, hc, ht, improves_pos t DBL_MAX himp, improves_lt t DBL_MAX himp,
      hmin, hfirst, by simp only [search_best_config, hres]⟩

/-- When no evaluated time is both positive and below `DBL_MAX`, the selection
returns the default config. -/
theorem search_best_config_of_none_improving (ev : TiramisuConfigEvaluator)
    (candidates : List ScheduleConfig) (rng : RandSource)
    (hnone : ∀ t ∈ evaluated_times ev candidates rng, t ≤ 0 ∨ DBL_MAX ≤ t) :
    (search_best_config ev candidates rng).1 = ScheduleConfig.new := by
  rcases search_best_loop_spec ev candidates (ScheduleConfig.new, DBL_MAX) rng with
    ⟨_, hres⟩ | ⟨i, c, t, _, ht, himp, _, _, _⟩
  · simp only [search_best_config, hres]
  · have hpos := improves_pos t DBL_MAX himp
    have hlt := improves_lt t DBL_MAX himp
    rcases hnone t (List.getElem?_mem ht) with h | h
    · exact absurd hpos (not_lt.mpr h)
    · exact absurd hlt (not_lt.mpr h)

/-- C13, as amended. For every candidate list in which at least one evaluation
yields a time `> 0` and below the largest `double`, the initial best time,
`search_best_config` returns the candidate at the smallest index that achieves
the minimum positive evaluated time (the first seen wins ties), with
`execution_time_ms` set to that time and every other field as in the input
candidate; candidates whose time is `≤ 0` are ignored. -/
theorem search_best_config_first_minimum (ev : TiramisuConfigEvaluator)
    (candidates : List ScheduleConfig) (rng : RandSource)
    (hpos : ∃ t ∈ evaluated_times ev candidates rng, 0 < t ∧ t < DBL_MAX) :
    ∃ (i : Nat) (c : ScheduleConfig) (t : ℚ),
      candidates[i]? = some c
      ∧ (evaluated_times ev candidates rng)[i]? = some t
      ∧ 0 < t
      ∧ (∀ (j : Nat) (u : ℚ),
          (evaluated_times ev candidates rng)[j]? = some u → 0 < u → t ≤ u)
      ∧ (∀ (j : Nat) (u : ℚ), j < i →
          (evaluated_times ev candidates rng)[j]? = some u → 0 < u → t < u)
      ∧ (search_best_config ev candidates rng).1 = { c with execution_time_ms := t } := by
  obtain ⟨i, c, t, hc, ht, h0, _, hmin, hfirst, hres⟩ :=
    search_best_config_of_improving ev candidates rng hpos
  exact ⟨i, c, t, hc, ht, h0, hmin, hfirst, hres⟩

/-- Witness for C13: the two GEMM configs of loop orders `(i,j,k)` and `(i,k,j)`
under the default settings and a random source that always returns 10 (no
noise); the first evaluated time, 56, is positive and below the largest
`double`. -/
theorem search_best_config_first_minimum_witness :
    ∃ (i : Nat) (c : ScheduleConfig) (t : ℚ),
      [gemm_loop_order_config ["i", "j", "k"], gemm_loop_order_config ["i", "k", "j"]][i]?
        = some c
      ∧ (evaluated_times TiramisuConfigEvaluator.new
          [gemm_loop_order_config ["i", "j", "k"], gemm_loop_order_config ["i", "k", "j"]]
          (fun _ => 10))[i]? = some t
      ∧ 0 < t
      ∧ (∀ (j : Nat) (u : ℚ),
          (evaluated_times TiramisuConfigEvaluator.new
            [gemm_loop_order_config ["i", "j", "k"], gemm_loop_order_config ["i", "k", "j"]]
            (fun _ => 10))[j]? = some u → 0 < u → t ≤ u)
      ∧ (∀ (j : Nat) (u : ℚ), j < i →
          (evaluated_times TiramisuConfigEvaluator.new
            [gemm_loop_order_config ["i", "j", "k"], gemm_loop_order_config ["i", "k", "j"]]
            (fun _ => 10))[j]? = some u → 0 < u → t < u)
      ∧ (search_best_config TiramisuConfigEvaluator.new
          [gemm_loop_order_config ["i", "j", "k"], gemm_loop_order_config ["i", "k", "j"]]
          (fun _ => 10)).1 = { c with execution_time_ms := t } :=
  search_best_config_first_minimum TiramisuConfigEvaluator.new
    [gemm_loop_order_config ["i", "j", "k"], gemm_loop_order_config ["i", "k", "j"]]
    (fun _ => 10)
    ⟨56, by
      have h10 : Int.tmod 10 20 = 10 := by decide
      simp [h10, evaluated_times, evaluate_config, rand, average_tile, toInt32,
        gemm_loop_order_config, ScheduleConfig.new, Transformation.new,
        TiramisuConfigEvaluator.satisfies_coalescing_constraint, TiramisuConfigEvaluator.new]
      norm_num, by norm_num, lt_trans (by norm_num) million_lt_DBL_MAX⟩

/-- Counterexample to C13 as stated: with the penalty factor set to `2^1023`,
the one candidate, a GEMM config marked with a 16-way bank conflict, evaluates
to `56 × 2^1025`, a positive time that is not below the largest `double`, and
`search_best_config` returns the default config with `execution_time_ms = -1`
instead of the candidate. -/
theorem search_best_config_first_minimum_counterexample :
    evaluated_times (TiramisuConfigEvaluator.new.set_bank_conflict_penalty true (2 ^ 1023))
        [overflow_candidate] (fun _ => 10) = [56 * 2 ^ 1025]
    ∧ (∃ t ∈ evaluated_times
          (TiramisuConfigEvaluator.new.set_bank_conflict_penalty true (2 ^ 1023))
          [overflow_candidate] (fun _ => 10), 0 < t)
    ∧ (search_best_config (TiramisuConfigEvaluator.new.set_bank_conflict_penalty true (2 ^ 1023))
        [overflow_candidate] (fun _ => 10)).1 = ScheduleConfig.new
    ∧ (search_best_config (TiramisuConfigEvaluator.new.set_bank_conflict_penalty true (2 ^ 1023))
        [overflow_candidate] (fun _ => 10)).1.execution_time_ms = -1
    ∧ ¬ ∃ (i : Nat) (c : ScheduleConfig) (t : ℚ),
        [overflow_candidate][i]? = some c
        ∧ 0 < t
        ∧ (search_best_config
            (TiramisuConfigEvaluator.new.set_bank_conflict_penalty true (2 ^ 1023))
            [overflow_candidate] (fun _ => 10)).1 = { c with execution_time_ms := t } := by
  have htimes : evaluated_times
      (TiramisuConfigEvaluator.new.set_bank_conflict_penalty true (2 ^ 1023))
      [overflow_candidate] (fun _ => 10) = [56 * 2 ^ 1025] := by
    have h10 : Int.tmod 10 20 = 10 := by decide
    simp [h10, overflow_candidate, evaluated_times, evaluate_config, rand, average_tile,
      toInt32, gemm_loop_order_config, ScheduleConfig.new, Transformation.new,
      TiramisuConfigEvaluator.satisfies_coalescing_constraint, TiramisuConfigEvaluator.new,
      TiramisuConfigEvaluator.set_bank_conflict_penalty, compute_penalized_score]
    norm_num
  have hres : (search_best_config
      (TiramisuConfigEvaluator.new.set_bank_conflict_penalty true (2 ^ 1023))
      [overflow_candidate] (fun _ => 10)).1 = ScheduleConfig.new := by
    apply search_best_config_of_none_improving
    intro t ht
    rw [htimes, List.mem_singleton] at ht
    right
    rw [ht]
    unfold DBL_MAX
    norm_num
  refine ⟨htimes, ⟨56 * 2 ^ 1025, ?_, by positivity⟩, hres, ?_, ?_⟩
  · rw [htimes]; exact List.mem_singleton.mpr rfl
  · rw [hres]; rfl
  · rintro ⟨i, c, t, _, ht, heq⟩
    rw [hres] at heq
    have h1 : (ScheduleConfig.new).execution_time_ms
        = ({ c with execution_time_ms := t } : ScheduleConfig).execution_time_ms := by
      rw [← heq]
    have h2 : (ScheduleConfig.new).execution_time_ms = -1 := rfl
    rw [h2] at h1
    have h3 : ({ c with execution_time_ms := t } : ScheduleConfig).execution_time_ms = t := rfl
    rw [h3] at h1
    rw [← h1] at ht
    norm_num at ht

/-- C14. If every candidate's evaluation yields a time `≤ 0`, in particular for
the empty candidate list, `search_best_config` returns the sentinel: the default
config, which has no transformations and `execution_time_ms = -1`. -/
theorem search_best_config_sentinel (ev : TiramisuConfigEvaluator)
    (candidates : List ScheduleConfig) (rng : RandSource)
    (hfail : ∀ t ∈ evaluated_times ev candidates rng, t ≤ 0) :
    (search_best_config ev candidates rng).1 = ScheduleConfig.new
    ∧ (search_best_config ev candidates rng).1.transformations = []
    ∧ (search_best_config ev candidates rng).1.execution_time_ms = -1
    ∧ (search_best_config ev [] rng).1 = ScheduleConfig.new := by
  have hres : (search_best_config ev candidates rng).1 = ScheduleConfig.new :=
    search_best_config_of_none_improving ev candidates rng
      (fun t ht => Or.inl (hfail t ht))
  refine ⟨hres, ?_, ?_, rfl⟩
  · rw [hres]; rfl
  · rw [hres]; rfl

/-- Witness for C14: with the penalty factor set to `-1`, the one candidate, a
GEMM config marked with a 2-way bank conflict, evaluates to `-56`, and the
sentinel is returned. -/
theorem search_best_config_sentinel_witness :
    (∀ t ∈ evaluated_times (TiramisuConfigEvaluator.new.set_bank_conflict_penalty true (-1))
        [{ gemm_loop_order_config ["i", "j", "k"] with
            has_bank_conflict := true, bank_conflict_way := 2 }] (fun _ => 10), t ≤ 0)
    ∧ (search_best_config (TiramisuConfigEvaluator.new.set_bank_conflict_penalty true (-1))
        [{ gemm_loop_order_config ["i", "j", "k"] with
            has_bank_conflict := true, bank_conflict_way := 2 }] (fun _ => 10)).1
      = ScheduleConfig.new :=
  have h : ∀ t ∈ evaluated_times
      (TiramisuConfigEvaluator.new.set_bank_conflict_penalty true (-1))
      [{ gemm_loop_order_config ["i", "j", "k"] with
          has_bank_conflict := true, bank_conflict_way := 2 }] (fun _ => 10), t ≤ 0 := by
    have h10 : Int.tmod 10 20 = 10 := by decide
    simp [h10, evaluated_times, evaluate_config, rand, average_tile, toInt32,
      gemm_loop_order_config, ScheduleConfig.new, Transformation.new,
      TiramisuConfigEvaluator.satisfies_coalescing_constraint, TiramisuConfigEvaluator.new,
      TiramisuConfigEvaluator.set_bank_conflict_penalty, compute_penalized_score]
    norm_num
  ⟨h, (search_best_config_sentinel _ _ _ h).1⟩

/-! ### Batch evaluation -/

theorem evaluate_all_loop_eq (ev : TiramisuConfigEvaluator) (candidates : List ScheduleConfig)
    (rng : RandSource) :
    (evaluate_all_loop ev candidates rng).1 = annotated_with_times ev candidates rng := by
  induction candidates generalizing rng with
  | nil => rfl
  | cons c rest ih =>
    simp only [evaluate_all_loop, annotated_with_times, evaluated_times, List.zipWith_cons_cons]
    rw [ih]
    rfl

theorem config_less_false_iff (a b : ScheduleConfig) :
    config_less b a = false
      ↔ (b.is_valid = true → a.is_valid = true ∧ a.execution_time_ms ≤ b.execution_time_ms) := by
  unfold config_less
  cases hb : b.is_valid <;> cases ha : a.is_valid <;> simp

theorem reference_sort_sorts (l : List ScheduleConfig) :
    (reference_sort config_less l).Perm l
      ∧ (reference_sort config_less l).Pairwise (fun a b => config_less b a = false) := by
  constructor
  · exact List.mergeSort_perm l _
  · have hs := @List.sorted_mergeSort ScheduleConfig (fun a b => !config_less b a)
      (by
        intro a b c hab hbc
        simp only [Bool.not_eq_true', config_less_false_iff] at hab hbc ⊢
        intro hc
        obtain ⟨hb, hbc'⟩ := hbc hc
        obtain ⟨ha, hab'⟩ := hab hb
        exact ⟨ha, le_trans hab' hbc'⟩)
      (by
        intro a b
        simp only [Bool.or_eq_true, Bool.not_eq_true', config_less_false_iff]
        by_cases ha : a.is_valid = true <;> by_cases hb : b.is_valid = true
        · rcases le_total a.execution_time_ms b.execution_time_ms with h | h
          · left; intro _; exact ⟨ha, h⟩
          · right; intro _; exact ⟨hb, h⟩
        · left; intro h; exact absurd h hb
        · right; intro h; exact absurd h ha
        · left; intro h; exact absurd h hb)
      l
    exact hs.imp (fun h => by simpa using h)

/-- C15. For every candidate list, `evaluate_all_configs` returns a permutation
of the input candidates, each annotated with its evaluated `execution_time_ms`
and `is_valid = (time > 0)`, arranged so that every valid candidate precedes
every invalid one and the valid candidates are in non-decreasing order of time;
`std::sort` is any function meeting its contract for the comparator. -/
theorem evaluate_all_configs_sorted
    (std_sort : (ScheduleConfig → ScheduleConfig → Bool) → List ScheduleConfig →
      List ScheduleConfig)
    (hsort : sorts_by config_less (std_sort config_less))
    (ev : TiramisuConfigEvaluator) (candidates : List ScheduleConfig) (rng : RandSource) :
    (evaluate_all_configs std_sort ev candidates rng).1.Perm
        (annotated_with_times ev candidates rng)
    ∧ (evaluate_all_configs std_sort ev candidates rng).1.Pairwise
        (fun a b =>
          (b.is_valid = true → a.is_valid = true)
          ∧ (a.is_valid = true → b.is_valid = true →
              a.execution_time_ms ≤ b.execution_time_ms)) := by
  have h := hsort (evaluate_all_loop ev candidates rng).1
  rw [evaluate_all_loop_eq] at h
  constructor
  · simp only [evaluate_all_configs, evaluate_all_loop_eq]
    exact h.1
  · simp only [evaluate_all_configs, evaluate_all_loop_eq]
    refine h.2.imp ?_
    intro a b hab
    rw [config_less_false_iff] at hab
    exact ⟨fun hb => (hab hb).1, fun _ hb => (hab hb).2⟩

/-- Witness for C15: merge sort meets the contract of `std::sort`, and the
theorem applies to the six GEMM configs under the default settings. -/
theorem evaluate_all_configs_sorted_witness :
    sorts_by config_less (reference_sort config_less)
    ∧ (evaluate_all_configs reference_sort TiramisuConfigEvaluator.new
          generate_gemm_loop_orders (fun n => (n : Int))).1.Perm
        (annotated_with_times TiramisuConfigEvaluator.new generate_gemm_loop_orders
          (fun n => (n : Int)))
    ∧ (evaluate_all_configs reference_sort TiramisuConfigEvaluator.new
          generate_gemm_loop_orders (fun n => (n : Int))).1.Pairwise
        (fun a b =>
          (b.is_valid = true → a.is_valid = true)
          ∧ (a.is_valid = true → b.is_valid = true →
              a.execution_time_ms ≤ b.execution_time_ms)) :=
  ⟨reference_sort_sorts,
    evaluate_all_configs_sorted reference_sort reference_sort_sorts
      TiramisuConfigEvaluator.new generate_gemm_loop_orders (fun n => (n : Int))⟩

/-! ### Candidate generation from the baseline -/

theorem satisfies_coalescing_eq (c : ScheduleConfig) :
    satisfies_coalescing_constraint c = !c.transformations.isEmpty := by
  unfold satisfies_coalescing_constraint
  cases h : c.transformations.getLast? with
  | none => simp [List.getLast?_eq_none_iff.mp h]
  | some t =>
    have hne : c.transformations ≠ [] := by
      intro e; rw [e] at h; simp at h
    cases hc : c.transformations with
    | nil => exact absurd hc hne
    | cons a l => simp

theorem foldlM_range_names {β : Type} (f : β → Nat → Option β) (g : β → String → β)
    (names : List String)
    (hf : ∀ (b : β) (d : Nat) (hd : d < names.length), f b d = some (g b (names.get ⟨d, hd⟩)))
    (n : Nat) (hn : n ≤ names.length) (b : β) :
    (List.range n).foldlM f b = some ((names.take n).foldl g b) := by
  induction n with
  | zero => simp
  | succ n ih =>
    have hlt : n < names.length := by omega
    rw [List.range_succ, List.foldlM_append, ih (by omega)]
    simp only [List.foldlM_cons, List.foldlM_nil, Option.some_bind, Option.bind_eq_bind]
    rw [hf _ n hlt]
    simp only [Option.some_bind, List.get_eq_getElem]
    rw [List.take_succ, List.foldl_append, List.getElem?_eq_getElem hlt]
    simp

theorem read_iterator_name_of_named (p : PlutoProg) (names : List String)
    (h : named_baseline p names) (d : Nat) (hd : d < names.length) :
    read_iterator_name p d = some (names.get ⟨d, hd⟩) := by
  obtain ⟨stmt, rest, more, hs, hi, _⟩ := h
  have hget : (names.map some ++ more)[d]? = some (some (names.get ⟨d, hd⟩)) := by
    rw [List.getElem?_append_left (by simpa using hd)]
    simp [List.getElem?_eq_getElem hd]
  simp only [read_iterator_name, hs, List.head?_cons, hi, hget]

theorem pluto_prog_to_config_step_of_named (stmt : Stmt) (names : List String)
    (more : List (Option String)) (hi : stmt.iterators = some (names.map some ++ more))
    (config : ScheduleConfig) (d : Nat) (hd : d < names.length) :
    pluto_prog_to_config_step stmt config d
      = some { config with
          transformations :=
            config.transformations ++ [named_interchange (names.get ⟨d, hd⟩)] } := by
  have hget : (names.map some ++ more)[d]? = some (some (names.get ⟨d, hd⟩)) := by
    rw [List.getElem?_append_left (by simpa using hd)]
    simp [List.getElem?_eq_getElem hd]
  simp only [pluto_prog_to_config_step, hi, hget]
  rfl

theorem foldl_push_interchange (names : List String) (config : ScheduleConfig) :
    names.foldl
        (fun (c : ScheduleConfig) name =>
          { c with transformations := c.transformations ++ [named_interchange name] })
        config
      = { config with
          transformations := config.transformations ++ names.map named_interchange } := by
  induction names generalizing config with
  | nil => simp
  | cons a l ih => rw [List.foldl_cons, ih]; simp

theorem foldl_push_tile (names : List String) (t : Int) (config : ScheduleConfig) :
    names.foldl
        (fun (c : ScheduleConfig) name =>
          { c with tile_sizes := c.tile_sizes ++ [TileSize.mk name t] })
        config
      = { config with
          tile_sizes := config.tile_sizes ++ names.map (fun name => TileSize.mk name t) } := by
  induction names generalizing config with
  | nil => simp
  | cons a l ih => rw [List.foldl_cons, ih]; simp

/-- The baseline config of a named baseline with at least one statement: one
named interchange per loop dimension, nothing else set. -/
theorem pluto_prog_to_config_of_named (p : PlutoProg) (names : List String)
    (h : named_baseline p names) (hstmts : p.nstmts ≠ 0) :
    pluto_prog_to_config (some p)
      = some { ScheduleConfig.new with transformations := names.map named_interchange } := by
  obtain ⟨stmt, rest, more, hs, hi, hlen⟩ := h
  simp only [pluto_prog_to_config, hstmts, if_false, hs, List.head?_cons]
  rw [foldlM_range_names (pluto_prog_to_config_step stmt)
      (fun (c : ScheduleConfig) name =>
        { c with transformations := c.transformations ++ [named_interchange name] })
      names (fun b d hd => pluto_prog_to_config_step_of_named stmt names more hi b d hd)
      p.nvar.toNat (by omega), ← hlen, List.take_length, foldl_push_interchange]
  rfl

/-- The tiling variant of a named baseline: the transformations of the optimal
config and one tile-size entry per iterator name. -/
theorem tiling_variant_of_named (p : PlutoProg) (names : List String)
    (h : named_baseline p names) (oc : ScheduleConfig) (t : Int) :
    ∃ v, tiling_variant p oc t = some v
      ∧ v.transformations = oc.transformations
      ∧ v.tile_sizes = names.map (fun name => TileSize.mk name t) := by
  have hlen : names.length = p.nvar.toNat := by
    obtain ⟨_, _, _, _, _, hlen⟩ := h
    exact hlen
  have hfold := foldlM_range_names
      (fun (variant : ScheduleConfig) (d : Nat) =>
        match read_iterator_name p d with
        | none => none
        | some loop_name =>
          some { variant with
                 tile_sizes := variant.tile_sizes ++ [TileSize.mk loop_name t] })
      (fun (c : ScheduleConfig) name =>
        { c with tile_sizes := c.tile_sizes ++ [TileSize.mk name t] })
      names
      (fun b d hd => by simp only [read_iterator_name_of_named p names h d hd])
      p.nvar.toNat (by omega) { oc with tile_sizes := [] }
  rw [← hlen, List.take_length, foldl_push_tile] at hfold
  simp only [tiling_variant]
  rw [← hlen, hfold]
  exact ⟨_, rfl, rfl, by simp⟩

theorem size_t_of_int_of_nonneg (k : Int) (h0 : 0 ≤ k) (h1 : k ≤ 2147483647) :
    size_t_of_int k = k.toNat := by
  unfold size_t_of_int
  omega

theorem generate_candidates_loop_of_named (p : PlutoProg) (names : List String)
    (h : named_baseline p names) (oc : ScheduleConfig)
    (hsat : satisfies_coalescing_constraint oc = true) (k : Int)
    (tiles : List Int) (cands : List ScheduleConfig) :
    ∃ vs, generate_candidates_loop p oc k tiles cands = some (cands ++ vs)
      ∧ vs.map (fun c => c.transformations)
          = (tiles.take (size_t_of_int k - cands.length)).map (fun _ => oc.transformations)
      ∧ vs.map (fun c => c.tile_sizes)
          = (tiles.take (size_t_of_int k - cands.length)).map
              (fun t => names.map (fun name => TileSize.mk name t)) := by
  induction tiles generalizing cands with
  | nil => exact ⟨[], by simp [generate_candidates_loop], by simp, by simp⟩
  | cons t rest ih =>
    by_cases hbreak : cands.length ≥ size_t_of_int k
    · have hz : size_t_of_int k - cands.length = 0 := by omega
      exact ⟨[], by simp [generate_candidates_loop, hbreak], by simp [hz], by simp [hz]⟩
    · obtain ⟨v, hv, hvt, hvs⟩ := tiling_variant_of_named p names h oc t
      have hvsat : satisfies_coalescing_constraint v = true := by
        rw [satisfies_coalescing_eq, hvt, ← satisfies_coalescing_eq]; exact hsat
      obtain ⟨vs, hloop, htr, hts⟩ := ih (cands ++ [v])
      have hsub : size_t_of_int k - cands.length
          = (size_t_of_int k - (cands ++ [v]).length) + 1 := by
        simp only [List.length_append, List.length_singleton]; omega
      refine ⟨v :: vs, ?_, ?_, ?_⟩
      · simp only [generate_candidates_loop, hbreak, if_false, hv, hvsat, if_true, hloop]
        simp
      · rw [hsub, List.take_succ_cons, List.map_cons, List.map_cons, hvt, htr]
      · rw [hsub, List.take_succ_cons, List.map_cons, List.map_cons, hvs, hts]

theorem generate_candidates_loop_length (p : PlutoProg) (oc : ScheduleConfig) (k : Int)
    (tiles : List Int) (cands out : List ScheduleConfig)
    (h : generate_candidates_loop p oc k tiles cands = some out) :
    cands.length ≤ out.length
      ∧ out.length ≤ max cands.length (size_t_of_int k)
      ∧ out.length ≤ cands.length + tiles.length := by
  induction tiles generalizing cands with
  | nil =>
    simp only [generate_candidates_loop, Option.some.injEq] at h
    rw [← h]; simp
  | cons t rest ih =>
    by_cases hbreak : cands.length ≥ size_t_of_int k
    · simp only [generate_candidates_loop, hbreak, if_true, Option.some.injEq] at h
      rw [← h]; simp
    · simp only [generate_candidates_loop, hbreak, if_false] at h
      cases hv : tiling_variant p oc t with
      | none => rw [hv] at h; simp at h
      | some v =>
        rw [hv] at h
        simp only at h
        by_cases hs : satisfies_coalescing_constraint v = true
        · simp only [hs, if_true] at h
          have := ih (cands ++ [v]) h
          simp only [List.length_append, List.length_singleton, List.length_cons,
            List.length_nil] at this ⊢
          omega
        · simp only [hs] at h
          have := ih cands h
          simp only [List.length_cons] at this ⊢
          omega

theorem generate_candidates_loop_returns (p : PlutoProg) (names : List String)
    (h : named_baseline p names) (oc : ScheduleConfig) (k : Int)
    (tiles : List Int) (cands : List ScheduleConfig) :
    ∃ out, generate_candidates_loop p oc k tiles cands = some out := by
  induction tiles generalizing cands with
  | nil => exact ⟨cands, rfl⟩
  | cons t rest ih =>
    by_cases hbreak : cands.length ≥ size_t_of_int k
    · exact ⟨cands, by simp [generate_candidates_loop, hbreak]⟩
    · obtain ⟨v, hv, _, _⟩ := tiling_variant_of_named p names h oc t
      by_cases hs : satisfies_coalescing_constraint v = true
      · obtain ⟨out, hout⟩ := ih (cands ++ [v])
        exact ⟨out, by simp only [generate_candidates_loop, hbreak, if_false, hv, hs, if_true, hout]⟩
      · obtain ⟨out, hout⟩ := ih cands
        have hs' : satisfies_coalescing_constraint v = false := by simpa using hs
        exact ⟨out, by simp [generate_candidates_loop, hbreak, hv, hs', hout]⟩

/-- C16. For every baseline with at least one statement and `n = nvar ≥ 1` named
iterators and every `k ≥ 1` (an `int`), `generate_candidates_from_optimal`
returns: at index 0 the baseline config, made of exactly `n` interchange
transformations, the `i`-th carrying only the baseline's `i`-th iterator name,
and no tile sizes; followed by the first `min (k - 1) 5` tiling variants in the
menu order 16, 32, 64, 128, 256, each having the same transformations as
index 0 and a tile-size table with one entry per baseline dimension, all equal
to the menu value and keyed by the iterator names. -/
theorem generate_candidates_from_optimal_spec (p : PlutoProg) (names : List String)
    (k : Int) (h : named_baseline p names) (hstmts : 1 ≤ p.nstmts) (hn : 1 ≤ p.nvar)
    (hk : 1 ≤ k) (hkint : k ≤ 2147483647) :
    ∃ cands, generate_candidates_from_optimal (some p) k = some cands
      ∧ names.length = p.nvar.toNat
      ∧ cands.length = 1 + min (k - 1).toNat 5
      ∧ cands.map (fun c => c.transformations)
          = List.replicate (1 + min (k - 1).toNat 5) (names.map named_interchange)
      ∧ cands.map (fun c => c.tile_sizes)
          = [] :: (([16, 32, 64, 128, 256] : List Int).take (k - 1).toNat).map
              (fun t => names.map (fun name => TileSize.mk name t)) := by
  have hlen : names.length = p.nvar.toNat := by
    obtain ⟨_, _, _, _, _, hlen⟩ := h
    exact hlen
  have hne : names ≠ [] := by
    intro e; rw [e] at hlen; simp at hlen; omega
  have hbase := pluto_prog_to_config_of_named p names h (by omega)
  have hsat : satisfies_coalescing_constraint
      { ({ ScheduleConfig.new with transformations := names.map named_interchange }
          : ScheduleConfig) with description := "PLUTO Optimal" } = true := by
    rw [satisfies_coalescing_eq]
    cases names with
    | nil => exact absurd rfl hne
    | cons a l => rfl
  obtain ⟨vs, hloop, htr, hts⟩ := generate_candidates_loop_of_named p names h _ hsat k
    [16, 32, 64, 128, 256]
    [{ ({ ScheduleConfig.new with transformations := names.map named_interchange }
          : ScheduleConfig) with description := "PLUTO Optimal" }]
  have hK : size_t_of_int k - 1 = (k - 1).toNat := by
    rw [size_t_of_int_of_nonneg k (by omega) hkint]; omega
  simp only [List.length_singleton, hK] at htr hts
  have hvlen : vs.length = min (k - 1).toNat 5 := by
    have := congrArg List.length htr
    simpa using this
  refine ⟨[{ ({ ScheduleConfig.new with transformations := names.map named_interchange }
          : ScheduleConfig) with description := "PLUTO Optimal" }] ++ vs, ?_, hlen, ?_, ?_, ?_⟩
  · simp only [generate_candidates_from_optimal, hbase]
    exact hloop
  · simp [hvlen]; omega
  · simp only [List.map_append, List.map_cons, List.map_nil, htr, List.singleton_append]
    rw [List.eq_replicate_iff]
    constructor
    · simp; omega
    · intro b hb
      simp only [List.mem_cons, List.mem_map] at hb
      rcases hb with e | ⟨_, _, e⟩
      · exact e
      · exact e.symm
  · simp only [List.map_append, List.map_cons, List.map_nil, hts, List.singleton_append]
    rfl

/-- Witness for C16: the GEMM baseline with `k = 3`. -/
theorem generate_candidates_from_optimal_spec_witness :
    ∃ cands, generate_candidates_from_optimal (some gemm_prog) 3 = some cands
      ∧ ["i", "j", "k"].length = gemm_prog.nvar.toNat
      ∧ cands.length = 1 + min ((3 : Int) - 1).toNat 5
      ∧ cands.map (fun c => c.transformations)
          = List.replicate (1 + min ((3 : Int) - 1).toNat 5)
              (["i", "j", "k"].map named_interchange)
      ∧ cands.map (fun c => c.tile_sizes)
          = [] :: (([16, 32, 64, 128, 256] : List Int).take ((3 : Int) - 1).toNat).map
              (fun t => ["i", "j", "k"].map (fun name => TileSize.mk name t)) :=
  generate_candidates_from_optimal_spec gemm_prog ["i", "j", "k"] 3
    ⟨{ dim := 3, iterators := some [some "i", some "j", some "k"] }, [], [], rfl, rfl, rfl⟩
    (by decide) (by decide) (by decide) (by decide)

/-- C17 (amended). For every baseline and every `int` `k ≥ 1`, the list returned
by `generate_candidates_from_optimal(baseline, k)` has at least one and at most
`k` elements; a list is returned for every baseline whose first statement names
its loop dimensions. -/
theorem generate_candidates_from_optimal_length (prog : Option PlutoProg) (k : Int)
    (hk : 1 ≤ k) (hkint : k ≤ 2147483647) :
    (∀ cands, generate_candidates_from_optimal prog k = some cands →
        1 ≤ cands.length ∧ (cands.length : Int) ≤ k)
    ∧ (∀ p names, prog = some p → named_baseline p names →
        ∃ cands, generate_candidates_from_optimal prog k = some cands) := by
  constructor
  · intro cands hgen
    unfold generate_candidates_from_optimal at hgen
    cases hc : pluto_prog_to_config prog with
    | none => rw [hc] at hgen; simp at hgen
    | some c0 =>
      rw [hc] at hgen
      cases prog with
      | none => simp at hgen
      | some p =>
        simp only at hgen
        have hl := generate_candidates_loop_length p _ k _ _ cands hgen
        rw [size_t_of_int_of_nonneg k (by omega) hkint] at hl
        simp only [List.length_singleton] at hl
        omega
  · intro p names hp hnamed
    rw [hp]
    have hc : ∃ c0, pluto_prog_to_config (some p) = some c0 := by
      by_cases hs : p.nstmts = 0
      · exact ⟨ScheduleConfig.new, by simp [pluto_prog_to_config, hs]⟩
      · exact ⟨_, pluto_prog_to_config_of_named p names hnamed hs⟩
    obtain ⟨c0, hc0⟩ := hc
    simp only [generate_candidates_from_optimal, hc0]
    exact generate_candidates_loop_returns p names hnamed _ k _ _

/-- Witness for C17 (amended): the GEMM baseline with `k = 3` returns a list, of
at most 3 elements. -/
theorem generate_candidates_from_optimal_length_witness :
    (∀ cands, generate_candidates_from_optimal (some gemm_prog) 3 = some cands →
        1 ≤ cands.length ∧ (cands.length : Int) ≤ 3)
    ∧ ∃ cands, generate_candidates_from_optimal (some gemm_prog) 3 = some cands :=
  ⟨(generate_candidates_from_optimal_length (some gemm_prog) 3 (by decide) (by decide)).1,
   (generate_candidates_from_optimal_length (some gemm_prog) 3 (by decide) (by decide)).2
     gemm_prog ["i", "j", "k"] rfl
     ⟨{ dim := 3, iterators := some [some "i", some "j", some "k"] }, [], [], rfl, rfl, rfl⟩⟩

/-- Counterexample to C17 as stated: for the GEMM baseline, `k = 0` returns one
config (the baseline is pushed before the size test) and `k = -1` returns six
(the size test compares with `(size_t)k`). -/
theorem generate_candidates_from_optimal_length_counterexample :
    (generate_candidates_from_optimal (some gemm_prog) 0).map List.length = some 1
    ∧ (generate_candidates_from_optimal (some gemm_prog) (-1)).map List.length = some 6 := by
  constructor <;> rfl

/-! ### Constraint sampling -/

/-- The loop of `generate_by_constraint_sampling` appends at most one sample per
index, stops at `num_samples` configs, and keeps only tile variants of the
first config that pass `satisfies_coalescing_constraint`. -/
theorem sampling_loop_spec (tile_variants : List Int) (num_samples : Int)
    (idxs : List Nat) (first : ScheduleConfig) (tl : List ScheduleConfig)
    (hidx : ∀ i ∈ idxs, i < tile_variants.length) :
    ∃ samples,
      sampling_loop tile_variants num_samples idxs (first :: tl)
          = some (first :: tl ++ samples)
      ∧ samples.length ≤ idxs.length
      ∧ (((first :: tl).length + samples.length : Nat) : Int)
          ≤ max ((first :: tl).length : Int) num_samples
      ∧ ∀ s ∈ samples,
          satisfies_coalescing_constraint s = true
          ∧ ∃ tile ∈ tile_variants, s = sampling_variant first tile := by
  induction idxs generalizing tl with
  | nil => exact ⟨[], by simp [sampling_loop], by simp, by simp, by simp⟩
  | cons i rest ih =>
    have hrest : ∀ j ∈ rest, j < tile_variants.length :=
      fun j hj => hidx j (List.mem_cons_of_mem i hj)
    by_cases hlt : ((first :: tl).length : Int) < num_samples
    · have hi : i < tile_variants.length := hidx i (List.mem_cons_self i rest)
      have htile : tile_variants[i]? = some tile_variants[i] := List.getElem?_eq_getElem hi
      by_cases hs : satisfies_coalescing_constraint (sampling_variant first tile_variants[i])
          = true
      · obtain ⟨samples, hloop, hlen, htot, hsat⟩ :=
          ih (tl ++ [sampling_variant first tile_variants[i]]) hrest
        refine ⟨sampling_variant first tile_variants[i] :: samples, ?_, ?_, ?_, ?_⟩
        · simp only [sampling_loop, hlt, if_true, List.head?_cons, htile, hs]
          rw [show first :: tl ++ [sampling_variant first tile_variants[i]]
              = first :: (tl ++ [sampling_variant first tile_variants[i]]) from rfl, hloop]
          simp
        · simp only [List.length_cons]; omega
        · simp only [List.length_append, List.length_singleton, List.length_cons] at htot hlt ⊢
          omega
        · intro s hmem
          rcases List.mem_cons.mp hmem with e | e
          · rw [e]; exact ⟨hs, tile_variants[i], List.getElem_mem hi, rfl⟩
          · exact hsat s e
      · have hs' : satisfies_coalescing_constraint
            (sampling_variant first tile_variants[i]) = false := by simpa using hs
        obtain ⟨samples, hloop, hlen, htot, hsat⟩ := ih tl hrest
        refine ⟨samples, ?_, ?_, htot, hsat⟩
        · simp only [sampling_loop, hlt, if_true, List.head?_cons, htile, hs']
          simpa using hloop
        · simp only [List.length_cons]; omega
    · refine ⟨[], ?_, by simp, ?_, by simp⟩
      · simp only [sampling_loop, hlt, if_false, List.append_nil]
      · simp

/-- C19 (amended). For every baseline whose translation `pluto_prog_to_config`
returns a config and every `int` `n ≥ 1`, `generate_by_constraint_sampling`
returns the baseline config (described as the base solution) at index 0 followed
by at most `n - 1` and at most 3 tile-variant samples, so at most `n` configs in
total, each sample passing `satisfies_coalescing_constraint`; the null baseline
and every baseline whose first statement names its loop dimensions are such
baselines. -/
theorem generate_by_constraint_sampling_spec (prog : Option PlutoProg) (n : Int)
    (config0 : ScheduleConfig) (hbase : pluto_prog_to_config prog = some config0)
    (hn : 1 ≤ n) :
    (∃ samples,
      generate_by_constraint_sampling prog n
          = some ({ config0 with description := "Base PLUTO solution" } :: samples)
        ∧ (samples.length : Int) ≤ n - 1
        ∧ samples.length ≤ 3
        ∧ ((1 + samples.length : Nat) : Int) ≤ n
        ∧ ∀ s ∈ samples,
            satisfies_coalescing_constraint s = true
            ∧ ∃ tile ∈ ([16, 32, 64, 128] : List Int),
                s = sampling_variant { config0 with description := "Base PLUTO solution" } tile)
    ∧ pluto_prog_to_config none = some ScheduleConfig.new
    ∧ (∀ p names, named_baseline p names → ∃ c, pluto_prog_to_config (some p) = some c) := by
  refine ⟨?_, rfl, ?_⟩
  · obtain ⟨samples, hloop, hlen, htot, hsat⟩ :=
      sampling_loop_spec [16, 32, 64, 128] n [1, 2, 3]
        { config0 with description := "Base PLUTO solution" } [] (by decide)
    refine ⟨samples, ?_, ?_, ?_, ?_, hsat⟩
    · simp only [generate_by_constraint_sampling, hbase]
      exact hloop
    · simp only [List.length_singleton] at htot; omega
    · simpa using hlen
    · simp only [List.length_singleton] at htot; omega
  · intro p names hnamed
    by_cases hs : p.nstmts = 0
    · exact ⟨ScheduleConfig.new, by simp [pluto_prog_to_config, hs]⟩
    · exact ⟨_, pluto_prog_to_config_of_named p names hnamed hs⟩

/-- Witness for C19 (amended): the GEMM baseline with `n = 3`; its translation
has the three loops `i`, `j`, `k`, and the result holds the baseline config
followed by two samples, the tile variants 32 and 64. -/
theorem generate_by_constraint_sampling_spec_witness :
    (∃ samples,
      generate_by_constraint_sampling (some gemm_prog) 3
          = some ({ ({ ScheduleConfig.new with
                        transformations := ["i", "j", "k"].map named_interchange }
                      : ScheduleConfig) with
                    description := "Base PLUTO solution" } :: samples)
        ∧ (samples.length : Int) ≤ 3 - 1
        ∧ samples.length ≤ 3
        ∧ ((1 + samples.length : Nat) : Int) ≤ 3
        ∧ ∀ s ∈ samples,
            satisfies_coalescing_constraint s = true
            ∧ ∃ tile ∈ ([16, 32, 64, 128] : List Int),
                s = sampling_variant
                  { ({ ScheduleConfig.new with
                        transformations := ["i", "j", "k"].map named_interchange }
                      : ScheduleConfig) with
                    description := "Base PLUTO solution" } tile)
    ∧ (generate_by_constraint_sampling (some gemm_prog) 3).map List.length = some 3
    ∧ (generate_by_constraint_sampling (some gemm_prog) 3).map
        (fun l => l.map (fun c => c.description))
        = some ["Base PLUTO solution", "Tile variant 32", "Tile variant 64"] :=
  ⟨(generate_by_constraint_sampling_spec (some gemm_prog) 3
      { ScheduleConfig.new with transformations := ["i", "j", "k"].map named_interchange }
      rfl (by decide)).1, rfl, by decide⟩

/-- Counterexample to C19 as stated: for `n = 0` the result still holds the
baseline config, one config where the claim allows at most `n = 0`, and no
number of samples is at most `n - 1 = -1`; the same for the GEMM baseline with
`n = -5`. -/
theorem generate_by_constraint_sampling_spec_counterexample :
    (generate_by_constraint_sampling none 0).map List.length = some 1
    ∧ (generate_by_constraint_sampling (some gemm_prog) (-5)).map List.length = some 1 := by
  constructor <;> rfl

/-! ### Enumeration of loop orders -/

/-- C18, the code at a failing input. For two loops `i`, `j` and
`only_coalesced = false`, `generate_all_legal_configs` returns two configs
without transformations and without tile sizes: no returned config has the loop
order `(i, j)` or `(j, i)`; with `only_coalesced = true` it returns nothing. -/
theorem generate_all_legal_configs_two_loops :
    (generate_all_legal_configs 2 ["i", "j"] false).map loop_order = [[], []]
    ∧ (generate_all_legal_configs 2 ["i", "j"] false).map (fun c => c.tile_sizes) = [[], []]
    ∧ (¬ ∃ c ∈ generate_all_legal_configs 2 ["i", "j"] false, loop_order c = ["i", "j"])
    ∧ (¬ ∃ c ∈ generate_all_legal_configs 2 ["i", "j"] false, loop_order c = ["j", "i"])
    ∧ (generate_all_legal_configs 2 ["i", "j"] true).length = 0 := by
  have h1 : (generate_all_legal_configs 2 ["i", "j"] false).map loop_order = [[], []] := rfl
  refine ⟨h1, rfl, ?_, ?_, rfl⟩
  · rintro ⟨c, hc, ho⟩
    have hmem : loop_order c ∈ (generate_all_legal_configs 2 ["i", "j"] false).map loop_order :=
      List.mem_map_of_mem _ hc
    rw [h1, ho] at hmem
    revert hmem
    decide
  · rintro ⟨c, hc, ho⟩
    have hmem : loop_order c ∈ (generate_all_legal_configs 2 ["i", "j"] false).map loop_order :=
      List.mem_map_of_mem _ hc
    rw [h1, ho] at hmem
    revert hmem
    decide

/-! ### Strategy dispatch -/

/-- C28. For every config, `satisfies_coalescing_constraint` returns false when
the config has no transformations and true otherwise, whatever the type of the
innermost transformation (GPU tile or not); the predicate of the solver and the
private copy of the evaluator return the same value on every config. -/
theorem satisfies_coalescing_constraint_iff (config : ScheduleConfig) :
    (satisfies_coalescing_constraint config = false ↔ config.transformations = [])
    ∧ (satisfies_coalescing_constraint config = true ↔ config.transformations ≠ [])
    ∧ (∀ innermost, config.transformations.getLast? = some innermost →
        satisfies_coalescing_constraint config = true)
    ∧ TiramisuConfigEvaluator.satisfies_coalescing_constraint config
        = satisfies_coalescing_constraint config := by
  have h := satisfies_coalescing_eq config
  refine ⟨?_, ?_, ?_, rfl⟩
  · rw [h]; cases config.transformations <;> simp
  · rw [h]; cases config.transformations <;> simp
  · intro innermost hlast
    rw [h]
    cases hc : config.transformations with
    | nil => rw [hc] at hlast; simp at hlast
    | cons a l => rfl

/-- Witness for C28: a config whose innermost transformation is a GPU tile and a
config whose innermost transformation is an interchange both satisfy the
predicate. -/
theorem satisfies_coalescing_constraint_iff_witness :
    satisfies_coalescing_constraint
        { ScheduleConfig.new with
          transformations := [Transformation.new TransformType.TRANS_GPU_TILE] } = true
    ∧ satisfies_coalescing_constraint (gemm_loop_order_config ["i", "j", "k"]) = true :=
  ⟨(satisfies_coalescing_constraint_iff
      { ScheduleConfig.new with
        transformations := [Transformation.new TransformType.TRANS_GPU_TILE] }).2.2.1
      (Transformation.new TransformType.TRANS_GPU_TILE) rfl,
   (satisfies_coalescing_constraint_iff (gemm_loop_order_config ["i", "j", "k"])).2.2.1
      { Transformation.new TransformType.TRANS_INTERCHANGE with iterator_names := ["k"] } rfl⟩

/-! ### The constraint filter only annotates -/

/-- C29. `filter_by_constraints` only annotates: every candidate it returns
equals an input candidate in all fields except `has_coalescing_violation`,
`has_bank_conflict` and `bank_conflict_way`, which are set to the negation of
`satisfies_coalescing_constraint`, to `way > 1` and to the way computed by
`check_bank_conflict`; and when neither mode is hard no candidate is dropped:
the output is the input, candidate by candidate, with these annotations, and has
the length of the input. -/
theorem filter_by_constraints_only_annotates (cm bm : ConstraintMode)
    (candidates : List ScheduleConfig) :
    (∀ out ∈ filter_by_constraints cm bm candidates, ∃ c ∈ candidates,
        out.transformations = c.transformations
        ∧ out.tile_sizes = c.tile_sizes
        ∧ out.execution_time_ms = c.execution_time_ms
        ∧ out.is_valid = c.is_valid
        ∧ out.weighted_coalescing_score = c.weighted_coalescing_score
        ∧ out.array_coalescing_status = c.array_coalescing_status
        ∧ out.description = c.description
        ∧ out.has_coalescing_violation = !satisfies_coalescing_constraint c
        ∧ out.bank_conflict_way = (check_bank_conflict c).2
        ∧ out.has_bank_conflict = decide ((check_bank_conflict c).2 > 1))
    ∧ (cm ≠ ConstraintMode.HARD_CONSTRAINT → bm ≠ ConstraintMode.HARD_CONSTRAINT →
        filter_by_constraints cm bm candidates
            = candidates.map with_constraint_annotations
          ∧ (filter_by_constraints cm bm candidates).length = candidates.length) := by
  have hmain : filter_by_constraints cm bm candidates
      = (candidates.filter (fun c => !is_dropped cm bm c)).map with_constraint_annotations := by
    unfold filter_by_constraints
    rw [foldl_push_if (filter_step cm bm) [] candidates]
    simp only [filter_step_snd, filter_step_fst, List.nil_append]
  constructor
  · intro out hout
    rw [hmain] at hout
    obtain ⟨c, hc, hoc⟩ := List.mem_map.mp hout
    refine ⟨c, (List.mem_filter.mp hc).1, ?_⟩
    rw [← hoc]
    exact ⟨rfl, rfl, rfl, rfl, rfl, rfl, rfl, rfl, rfl, rfl⟩
  · intro h1 h2
    have hnone : ∀ c, (!is_dropped cm bm c) = true := by
      intro c
      simp [is_dropped, h1, h2]
    have hfilter : candidates.filter (fun c => !is_dropped cm bm c) = candidates :=
      List.filter_eq_self.mpr (fun c _ => hnone c)
    rw [hmain, hfilter]
    exact ⟨rfl, List.length_map _ _⟩

/-- Witness for C29: soft coalescing mode and penalty-based bank-conflict mode on
the six GEMM configs. -/
theorem filter_by_constraints_only_annotates_witness :
    filter_by_constraints ConstraintMode.SOFT_CONSTRAINT ConstraintMode.PENALTY_BASED
        generate_gemm_loop_orders
      = generate_gemm_loop_orders.map with_constraint_annotations
    ∧ (filter_by_constraints ConstraintMode.SOFT_CONSTRAINT ConstraintMode.PENALTY_BASED
        generate_gemm_loop_orders).length = generate_gemm_loop_orders.length :=
  (filter_by_constraints_only_annotates ConstraintMode.SOFT_CONSTRAINT
    ConstraintMode.PENALTY_BASED generate_gemm_loop_orders).2 (by decide) (by decide)

/-! ### Counts of the neighbour strategy -/

theorem foldl_push_legal (all_candidates : List ScheduleConfig) :
    all_candidates.foldl
        (fun legal config => if is_legal_config config then legal ++ [config] else legal) []
      = all_candidates.filter is_legal_config := by
  have h := foldl_push_if (fun c : ScheduleConfig => (c, is_legal_config c)) [] all_candidates
  simpa using h

theorem generate_candidates_from_optimal_returns (p : PlutoProg) (names : List String)
    (h : named_baseline p names) (k : Int) :
    ∃ cands, generate_candidates_from_optimal (some p) k = some cands := by
  by_cases hstmts : p.nstmts = 0
  · obtain ⟨out, hout⟩ := generate_candidates_loop_returns p names h
      { ScheduleConfig.new with description := "PLUTO Optimal" } k [16, 32, 64, 128, 256]
      [{ ScheduleConfig.new with description := "PLUTO Optimal" }]
    exact ⟨out, by simp only [generate_candidates_from_optimal, pluto_prog_to_config, hstmts,
      if_true, hout]⟩
  · obtain ⟨out, hout⟩ := generate_candidates_loop_returns p names h
      { ({ ScheduleConfig.new with transformations := names.map named_interchange } :
          ScheduleConfig) with description := "PLUTO Optimal" } k [16, 32, 64, 128, 256]
      [{ ({ ScheduleConfig.new with transformations := names.map named_interchange } :
          ScheduleConfig) with description := "PLUTO Optimal" }]
    exact ⟨out, by simp only [generate_candidates_from_optimal,
      pluto_prog_to_config_of_named p names h hstmts, hout]⟩

/-- C30. For every baseline and `k`, the result of `optimize_with_neighbors`
satisfies: `num_candidates_generated` is the length of `all_candidates`;
`num_legal_candidates` is the number of elements of `all_candidates` that pass
`is_legal_config`; `num_evaluated = num_legal_candidates`; hence
`num_evaluated ≤ num_legal_candidates ≤ num_candidates_generated`; and
`best_time_ms` is `best_config.execution_time_ms`. On a baseline whose first
statement names its loop dimensions the call returns such a result. -/
theorem optimize_with_neighbors_counts (ev : TiramisuConfigEvaluator)
    (prog : Option PlutoProg) (k : Int) (rng : RandSource) (t0 t1 : ℚ) :
    (∀ r, optimize_with_neighbors ev prog k rng t0 t1 = some r →
        r.1.num_candidates_generated = (r.1.all_candidates.length : Int)
        ∧ r.1.num_legal_candidates = ((r.1.all_candidates.filter is_legal_config).length : Int)
        ∧ r.1.num_evaluated = r.1.num_legal_candidates
        ∧ r.1.num_evaluated ≤ r.1.num_legal_candidates
        ∧ r.1.num_legal_candidates ≤ r.1.num_candidates_generated
        ∧ r.1.best_time_ms = some r.1.best_config.execution_time_ms)
    ∧ (∀ p names, prog = some p → named_baseline p names →
        ∃ r, optimize_with_neighbors ev prog k rng t0 t1 = some r) := by
  constructor
  · intro r hr
    unfold optimize_with_neighbors at hr
    cases hgen : generate_candidates_from_optimal prog k with
    | none => rw [hgen] at hr; simp at hr
    | some all_candidates =>
      rw [hgen] at hr
      simp only [Option.some.injEq] at hr
      rw [← hr]
      rw [foldl_push_legal]
      refine ⟨rfl, rfl, rfl, le_refl _, ?_, rfl⟩
      show ((all_candidates.filter is_legal_config).length : Int) ≤ (all_candidates.length : Int)
      exact_mod_cast List.length_filter_le _ _
  · intro p names hp hnamed
    obtain ⟨cands, hc⟩ := generate_candidates_from_optimal_returns p names hnamed k
    rw [hp]
    unfold optimize_with_neighbors
    rw [hc]
    exact ⟨_, rfl⟩

/-- Witness for C30: the GEMM baseline with `k = 3` returns a result with the
stated counts. -/
theorem optimize_with_neighbors_counts_witness :
    ∃ r, optimize_with_neighbors TiramisuConfigEvaluator.new (some gemm_prog) 3 (fun _ => 0) 0 1
        = some r
      ∧ r.1.num_evaluated = r.1.num_legal_candidates
      ∧ r.1.num_legal_candidates ≤ r.1.num_candidates_generated
      ∧ r.1.best_time_ms = some r.1.best_config.execution_time_ms := by
  obtain ⟨r, hr⟩ :=
    (optimize_with_neighbors_counts TiramisuConfigEvaluator.new (some gemm_prog) 3
      (fun _ => 0) 0 1).2 gemm_prog ["i", "j", "k"] rfl
      ⟨{ dim := 3, iterators := some [some "i", some "j", some "k"] }, [], [], rfl, rfl, rfl⟩
  have h := (optimize_with_neighbors_counts TiramisuConfigEvaluator.new (some gemm_prog) 3
      (fun _ => 0) 0 1).1 r hr
  exact ⟨r, hr, h.2.2.1, h.2.2.2.2.1, h.2.2.2.2.2⟩

/-! ### The cost estimate -/

/-- The estimate of `evaluate_config` as a product: nominal cost, tile-size
factor, coalescing factor, noise multiplier of the value drawn, penalty. -/
theorem evaluate_config_eq (ev : TiramisuConfigEvaluator) (config : ScheduleConfig)
    (rng : RandSource) :
    (evaluate_config ev config rng).1
      = 100 * tile_size_factor config * coalescing_factor config
          * noise_multiplier (rand rng).1 * applied_penalty ev config := by
  have hsat : TiramisuConfigEvaluator.satisfies_coalescing_constraint config
      = satisfies_coalescing_constraint config := rfl
  have h1 : (if config.tile_sizes.isEmpty = true then (100.0 : ℚ)
      else if average_tile config.tile_sizes ≥ 32 ∧ average_tile config.tile_sizes ≤ 64
        then 100.0 * 0.8
      else if average_tile config.tile_sizes < 16 then 100.0 * 1.3
      else if average_tile config.tile_sizes > 128 then 100.0 * 1.2
      else 100.0) = 100 * tile_size_factor config := by
    unfold tile_size_factor
    dsimp only
    generalize average_tile config.tile_sizes = a
    split_ifs <;> norm_num
  have h2 : ∀ t : ℚ, (if satisfies_coalescing_constraint config = true then t * 0.7 else t)
      = t * coalescing_factor config := by
    intro t
    unfold coalescing_factor
    split_ifs <;> norm_num
  have h3 : ∀ t : ℚ, t * (1.0 + ((Int.tmod (rand rng).1 20 - 10 : Int) : ℚ) / 100.0)
      = t * noise_multiplier (rand rng).1 := by
    intro t
    unfold noise_multiplier
    norm_num
  have h4 : ∀ t : ℚ,
      (if ev.apply_bank_conflict_penalty_ = true ∧ config.has_bank_conflict = true then
        compute_penalized_score ev config t else t) = t * applied_penalty ev config := by
    intro t
    unfold applied_penalty
    by_cases hp : ev.apply_bank_conflict_penalty_ = true ∧ config.has_bank_conflict = true
    · rw [if_pos hp, if_pos hp, compute_penalized_score_of_conflict ev config t hp.2]
      rfl
    · rw [if_neg hp, if_neg hp, mul_one]
  show (if ev.apply_bank_conflict_penalty_ = true ∧ config.has_bank_conflict = true then
        compute_penalized_score ev config _ else _) = _
  rw [h4, h3, hsat, h2, h1]

/-- C27. For every config and every non-negative value `r` returned by
`rand()`, `evaluate_config` returns
`100 × T × C × (1 + (r mod 20 − 10)/100) × P`, where `T` is the tile-size
factor, `C = 0.7` if `satisfies_coalescing_constraint(config)` else 1, and `P`
is the `compute_penalized_score` multiplier when penalties are enabled and
`config.has_bank_conflict` is set, else 1; the noise multiplier
`1 + (r mod 20 − 10)/100` lies in `[0.9, 1.1]`; one value of the random source
is consumed. -/
theorem evaluate_config_formula (ev : TiramisuConfigEvaluator) (config : ScheduleConfig)
    (rng : RandSource) (hr : 0 ≤ (rand rng).1) :
    (evaluate_config ev config rng).1
        = 100 * tile_size_factor config
            * (if satisfies_coalescing_constraint config = true then 7 / 10 else 1)
            * (1 + (((rand rng).1 % 20 - 10 : Int) : ℚ) / 100)
            * (if ev.apply_bank_conflict_penalty_ = true ∧ config.has_bank_conflict = true
                then penalty_multiplier ev config else 1)
    ∧ (9 / 10 : ℚ) ≤ 1 + (((rand rng).1 % 20 - 10 : Int) : ℚ) / 100
    ∧ 1 + (((rand rng).1 % 20 - 10 : Int) : ℚ) / 100 ≤ 11 / 10
    ∧ (evaluate_config ev config rng).2 = (rand rng).2
    ∧ (∀ t : ℚ, config.has_bank_conflict = true →
        compute_penalized_score ev config t = t * penalty_multiplier ev config) := by
  have hmod : Int.tmod (rand rng).1 20 = (rand rng).1 % 20 :=
    Int.tmod_eq_emod hr (by decide)
  have hlo : 0 ≤ (rand rng).1 % 20 := Int.emod_nonneg _ (by decide)
  have hhi : (rand rng).1 % 20 < 20 := Int.emod_lt_of_pos _ (by decide)
  have hlo' : ((-10 : Int) : ℚ) ≤ (((rand rng).1 % 20 - 10 : Int) : ℚ) := by
    exact_mod_cast (by omega : (-10 : Int) ≤ (rand rng).1 % 20 - 10)
  have hhi' : (((rand rng).1 % 20 - 10 : Int) : ℚ) ≤ ((9 : Int) : ℚ) := by
    exact_mod_cast (by omega : (rand rng).1 % 20 - 10 ≤ (9 : Int))
  refine ⟨?_, ?_, ?_, rfl, ?_⟩
  · rw [evaluate_config_eq]
    unfold noise_multiplier coalescing_factor applied_penalty
    rw [hmod]
    norm_num
  · have : ((-10 : Int) : ℚ) = -10 := by norm_num
    linarith
  · have : ((9 : Int) : ℚ) = 9 := by norm_num
    linarith
  · intro t hc
    exact compute_penalized_score_of_conflict ev config t hc

/-- Witness for C27: the GEMM config of loop order `(i,j,k)` and the value
`r = 10`. -/
theorem evaluate_config_formula_witness :
    (0 : Int) ≤ (rand (fun _ => 10)).1
    ∧ (evaluate_config TiramisuConfigEvaluator.new (gemm_loop_order_config ["i", "j", "k"])
        (fun _ => 10)).1
      = 100 * tile_size_factor (gemm_loop_order_config ["i", "j", "k"])
          * (if satisfies_coalescing_constraint (gemm_loop_order_config ["i", "j", "k"]) = true
              then 7 / 10 else 1)
          * (1 + (((rand (fun _ => 10)).1 % 20 - 10 : Int) : ℚ) / 100)
          * (if TiramisuConfigEvaluator.new.apply_bank_conflict_penalty_ = true
                ∧ (gemm_loop_order_config ["i", "j", "k"]).has_bank_conflict = true
              then penalty_multiplier TiramisuConfigEvaluator.new
                (gemm_loop_order_config ["i", "j", "k"]) else 1) :=
  ⟨by decide,
   (evaluate_config_formula TiramisuConfigEvaluator.new (gemm_loop_order_config ["i", "j", "k"])
      (fun _ => 10) (by decide)).1⟩

/-- C25 (amended). For every config and fixed evaluator settings, the time
returned by `evaluate_config` is a function of the config and of the value `r`
that its one call of `rand()` returns, through `r % 20`: two evaluations of the
same config return the same time whenever the random source yields values with
the same remainder modulo 20 at the two calls. -/
theorem evaluate_config_depends_on_draw (ev : TiramisuConfigEvaluator)
    (config : ScheduleConfig) (rng1 rng2 : RandSource)
    (h : Int.tmod (rand rng1).1 20 = Int.tmod (rand rng2).1 20) :
    (evaluate_config ev config rng1).1 = (evaluate_config ev config rng2).1 := by
  rw [evaluate_config_eq, evaluate_config_eq]
  unfold noise_multiplier
  rw [h]

/-- Witness for the amended C25: the values 3 and 43 have the same remainder
modulo 20. -/
theorem evaluate_config_depends_on_draw_witness :
    Int.tmod (rand (fun _ => 3)).1 20 = Int.tmod (rand (fun n => 43 + n)).1 20
    ∧ (evaluate_config TiramisuConfigEvaluator.new (gemm_loop_order_config ["i", "j", "k"])
        (fun _ => 3)).1
      = (evaluate_config TiramisuConfigEvaluator.new (gemm_loop_order_config ["i", "j", "k"])
        (fun n => 43 + n)).1 :=
  ⟨by decide,
   evaluate_config_depends_on_draw TiramisuConfigEvaluator.new
     (gemm_loop_order_config ["i", "j", "k"]) (fun _ => 3) (fun n => 43 + n) (by decide)⟩

/-- Counterexample to C25 as stated: under the default settings the GEMM config
of loop order `(i,j,k)` is estimated at 50.4 when `rand()` returns 0 and at 56
when it returns 10. -/
theorem evaluate_config_depends_on_draw_counterexample :
    (evaluate_config TiramisuConfigEvaluator.new (gemm_loop_order_config ["i", "j", "k"])
        (fun _ => 0)).1 = 252 / 5
    ∧ (evaluate_config TiramisuConfigEvaluator.new (gemm_loop_order_config ["i", "j", "k"])
        (fun _ => 10)).1 = 56
    ∧ (evaluate_config TiramisuConfigEvaluator.new (gemm_loop_order_config ["i", "j", "k"])
        (fun _ => 0)).1
      ≠ (evaluate_config TiramisuConfigEvaluator.new (gemm_loop_order_config ["i", "j", "k"])
        (fun _ => 10)).1 := by
  have h0 : Int.tmod 0 20 = 0 := by decide
  have h10 : Int.tmod 10 20 = 10 := by decide
  have e0 : (evaluate_config TiramisuConfigEvaluator.new
      (gemm_loop_order_config ["i", "j", "k"]) (fun _ => 0)).1 = 252 / 5 := by
    simp [h0, evaluate_config, rand, average_tile, toInt32,
      gemm_loop_order_config, ScheduleConfig.new, Transformation.new,
      TiramisuConfigEvaluator.satisfies_coalescing_constraint, TiramisuConfigEvaluator.new]
    norm_num
  have e10 : (evaluate_config TiramisuConfigEvaluator.new
      (gemm_loop_order_config ["i", "j", "k"]) (fun _ => 10)).1 = 56 := by
    simp [h10, evaluate_config, rand, average_tile, toInt32,
      gemm_loop_order_config, ScheduleConfig.new, Transformation.new,
      TiramisuConfigEvaluator.satisfies_coalescing_constraint, TiramisuConfigEvaluator.new]
    norm_num
  refine ⟨e0, e10, ?_⟩
  rw [e0, e10]
  norm_num

theorem foldl_add_size (tile_sizes : List TileSize) (init : Int) :
    tile_sizes.foldl (fun (avg_tile : Int) ts => avg_tile + ts.size) init
      = init + tile_size_sum tile_sizes := by
  induction tile_sizes generalizing init with
  | nil => simp [tile_size_sum]
  | cons ts rest ih =>
    rw [List.foldl_cons, ih]
    simp only [tile_size_sum, List.map_cons, List.sum_cons]
    ring

/-- The integer `avg_tile` of a table whose sum is a non-negative `int`: the
quotient of the sum by the number of entries. -/
theorem average_tile_of_fits (tile_sizes : List TileSize)
    (h0 : 0 ≤ tile_size_sum tile_sizes) (h1 : tile_size_sum tile_sizes ≤ 2147483647) :
    average_tile tile_sizes = tile_size_sum tile_sizes / (tile_sizes.length : Int) := by
  unfold average_tile
  simp only [foldl_add_size, zero_add]
  have hmod : tile_size_sum tile_sizes % 18446744073709551616 = tile_size_sum tile_sizes :=
    Int.emod_eq_of_lt h0 (by omega)
  rw [hmod]
  have hq0 : 0 ≤ tile_size_sum tile_sizes / (tile_sizes.length : Int) :=
    Int.ediv_nonneg h0 (by positivity)
  have hq1 : tile_size_sum tile_sizes / (tile_sizes.length : Int) ≤ tile_size_sum tile_sizes :=
    Int.ediv_le_self _ h0
  unfold toInt32
  omega

/-- An integer is at most the rational mean exactly when it is at most the
truncated mean. -/
theorem le_mean_iff (s n c : Int) (hn : 0 < n) :
    (c : ℚ) ≤ (s : ℚ) / (n : ℚ) ↔ c ≤ s / n := by
  have hn' : (0 : ℚ) < (n : ℚ) := by exact_mod_cast hn
  rw [le_div_iff₀ hn', Int.le_ediv_iff_mul_le hn]
  exact_mod_cast Iff.rfl

/-- The factor chosen by the chain of tests of `evaluate_config` on the integer
`avg_tile = a`. -/
theorem tile_factor_cases (a : Int) :
    ((if a ≥ 32 ∧ a ≤ 64 then (0.8 : ℚ) else if a < 16 then 1.3
        else if a > 128 then 1.2 else 1) = 8 / 10 ↔ 32 ≤ a ∧ ¬ 65 ≤ a)
    ∧ ((if a ≥ 32 ∧ a ≤ 64 then (0.8 : ℚ) else if a < 16 then 1.3
        else if a > 128 then 1.2 else 1) = 13 / 10 ↔ ¬ 16 ≤ a)
    ∧ ((if a ≥ 32 ∧ a ≤ 64 then (0.8 : ℚ) else if a < 16 then 1.3
        else if a > 128 then 1.2 else 1) = 12 / 10 ↔ 129 ≤ a)
    ∧ ((if a ≥ 32 ∧ a ≤ 64 then (0.8 : ℚ) else if a < 16 then 1.3
        else if a > 128 then 1.2 else 1) = 1
        ↔ (16 ≤ a ∧ ¬ 32 ≤ a) ∨ (65 ≤ a ∧ ¬ 129 ≤ a)) := by
  split_ifs <;> norm_num <;> omega

/-- C26 (amended). For every config with a non-empty tile-size table of
positive sizes whose sum fits in an `int`, the tile-size factor applied by
`evaluate_config` is chosen by the mean truncated to an integer (the sum
divided by the count in integer arithmetic): it is 0.8 exactly when
`32 ≤ mean < 65`, 1.3 exactly when `mean < 16`, 1.2 exactly when `mean ≥ 129`,
and 1 otherwise; a config with an empty tile-size table gets factor 1. -/
theorem tile_size_factor_by_truncated_mean (config : ScheduleConfig) :
    (config.tile_sizes ≠ [] → (∀ ts ∈ config.tile_sizes, 0 < ts.size) →
      tile_size_sum config.tile_sizes ≤ 2147483647 →
      (tile_size_factor config = 8 / 10
          ↔ 32 ≤ mean_tile_size config.tile_sizes ∧ mean_tile_size config.tile_sizes < 65)
      ∧ (tile_size_factor config = 13 / 10 ↔ mean_tile_size config.tile_sizes < 16)
      ∧ (tile_size_factor config = 12 / 10 ↔ 129 ≤ mean_tile_size config.tile_sizes)
      ∧ (tile_size_factor config = 1
          ↔ (16 ≤ mean_tile_size config.tile_sizes ∧ mean_tile_size config.tile_sizes < 32)
            ∨ (65 ≤ mean_tile_size config.tile_sizes
                ∧ mean_tile_size config.tile_sizes < 129)))
    ∧ (config.tile_sizes = [] → tile_size_factor config = 1)
    ∧ (∀ ev rng, (evaluate_config ev config rng).1
        = 100 * tile_size_factor config * coalescing_factor config
            * noise_multiplier (rand rng).1 * applied_penalty ev config) := by
  refine ⟨?_, ?_, fun ev rng => evaluate_config_eq ev config rng⟩
  · intro hne hpos hfit
    have hlen : 0 < (config.tile_sizes.length : Int) := by
      have : 0 < config.tile_sizes.length := List.length_pos.mpr hne
      exact_mod_cast this
    have hsum0 : ∀ l : List TileSize, (∀ ts ∈ l, 0 < ts.size) → 0 ≤ tile_size_sum l := by
      intro l
      induction l with
      | nil => intro _; simp [tile_size_sum]
      | cons a l ih =>
        intro hl
        have ha := hl a (List.mem_cons_self a l)
        have hrest := ih (fun ts hts => hl ts (List.mem_cons_of_mem a hts))
        simp only [tile_size_sum, List.map_cons, List.sum_cons] at hrest ⊢
        omega
    have havg := average_tile_of_fits config.tile_sizes (hsum0 _ hpos) hfit
    have hle : ∀ c : Int, (c : ℚ) ≤ mean_tile_size config.tile_sizes
        ↔ c ≤ average_tile config.tile_sizes := by
      intro c
      rw [havg]
      exact le_mean_iff _ _ c hlen
    have h16 := hle 16
    have h32 := hle 32
    have h65 := hle 65
    have h129 := hle 129
    simp only [Int.cast_ofNat] at h16 h32 h65 h129
    have m16 : mean_tile_size config.tile_sizes < 16
        ↔ ¬ 16 ≤ average_tile config.tile_sizes := by rw [← h16]; exact not_le.symm
    have m32 : mean_tile_size config.tile_sizes < 32
        ↔ ¬ 32 ≤ average_tile config.tile_sizes := by rw [← h32]; exact not_le.symm
    have m65 : mean_tile_size config.tile_sizes < 65
        ↔ ¬ 65 ≤ average_tile config.tile_sizes := by rw [← h65]; exact not_le.symm
    have m129 : mean_tile_size config.tile_sizes < 129
        ↔ ¬ 129 ≤ average_tile config.tile_sizes := by rw [← h129]; exact not_le.symm
    have hempty : config.tile_sizes.isEmpty = false := by
      cases hts : config.tile_sizes with
      | nil => exact absurd hts hne
      | cons a l => rfl
    have hfactor : tile_size_factor config
        = (if average_tile config.tile_sizes ≥ 32 ∧ average_tile config.tile_sizes ≤ 64
            then 0.8
          else if average_tile config.tile_sizes < 16 then 1.3
          else if average_tile config.tile_sizes > 128 then 1.2
          else 1) := by
      unfold tile_size_factor
      simp only [hempty, Bool.false_eq_true, if_false]
    rw [hfactor, m16, m32, m65, m129, h16, h32, h65, h129]
    exact tile_factor_cases (average_tile config.tile_sizes)
  · intro hnil
    unfold tile_size_factor
    simp [hnil]

/-- Witness for the amended C26: the table of sizes 64 and 65, of mean 64.5,
gets factor 0.8. -/
theorem tile_size_factor_by_truncated_mean_witness :
    tile_size_factor
        { ScheduleConfig.new with tile_sizes := [TileSize.mk "i" 64, TileSize.mk "j" 65] }
      = 8 / 10 :=
  ((tile_size_factor_by_truncated_mean
      { ScheduleConfig.new with tile_sizes := [TileSize.mk "i" 64, TileSize.mk "j" 65] }).1
    (List.cons_ne_nil _ _)
    (by
      intro ts hts
      simp only [List.mem_cons, List.mem_singleton, List.not_mem_nil, or_false] at hts
      rcases hts with h | h <;> rw [h] <;> decide)
    (by decide)).1.mpr
    ⟨by norm_num [mean_tile_size, tile_size_sum], by norm_num [mean_tile_size, tile_size_sum]⟩

/-- Counterexample to C26 as stated. The table of sizes 64 and 65 has mean
64.5, outside `[32, 64]`, so the claimed factor is 1, but `avg_tile` is 64 and
the factor applied is 0.8: without transformations, conflict mark and noise the
estimate is 80. The table of sizes 128 and 129 has mean 128.5, above 128, so the
claimed factor is 1.2, but `avg_tile` is 128 and the factor applied is 1: the
estimate is 100. -/
theorem tile_size_factor_by_truncated_mean_counterexample :
    mean_tile_size [TileSize.mk "i" 64, TileSize.mk "j" 65] = 129 / 2
    ∧ claimed_tile_factor [TileSize.mk "i" 64, TileSize.mk "j" 65] = 1
    ∧ tile_size_factor
        { ScheduleConfig.new with tile_sizes := [TileSize.mk "i" 64, TileSize.mk "j" 65] }
      = 8 / 10
    ∧ (evaluate_config TiramisuConfigEvaluator.new
        { ScheduleConfig.new with tile_sizes := [TileSize.mk "i" 64, TileSize.mk "j" 65] }
        (fun _ => 10)).1 = 80
    ∧ mean_tile_size [TileSize.mk "i" 128, TileSize.mk "j" 129] = 257 / 2
    ∧ claimed_tile_factor [TileSize.mk "i" 128, TileSize.mk "j" 129] = 12 / 10
    ∧ tile_size_factor
        { ScheduleConfig.new with tile_sizes := [TileSize.mk "i" 128, TileSize.mk "j" 129] }
      = 1
    ∧ (evaluate_config TiramisuConfigEvaluator.new
        { ScheduleConfig.new with tile_sizes := [TileSize.mk "i" 128, TileSize.mk "j" 129] }
        (fun _ => 10)).1 = 100 := by
  have h10 : Int.tmod 10 20 = 10 := by decide
  have a1 : average_tile [TileSize.mk "i" 64, TileSize.mk "j" 65] = 64 := by decide
  have a2 : average_tile [TileSize.mk "i" 128, TileSize.mk "j" 129] = 128 := by decide
  refine ⟨?_, ?_, ?_, ?_, ?_, ?_, ?_, ?_⟩
  · norm_num [mean_tile_size, tile_size_sum]
  · norm_num [claimed_tile_factor, mean_tile_size, tile_size_sum]
  · simp only [tile_size_factor, ScheduleConfig.new, a1]
    norm_num
  · simp [h10, evaluate_config, rand, a1, ScheduleConfig.new,
      TiramisuConfigEvaluator.satisfies_coalescing_constraint, TiramisuConfigEvaluator.new]
    norm_num
  · norm_num [mean_tile_size, tile_size_sum]
  · norm_num [claimed_tile_factor, mean_tile_size, tile_size_sum]
  · simp only [tile_size_factor, ScheduleConfig.new, a2]
    norm_num
  · simp [h10, evaluate_config, rand, a2, ScheduleConfig.new,
      TiramisuConfigEvaluator.satisfies_coalescing_constraint, TiramisuConfigEvaluator.new]
    norm_num

/-! ### Statistics of the neighbour strategy -/

theorem generate_candidates_gemm_three :
    generate_candidates_from_optimal (some gemm_prog) 3
      = some [gemm_optimal_config, gemm_tiling_variant 16 16, gemm_tiling_variant 32 1] := by
  rfl

theorem evaluate_gemm_optimal_config :
    (evaluate_config TiramisuConfigEvaluator.new gemm_optimal_config (fun _ => 10)).1 = 70 := by
  have h10 : Int.tmod 10 20 = 10 := by decide
  simp [h10, evaluate_config, rand, gemm_optimal_config, named_interchange,
    ScheduleConfig.new, Transformation.new,
    TiramisuConfigEvaluator.satisfies_coalescing_constraint, TiramisuConfigEvaluator.new]
  norm_num

theorem evaluate_gemm_tiling_variant_16 :
    (evaluate_config TiramisuConfigEvaluator.new (gemm_tiling_variant 16 16)
      (fun _ => 10)).1 = 560 := by
  have h10 : Int.tmod 10 20 = 10 := by decide
  have ha : average_tile [TileSize.mk "i" 16, TileSize.mk "j" 16, TileSize.mk "k" 16] = 16 := by
    decide
  simp [h10, ha, evaluate_config, rand, gemm_tiling_variant, gemm_optimal_config,
    named_interchange, compute_penalized_score,
    ScheduleConfig.new, Transformation.new,
    TiramisuConfigEvaluator.satisfies_coalescing_constraint, TiramisuConfigEvaluator.new]
  norm_num

theorem evaluate_gemm_tiling_variant_32 :
    (evaluate_config TiramisuConfigEvaluator.new (gemm_tiling_variant 32 1)
      (fun _ => 10)).1 = 56 := by
  have h10 : Int.tmod 10 20 = 10 := by decide
  have ha : average_tile [TileSize.mk "i" 32, TileSize.mk "j" 32, TileSize.mk "k" 32] = 32 := by
    decide
  simp [h10, ha, evaluate_config, rand, gemm_tiling_variant, gemm_optimal_config,
    named_interchange, compute_penalized_score,
    ScheduleConfig.new, Transformation.new,
    TiramisuConfigEvaluator.satisfies_coalescing_constraint, TiramisuConfigEvaluator.new]
  norm_num

theorem evaluate_config_snd_const (ev : TiramisuConfigEvaluator) (config : ScheduleConfig)
    (v : Int) : (evaluate_config ev config (fun _ => v)).2 = fun _ => v := rfl

/-- C21, the code at a failing input. For the GEMM baseline with `k = 3`, the
default settings and a random source that always returns 10, the three
candidates are legal and are evaluated at 70, 560 and 56, all positive, of mean
`686 / 3`; the result has `num_evaluated = 3` and `best_time_ms = 56`, but
`average_time_ms = 0` and `worst_time_ms = 0`: the statistics loop reads the
`execution_time_ms` of the legal candidates, which `search_best_config` never
writes and which is still `-1` in every one. -/
theorem optimize_with_neighbors_average_gemm :
    ∃ r, optimize_with_neighbors TiramisuConfigEvaluator.new (some gemm_prog) 3
          (fun _ => 10) 0 1 = some r
      ∧ r.1.all_candidates.filter is_legal_config
          = [gemm_optimal_config, gemm_tiling_variant 16 16, gemm_tiling_variant 32 1]
      ∧ evaluated_times TiramisuConfigEvaluator.new
          (r.1.all_candidates.filter is_legal_config) (fun _ => 10) = [70, 560, 56]
      ∧ (r.1.all_candidates.filter is_legal_config).map (fun c => c.execution_time_ms)
          = [-1, -1, -1]
      ∧ r.1.num_evaluated = 3
      ∧ r.1.best_time_ms = some 56
      ∧ r.1.worst_time_ms = some 0
      ∧ r.1.average_time_ms = some 0 := by
  have hlegal : [gemm_optimal_config, gemm_tiling_variant 16 16,
      gemm_tiling_variant 32 1].filter is_legal_config
      = [gemm_optimal_config, gemm_tiling_variant 16 16, gemm_tiling_variant 32 1] := by
    rfl
  have hbest : (search_best_config TiramisuConfigEvaluator.new
      [gemm_optimal_config, gemm_tiling_variant 16 16, gemm_tiling_variant 32 1]
      (fun _ => 10)).1.execution_time_ms = 56 := by
    have h70 : (70 : ℚ) < DBL_MAX := lt_trans (by norm_num) million_lt_DBL_MAX
    simp only [search_best_config, search_best_loop, evaluate_config_snd_const,
      evaluate_gemm_optimal_config, evaluate_gemm_tiling_variant_16,
      evaluate_gemm_tiling_variant_32, improves]
    norm_num [h70]
  have htimes : evaluated_times TiramisuConfigEvaluator.new
      [gemm_optimal_config, gemm_tiling_variant 16 16, gemm_tiling_variant 32 1]
      (fun _ => 10) = [70, 560, 56] := by
    simp only [evaluated_times, evaluate_config_snd_const,
      evaluate_gemm_optimal_config, evaluate_gemm_tiling_variant_16,
      evaluate_gemm_tiling_variant_32]
  have hstats : [gemm_optimal_config, gemm_tiling_variant 16 16,
      gemm_tiling_variant 32 1].foldl
        (fun (acc : ℚ × ℚ) config =>
          if config.execution_time_ms > 0 then
            (acc.1 + config.execution_time_ms, max acc.2 config.execution_time_ms)
          else acc)
        ((0 : ℚ), (0 : ℚ)) = (0, 0) := by
    have hneg : ¬ ((-1 : ℚ) > 0) := by norm_num
    simp only [List.foldl, gemm_optimal_config, gemm_tiling_variant, ScheduleConfig.new, hneg,
      if_false]
  refine ⟨_, by unfold optimize_with_neighbors; rw [generate_candidates_gemm_three],
    hlegal, ?_, ?_, ?_, ?_, ?_, ?_⟩
  · show evaluated_times TiramisuConfigEvaluator.new
      ([gemm_optimal_config, gemm_tiling_variant 16 16,
        gemm_tiling_variant 32 1].filter is_legal_config) (fun _ => 10) = [70, 560, 56]
    rw [hlegal, htimes]
  · show ([gemm_optimal_config, gemm_tiling_variant 16 16,
        gemm_tiling_variant 32 1].filter is_legal_config).map (fun c => c.execution_time_ms)
      = [-1, -1, -1]
    rw [hlegal]
    rfl
  · simp only [foldl_push_legal, hlegal]
    rfl
  · simp only [foldl_push_legal, hlegal, hbest]
  · simp only [foldl_push_legal, hlegal, hstats]
  · simp only [foldl_push_legal, hlegal, hstats, double_div]
    norm_num

/-! ### Degenerate baselines -/

/-- The tiling variant of a baseline without loop dimensions keeps the
transformations of the optimal config. -/
theorem tiling_variant_of_no_dims (p : PlutoProg) (hvar : p.nvar = 0)
    (oc : ScheduleConfig) (t : Int) :
    ∃ v, tiling_variant p oc t = some v ∧ v.transformations = oc.transformations := by
  simp only [tiling_variant, hvar]
  exact ⟨_, rfl, rfl⟩

theorem generate_candidates_loop_of_no_dims (p : PlutoProg) (hvar : p.nvar = 0)
    (oc : ScheduleConfig) (hoc : oc.transformations = []) (k : Int)
    (tiles : List Int) (cands : List ScheduleConfig) :
    generate_candidates_loop p oc k tiles cands = some cands := by
  induction tiles with
  | nil => rfl
  | cons t rest ih =>
    by_cases hbreak : cands.length ≥ size_t_of_int k
    · simp [generate_candidates_loop, hbreak]
    · obtain ⟨v, hv, hvt⟩ := tiling_variant_of_no_dims p hvar oc t
      have hs : satisfies_coalescing_constraint v = false := by
        rw [satisfies_coalescing_eq, hvt, hoc]; rfl
      simp [generate_candidates_loop, hbreak, hv, hs, ih]

theorem sampling_loop_of_unsatisfied (tile_variants : List Int) (num_samples : Int)
    (idxs : List Nat) (first : ScheduleConfig) (tl : List ScheduleConfig)
    (hidx : ∀ i ∈ idxs, i < tile_variants.length)
    (hs : ∀ t : Int, satisfies_coalescing_constraint (sampling_variant first t) = false) :
    sampling_loop tile_variants num_samples idxs (first :: tl) = some (first :: tl) := by
  induction idxs with
  | nil => rfl
  | cons i rest ih =>
    have hrest := ih (fun j hj => hidx j (List.mem_cons_of_mem i hj))
    have hi : i < tile_variants.length := hidx i (List.mem_cons_self i rest)
    have hget : tile_variants[i]? = some (tile_variants.get ⟨i, hi⟩) :=
      List.getElem?_eq_getElem hi
    by_cases hlt : (((first :: tl).length : Nat) : Int) < num_samples
    · simp only [sampling_loop, hlt, if_true, List.head?_cons, hget, hs]
      simpa using hrest
    · simp only [sampling_loop, hlt, if_false]

/-- C24 (amended). For a baseline program with zero statements and zero loop
dimensions, `generate_candidates_from_optimal(baseline, k)` and
`generate_by_constraint_sampling(baseline, n)` return, for every `k` and `n`,
a list of exactly one config: the default config, without transformations and
without tile sizes, described as the baseline; this config fails
`is_legal_config`. -/
theorem generators_of_empty_baseline (p : PlutoProg) (k n : Int)
    (hstmts : p.nstmts = 0) (hvar : p.nvar = 0) :
    generate_candidates_from_optimal (some p) k
        = some [{ ScheduleConfig.new with description := "PLUTO Optimal" }]
    ∧ generate_by_constraint_sampling (some p) n
        = some [{ ScheduleConfig.new with description := "Base PLUTO solution" }]
    ∧ is_legal_config { ScheduleConfig.new with description := "PLUTO Optimal" } = false
    ∧ is_legal_config { ScheduleConfig.new with description := "Base PLUTO solution" }
        = false := by
  refine ⟨?_, ?_, rfl, rfl⟩
  · simp only [generate_candidates_from_optimal, pluto_prog_to_config, hstmts, if_true]
    exact generate_candidates_loop_of_no_dims p hvar _ rfl k _ _
  · have hs : ∀ t : Int, satisfies_coalescing_constraint
        (sampling_variant { ScheduleConfig.new with description := "Base PLUTO solution" } t)
        = false := fun _ => rfl
    simp only [generate_by_constraint_sampling, pluto_prog_to_config, hstmts, if_true]
    exact sampling_loop_of_unsatisfied [16, 32, 64, 128] n [1, 2, 3] _ [] (by decide) hs

/-- Witness for the amended C24: the empty baseline with `k = 10` and `n = 5`. -/
theorem generators_of_empty_baseline_witness :
    generate_candidates_from_optimal (some empty_prog) 10
        = some [{ ScheduleConfig.new with description := "PLUTO Optimal" }]
    ∧ generate_by_constraint_sampling (some empty_prog) 5
        = some [{ ScheduleConfig.new with description := "Base PLUTO solution" }] :=
  ⟨(generators_of_empty_baseline empty_prog 10 5 rfl rfl).1,
   (generators_of_empty_baseline empty_prog 10 5 rfl rfl).2.1⟩

/-- Counterexample to C24 as stated: for the empty baseline, `k = 10` and
`n = 5`, both generators return a list of length 1, not the empty list. -/
theorem generators_of_empty_baseline_counterexample :
    (generate_candidates_from_optimal (some empty_prog) 10).map List.length = some 1
    ∧ generate_candidates_from_optimal (some empty_prog) 10 ≠ some []
    ∧ (generate_by_constraint_sampling (some empty_prog) 5).map List.length = some 1
    ∧ generate_by_constraint_sampling (some empty_prog) 5 ≠ some [] := by
  have h1 : generate_candidates_from_optimal (some empty_prog) 10
      = some [{ ScheduleConfig.new with description := "PLUTO Optimal" }] := rfl
  have h2 : generate_by_constraint_sampling (some empty_prog) 5
      = some [{ ScheduleConfig.new with description := "Base PLUTO solution" }] := rfl
  rw [h1, h2]
  simp

theorem evaluate_base_solution (ev : TiramisuConfigEvaluator) :
    (evaluate_config ev { ScheduleConfig.new with description := "Base PLUTO solution" }
      (fun _ => 10)).1 = 100 := by
  have h10 : Int.tmod 10 20 = 10 := by decide
  simp [h10, evaluate_config, rand, ScheduleConfig.new,
    TiramisuConfigEvaluator.satisfies_coalescing_constraint]
  norm_num

theorem search_best_base_solution (ev : TiramisuConfigEvaluator) :
    (search_best_config ev [{ ScheduleConfig.new with description := "Base PLUTO solution" }]
      (fun _ => 10)).1
      = { ScheduleConfig.new with
          description := "Base PLUTO solution", execution_time_ms := 100 } := by
  have h100 : (100 : ℚ) < DBL_MAX := lt_trans (by norm_num) million_lt_DBL_MAX
  simp only [search_best_config, search_best_loop, evaluate_base_solution, improves]
  norm_num [h100]

/-- C22, the code at a failing input. For the strategy `"sampling"` on the empty
baseline (no statement, no loop dimension), with a random source that always
returns 10, `optimize` returns a result whose only candidate, the default
config without transformations, fails `is_legal_config`, is counted as legal,
is evaluated and is returned as `best_config` with `execution_time_ms = 100`:
the best config is neither legal nor the sentinel.  The same holds on the null
baseline. -/
theorem optimize_sampling_empty_baseline (ev : TiramisuConfigEvaluator) (t0 t1 : ℚ) :
    (∃ r, optimize ev (some empty_prog) "sampling" (fun _ => 10) t0 t1 = some r
      ∧ r.1.all_candidates = [{ ScheduleConfig.new with description := "Base PLUTO solution" }]
      ∧ r.1.all_candidates.filter is_legal_config = []
      ∧ r.1.num_legal_candidates = 1
      ∧ r.1.num_evaluated = 1
      ∧ r.1.best_config
          = { ScheduleConfig.new with
              description := "Base PLUTO solution", execution_time_ms := 100 }
      ∧ is_legal_config r.1.best_config = false
      ∧ r.1.best_config.execution_time_ms ≠ -1)
    ∧ (∃ r, optimize ev none "sampling" (fun _ => 10) t0 t1 = some r
      ∧ is_legal_config r.1.best_config = false
      ∧ r.1.best_config.execution_time_ms = 100) := by
  have a : ("sampling" : String) ≠ "optimal_neighbors" := by decide
  have b : ("sampling" : String) ≠ "all_legal" := by decide
  have hgen : generate_by_constraint_sampling (some empty_prog) 5
      = some [{ ScheduleConfig.new with description := "Base PLUTO solution" }] := rfl
  have hnull : generate_by_constraint_sampling none 5
      = some [{ ScheduleConfig.new with description := "Base PLUTO solution" }] := rfl
  have hopt : ∀ prog, optimize ev prog "sampling" (fun _ => 10) t0 t1
      = optimize_with_sampling ev prog 5 (fun _ => 10) t0 t1 := by
    intro prog
    simp only [optimize, a, b, if_false, if_true]
  constructor
  · rw [hopt]
    unfold optimize_with_sampling
    rw [hgen]
    refine ⟨_, rfl, rfl, rfl, rfl, rfl, search_best_base_solution ev, ?_, ?_⟩
    · show is_legal_config (search_best_config ev _ _).1 = false
      rw [search_best_base_solution]
      rfl
    · show (search_best_config ev _ _).1.execution_time_ms ≠ -1
      rw [search_best_base_solution]
      norm_num
  · rw [hopt]
    unfold optimize_with_sampling
    rw [hnull]
    refine ⟨_, rfl, ?_, ?_⟩
    · show is_legal_config (search_best_config ev _ _).1 = false
      rw [search_best_base_solution]
      rfl
    · show (search_best_config ev _ _).1.execution_time_ms = 100
      rw [search_best_base_solution]

/-- C23, the code on the null baseline. With the handle modelled as an optional
value, `optimize` on the null baseline faults (dereferences the handle) for the
strategies `"optimal_neighbors"` and `"all_legal"` and for every unrecognised
strategy; for `"sampling"` it returns a result that is not empty: one candidate,
the default config, counted as generated, legal and evaluated. -/
theorem optimize_null_baseline (ev : TiramisuConfigEvaluator) (rng : RandSource)
    (t0 t1 : ℚ) :
    optimize ev none "optimal_neighbors" rng t0 t1 = none
    ∧ optimize ev none "all_legal" rng t0 t1 = none
    ∧ (∀ strategy : String, strategy ≠ "sampling" →
        optimize ev none strategy rng t0 t1 = none)
    ∧ (∀ k : Int, generate_candidates_from_optimal none k = none)
    ∧ pluto_prog_to_config none = some ScheduleConfig.new
    ∧ (∃ r, optimize ev none "sampling" rng t0 t1 = some r
        ∧ r.1.all_candidates
            = [{ ScheduleConfig.new with description := "Base PLUTO solution" }]
        ∧ r.1.num_candidates_generated = 1
        ∧ r.1.num_legal_candidates = 1
        ∧ r.1.num_evaluated = 1) := by
  have a : ("sampling" : String) ≠ "optimal_neighbors" := by decide
  have b : ("sampling" : String) ≠ "all_legal" := by decide
  have c : ("all_legal" : String) ≠ "optimal_neighbors" := by decide
  have hgen : ∀ k : Int, generate_candidates_from_optimal none k = none := fun _ => rfl
  have hn : optimize_with_neighbors ev none 10 rng t0 t1 = none := by
    simp only [optimize_with_neighbors, hgen]
  have hnull : generate_by_constraint_sampling none 5
      = some [{ ScheduleConfig.new with description := "Base PLUTO solution" }] := rfl
  refine ⟨?_, ?_, ?_, hgen, rfl, ?_⟩
  · simp only [optimize, if_true, hn]
  · simp only [optimize, c, if_false, if_true]
  · intro strategy hs
    unfold optimize
    by_cases h1 : strategy = "optimal_neighbors"
    · simp only [h1, if_true, hn]
    · by_cases h2 : strategy = "all_legal"
      · simp only [h2, c, if_false, if_true]
      · simp only [h1, h2, hs, if_false, hn]
  · have hopt : optimize ev none "sampling" rng t0 t1
        = optimize_with_sampling ev none 5 rng t0 t1 := by
      simp only [optimize, a, b, if_false, if_true]
    rw [hopt]
    unfold optimize_with_sampling
    rw [hnull]
    exact ⟨_, rfl, rfl, rfl, rfl, rfl⟩

/-- The neighbour strategy filters before it evaluates: its best config is legal
or the sentinel. -/
theorem optimize_with_neighbors_best_legal (ev : TiramisuConfigEvaluator)
    (prog : Option PlutoProg) (k : Int) (rng : RandSource) (t0 t1 : ℚ)
    (r : OptimizationResult × RandSource)
    (h : optimize_with_neighbors ev prog k rng t0 t1 = some r) :
    is_legal_config r.1.best_config = true ∨ r.1.best_config = ScheduleConfig.new := by
  unfold optimize_with_neighbors at h
  cases hgen : generate_candidates_from_optimal prog k with
  | none => rw [hgen] at h; simp at h
  | some all_candidates =>
    rw [hgen] at h
    simp only [Option.some.injEq] at h
    rw [← h]
    show is_legal_config (search_best_config ev _ rng).1 = true
      ∨ (search_best_config ev _ rng).1 = ScheduleConfig.new
    rw [foldl_push_legal]
    unfold search_best_config
    rcases search_best_loop_spec ev (all_candidates.filter is_legal_config)
      (ScheduleConfig.new, DBL_MAX) rng with ⟨_, hstate⟩ | ⟨i, c, t, hc, _, _, hres, _, _⟩
    · right
      simp only [hstate]
    · left
      have hmem : c ∈ all_candidates.filter is_legal_config := List.getElem?_mem hc
      have hlegal : is_legal_config c = true := (List.mem_filter.mp hmem).2
      simp only [hres]
      exact hlegal

/-- The full-enumeration strategy evaluates nothing: with `only_coalesced` set
the generator keeps only legal configs, and the configs it builds have no
transformations. -/
theorem generate_all_legal_configs_only_coalesced (num_loops : Int)
    (loop_names : List String) :
    generate_all_legal_configs num_loops loop_names true = [] := by
  unfold generate_all_legal_configs
  generalize List.range num_loops.toNat = l
  induction l with
  | nil => rfl
  | cons i rest ih =>
    rw [List.foldl_cons]
    have hillegal : is_legal_config
        { ScheduleConfig.new with
          description := "Config with loop " ++ toString i ++ " innermost" } = false := rfl
    simp only [hillegal, Bool.not_true, Bool.or_false, Bool.false_eq_true, if_false]
    exact ih

/-! ### The stub enumeration and the full-enumeration strategy -/

theorem foldl_push_map {α β : Type} (g : α → β) (init : List β) (l : List α) :
    l.foldl (fun acc a => acc ++ [g a]) init = init ++ l.map g := by
  induction l generalizing init with
  | nil => simp
  | cons a l ih => rw [List.foldl_cons, ih]; simp

/-- C33. For every `num_loops` and loop-name list, `generate_all_legal_configs`
with `only_coalesced = true` returns the empty list, and with
`only_coalesced = false` returns exactly `max num_loops 0` configs none of which
has any transformation, so none passes `is_legal_config`; consequently
`optimize_with_all_legal` always reports zero generated, legal and evaluated
candidates and the sentinel best config with `execution_time_ms = -1`. -/
theorem generate_all_legal_configs_stub (ev : TiramisuConfigEvaluator) (num_loops : Int)
    (loop_names : List String) (rng : RandSource) (t0 t1 : ℚ) :
    generate_all_legal_configs num_loops loop_names true = []
    ∧ ((generate_all_legal_configs num_loops loop_names false).length : Int) = max num_loops 0
    ∧ (∀ c ∈ generate_all_legal_configs num_loops loop_names false,
        c.transformations = [] ∧ is_legal_config c = false)
    ∧ (optimize_with_all_legal ev num_loops loop_names rng t0 t1).1.all_candidates = []
    ∧ (optimize_with_all_legal ev num_loops loop_names rng t0 t1).1.num_candidates_generated = 0
    ∧ (optimize_with_all_legal ev num_loops loop_names rng t0 t1).1.num_legal_candidates = 0
    ∧ (optimize_with_all_legal ev num_loops loop_names rng t0 t1).1.num_evaluated = 0
    ∧ (optimize_with_all_legal ev num_loops loop_names rng t0 t1).1.best_config
        = ScheduleConfig.new
    ∧ (optimize_with_all_legal ev num_loops loop_names rng t0 t1).1.best_config.execution_time_ms
        = -1 := by
  have htrue := generate_all_legal_configs_only_coalesced num_loops loop_names
  have hfalse : generate_all_legal_configs num_loops loop_names false
      = (List.range num_loops.toNat).map
          (fun i => { ScheduleConfig.new with
                      description := "Config with loop " ++ toString i ++ " innermost" }) := by
    unfold generate_all_legal_configs
    simp only [Bool.not_false, Bool.true_or, if_true]
    rw [foldl_push_map]
    rfl
  refine ⟨htrue, ?_, ?_, ?_, ?_, ?_, ?_, ?_, ?_⟩
  · rw [hfalse, List.length_map, List.length_range]
    omega
  · intro c hc
    rw [hfalse] at hc
    obtain ⟨i, _, hi⟩ := List.mem_map.mp hc
    rw [← hi]
    exact ⟨rfl, rfl⟩
  all_goals first
    | (simp only [optimize_with_all_legal, htrue]; done)
    | (simp only [optimize_with_all_legal, htrue]; rfl)

/-! ### The comparator of the batch evaluation -/

/-- C38. The comparator used by `evaluate_all_configs` (`a` precedes `b` iff `a`
is valid and either `b` is invalid or `a.execution_time_ms < b.execution_time_ms`)
is a strict weak ordering on configs: it is irreflexive, asymmetric and
transitive, and incomparability is transitive. -/
theorem config_less_strict_weak_order (a b c : ScheduleConfig) :
    (config_less a b = true
      ↔ a.is_valid = true
        ∧ (b.is_valid = false ∨ a.execution_time_ms < b.execution_time_ms))
    ∧ config_less a a = false
    ∧ (config_less a b = true → config_less b a = false)
    ∧ (config_less a b = true → config_less b c = true → config_less a c = true)
    ∧ (config_less a b = false → config_less b a = false →
        config_less b c = false → config_less c b = false →
        config_less a c = false ∧ config_less c a = false) := by
  unfold config_less
  cases ha : a.is_valid <;> cases hb : b.is_valid <;> cases hc : c.is_valid <;> simp
  · exact fun h => le_of_lt h
  · refine ⟨fun h => le_of_lt h, fun h1 h2 => lt_trans h1 h2, ?_⟩
    intro h1 h2 h3 h4
    exact ⟨le_trans h3 h1, le_trans h2 h4⟩

/-! ### Positivity of the estimate -/

theorem tmod_twenty_bounds (r : Int) : -19 ≤ Int.tmod r 20 ∧ Int.tmod r 20 ≤ 19 := by
  cases r with
  | ofNat n =>
    have e : Int.tmod (Int.ofNat n) 20 = ((n % 20 : Nat) : Int) := rfl
    rw [e]; omega
  | negSucc n =>
    have e : Int.tmod (Int.negSucc n) 20 = -(((n + 1) % 20 : Nat) : Int) := rfl
    rw [e]; omega

theorem noise_multiplier_pos (r : Int) : 0 < noise_multiplier r := by
  unfold noise_multiplier
  have h := (tmod_twenty_bounds r).1
  have h' : ((-29 : Int) : ℚ) ≤ ((Int.tmod r 20 - 10 : Int) : ℚ) := by
    exact_mod_cast (by omega : (-29 : Int) ≤ Int.tmod r 20 - 10)
  have e : ((-29 : Int) : ℚ) = -29 := by norm_num
  rw [e] at h'
  linarith

theorem tile_size_factor_pos (config : ScheduleConfig) : 0 < tile_size_factor config := by
  unfold tile_size_factor
  dsimp only
  split_ifs <;> norm_num

theorem coalescing_factor_pos (config : ScheduleConfig) : 0 < coalescing_factor config := by
  unfold coalescing_factor
  split_ifs <;> norm_num

theorem applied_penalty_pos (ev : TiramisuConfigEvaluator) (config : ScheduleConfig)
    (hset : ev.apply_bank_conflict_penalty_ = false ∨ 0 < ev.bank_conflict_penalty_factor_) :
    0 < applied_penalty ev config := by
  unfold applied_penalty
  by_cases hp : ev.apply_bank_conflict_penalty_ = true ∧ config.has_bank_conflict = true
  · rw [if_pos hp]
    have hF : 0 < ev.bank_conflict_penalty_factor_ := by
      rcases hset with h | h
      · rw [hp.1] at h; exact absurd h (by decide)
      · exact h
    unfold penalty_multiplier
    split_ifs with h2 h4 h8 h16 h32 hw
    · exact hF
    · linarith
    · linarith
    · linarith
    · linarith
    · have hw' : (0 : ℚ) < (config.bank_conflict_way : ℚ) := by
        exact_mod_cast (by omega : 0 < config.bank_conflict_way)
      exact mul_pos hw' (by linarith)
    · norm_num
  · rw [if_neg hp]
    norm_num

theorem evaluate_config_pos (ev : TiramisuConfigEvaluator) (config : ScheduleConfig)
    (rng : RandSource)
    (hset : ev.apply_bank_conflict_penalty_ = false ∨ 0 < ev.bank_conflict_penalty_factor_) :
    0 < (evaluate_config ev config rng).1 := by
  rw [evaluate_config_eq]
  have h1 := tile_size_factor_pos config
  have h2 := coalescing_factor_pos config
  have h3 := noise_multiplier_pos (rand rng).1
  have h4 := applied_penalty_pos ev config hset
  positivity

theorem evaluated_times_pos (ev : TiramisuConfigEvaluator)
    (hset : ev.apply_bank_conflict_penalty_ = false ∨ 0 < ev.bank_conflict_penalty_factor_)
    (candidates : List ScheduleConfig) (rng : RandSource) :
    ∀ t ∈ evaluated_times ev candidates rng, 0 < t := by
  induction candidates generalizing rng with
  | nil => intro t ht; simp [evaluated_times] at ht
  | cons c rest ih =>
    intro t ht
    simp only [evaluated_times, List.mem_cons] at ht
    rcases ht with e | e
    · rw [e]; exact evaluate_config_pos ev c rng hset
    · exact ih _ t e

theorem noise_multiplier_le (r : Int) : noise_multiplier r ≤ 109 / 100 := by
  unfold noise_multiplier
  have h := (tmod_twenty_bounds r).2
  have h' : ((Int.tmod r 20 - 10 : Int) : ℚ) ≤ ((9 : Int) : ℚ) := by
    exact_mod_cast (by omega : Int.tmod r 20 - 10 ≤ (9 : Int))
  have e : ((9 : Int) : ℚ) = 9 := by norm_num
  rw [e] at h'
  linarith

theorem tile_size_factor_le (config : ScheduleConfig) : tile_size_factor config ≤ 13 / 10 := by
  unfold tile_size_factor
  dsimp only
  split_ifs <;> norm_num

theorem coalescing_factor_le (config : ScheduleConfig) : coalescing_factor config ≤ 1 := by
  unfold coalescing_factor
  split_ifs <;> norm_num

/-- Without the penalty the estimate is at most `100 × 1.3 × 1.09`. -/
theorem raw_estimate_bounds (config : ScheduleConfig) (r : Int) :
    0 < 100 * tile_size_factor config * coalescing_factor config * noise_multiplier r
    ∧ 100 * tile_size_factor config * coalescing_factor config * noise_multiplier r ≤ 142 := by
  have h1 := tile_size_factor_pos config
  have h2 := coalescing_factor_pos config
  have h3 := noise_multiplier_pos r
  have h1' := tile_size_factor_le config
  have h2' := coalescing_factor_le config
  have h3' := noise_multiplier_le r
  refine ⟨by positivity, ?_⟩
  have ha : tile_size_factor config * coalescing_factor config ≤ 13 / 10 * 1 :=
    mul_le_mul h1' h2' (le_of_lt h2) (by norm_num)
  have hb : tile_size_factor config * coalescing_factor config * noise_multiplier r
      ≤ 13 / 10 * 1 * (109 / 100) :=
    mul_le_mul ha h3' (le_of_lt h3) (by norm_num)
  have hc : 100 * tile_size_factor config * coalescing_factor config * noise_multiplier r
      = 100 * (tile_size_factor config * coalescing_factor config * noise_multiplier r) := by
    ring
  rw [hc]
  linarith

/-- With the penalty disabled, or a factor between 0 and `2^960` and a conflict
degree in the range of `int`, the applied penalty is between 0 and `2^991`. -/
theorem applied_penalty_bounds (ev : TiramisuConfigEvaluator) (config : ScheduleConfig)
    (hF : ev.apply_bank_conflict_penalty_ = false
      ∨ (0 ≤ ev.bank_conflict_penalty_factor_ ∧ ev.bank_conflict_penalty_factor_ ≤ 2 ^ 960))
    (hway : config.bank_conflict_way ≤ 2147483647) :
    0 ≤ applied_penalty ev config ∧ applied_penalty ev config ≤ 2 ^ 991 := by
  have hone : (1 : ℚ) ≤ 2 ^ 991 := one_le_pow₀ (by norm_num)
  unfold applied_penalty
  by_cases hp : ev.apply_bank_conflict_penalty_ = true ∧ config.has_bank_conflict = true
  · rw [if_pos hp]
    have hb : 0 ≤ ev.bank_conflict_penalty_factor_
        ∧ ev.bank_conflict_penalty_factor_ ≤ 2 ^ 960 := by
      rcases hF with h | h
      · rw [hp.1] at h; exact absurd h (by decide)
      · exact h
    obtain ⟨hF0, hF1⟩ := hb
    have h16 : (2 : ℚ) ^ 960 * 16 ≤ 2 ^ 991 := by norm_num
    have hpow : (0 : ℚ) < 2 ^ 960 := by positivity
    unfold penalty_multiplier
    split_ifs with h2 h4 h8 h16' h32 hw
    · exact ⟨hF0, by linarith⟩
    · exact ⟨by linarith, by linarith⟩
    · exact ⟨by linarith, by linarith⟩
    · exact ⟨by linarith, by linarith⟩
    · exact ⟨by linarith, by linarith⟩
    · have hw0 : (0 : ℚ) ≤ (config.bank_conflict_way : ℚ) := by
        exact_mod_cast (by omega : 0 ≤ config.bank_conflict_way)
      have hw1 : (config.bank_conflict_way : ℚ) ≤ 2147483647 := by
        exact_mod_cast hway
      have hh0 : 0 ≤ ev.bank_conflict_penalty_factor_ / 2.0 := by
        have e : ev.bank_conflict_penalty_factor_ / 2.0
            = ev.bank_conflict_penalty_factor_ / 2 := by norm_num
        rw [e]; linarith
      have hh1 : ev.bank_conflict_penalty_factor_ / 2.0 ≤ 2 ^ 960 := by
        have e : ev.bank_conflict_penalty_factor_ / 2.0
            = ev.bank_conflict_penalty_factor_ / 2 := by norm_num
        rw [e]; linarith
      refine ⟨mul_nonneg hw0 hh0, ?_⟩
      have hm : (config.bank_conflict_way : ℚ) * (ev.bank_conflict_penalty_factor_ / 2.0)
          ≤ 2147483647 * 2 ^ 960 := mul_le_mul hw1 hh1 hh0 (by norm_num)
      have hlast : (2147483647 : ℚ) * 2 ^ 960 ≤ 2 ^ 991 := by norm_num
      exact le_trans hm hlast
    · exact ⟨by norm_num, by norm_num⟩
  · rw [if_neg hp]
    exact ⟨by norm_num, hone⟩

/-- With the penalty disabled, or a factor between 0 and `2^960` and a conflict
degree in the range of `int`, the estimate is below the largest `double`. -/
theorem evaluate_config_lt_DBL_MAX (ev : TiramisuConfigEvaluator) (config : ScheduleConfig)
    (rng : RandSource)
    (hF : ev.apply_bank_conflict_penalty_ = false
      ∨ (0 ≤ ev.bank_conflict_penalty_factor_ ∧ ev.bank_conflict_penalty_factor_ ≤ 2 ^ 960))
    (hway : config.bank_conflict_way ≤ 2147483647) :
    (evaluate_config ev config rng).1 < DBL_MAX := by
  rw [evaluate_config_eq]
  obtain ⟨hx0, hx1⟩ := raw_estimate_bounds config (rand rng).1
  obtain ⟨hp0, hp1⟩ := applied_penalty_bounds ev config hF hway
  have hm : 100 * tile_size_factor config * coalescing_factor config
        * noise_multiplier (rand rng).1 * applied_penalty ev config
      ≤ 142 * 2 ^ 991 := mul_le_mul hx1 hp1 hp0 (by norm_num)
  have hlast : (142 : ℚ) * 2 ^ 991 < DBL_MAX := by
    unfold DBL_MAX
    norm_num
  exact lt_of_le_of_lt hm hlast

theorem evaluated_times_head_mem (ev : TiramisuConfigEvaluator) (c : ScheduleConfig)
    (rest : List ScheduleConfig) (rng : RandSource) :
    (evaluate_config ev c rng).1 ∈ evaluated_times ev (c :: rest) rng := by
  simp [evaluated_times]

/-- C36, as amended. For every config (also one with an empty tile-size table,
where the average is not formed), every value returned by `rand()` and evaluator
settings with the penalty disabled or a penalty factor of at least `2^(-1073)`,
the smallest `double` whose half is not zero, `evaluate_config` returns a
strictly positive time; consequently `search_best_config` on a candidate list
with an evaluated time below the largest `double` never returns the sentinel:
it returns one of the candidates, with its evaluated time as
`execution_time_ms`, which is `> 0`.  Such a time exists for every non-empty
list whose conflict degrees are in the range of `int` when the penalty is
disabled or the factor is at most `2^960`. -/
theorem search_best_config_never_sentinel (ev : TiramisuConfigEvaluator)
    (hset : ev.apply_bank_conflict_penalty_ = false
      ∨ 1 / 2 ^ 1073 ≤ ev.bank_conflict_penalty_factor_) :
    (∀ (config : ScheduleConfig) (rng : RandSource), 0 < (evaluate_config ev config rng).1)
    ∧ (∀ (candidates : List ScheduleConfig) (rng : RandSource),
        (∃ t ∈ evaluated_times ev candidates rng, t < DBL_MAX) →
        (∃ c ∈ candidates, ∃ t : ℚ, 0 < t
          ∧ (search_best_config ev candidates rng).1 = { c with execution_time_ms := t })
        ∧ 0 < (search_best_config ev candidates rng).1.execution_time_ms
        ∧ (search_best_config ev candidates rng).1 ≠ ScheduleConfig.new)
    ∧ (ev.apply_bank_conflict_penalty_ = false ∨ ev.bank_conflict_penalty_factor_ ≤ 2 ^ 960 →
        ∀ (candidates : List ScheduleConfig) (rng : RandSource), candidates ≠ [] →
          (∀ c ∈ candidates, c.bank_conflict_way ≤ 2147483647) →
          ∃ t ∈ evaluated_times ev candidates rng, t < DBL_MAX) := by
  have hpos' : ev.apply_bank_conflict_penalty_ = false
      ∨ 0 < ev.bank_conflict_penalty_factor_ := by
    rcases hset with h | h
    · exact Or.inl h
    · exact Or.inr (lt_of_lt_of_le (by positivity) h)
  refine ⟨fun config rng => evaluate_config_pos ev config rng hpos', ?_, ?_⟩
  · intro candidates rng hlt
    obtain ⟨t0, hmem0, hlt0⟩ := hlt
    have hpos0 := evaluated_times_pos ev hpos' candidates rng t0 hmem0
    obtain ⟨i, c, t, hc, _, ht, _, _, _, hres⟩ :=
      search_best_config_of_improving ev candidates rng ⟨t0, hmem0, hpos0, hlt0⟩
    refine ⟨⟨c, List.getElem?_mem hc, t, ht, hres⟩, ?_, ?_⟩
    · rw [hres]; exact ht
    · intro h
      rw [h] at hres
      have e : ScheduleConfig.new.execution_time_ms = t := by rw [hres]
      have e1 : ScheduleConfig.new.execution_time_ms = -1 := rfl
      linarith
  · intro hupper candidates rng hne hways
    cases candidates with
    | nil => exact absurd rfl hne
    | cons c0 rest =>
      have hF : ev.apply_bank_conflict_penalty_ = false
          ∨ (0 ≤ ev.bank_conflict_penalty_factor_
            ∧ ev.bank_conflict_penalty_factor_ ≤ 2 ^ 960) := by
        rcases hupper with h | h
        · exact Or.inl h
        · rcases hpos' with h' | h'
          · exact Or.inl h'
          · exact Or.inr ⟨le_of_lt h', h⟩
      exact ⟨_, evaluated_times_head_mem ev c0 rest rng,
        evaluate_config_lt_DBL_MAX ev c0 rng hF (hways c0 (List.mem_cons_self c0 rest))⟩

/-- Witness for C36: the default settings (factor 2) on the six GEMM configs;
the time of the first config is below the largest `double`. -/
theorem search_best_config_never_sentinel_witness :
    (TiramisuConfigEvaluator.new.apply_bank_conflict_penalty_ = false
      ∨ 1 / 2 ^ 1073 ≤ TiramisuConfigEvaluator.new.bank_conflict_penalty_factor_)
    ∧ (∃ t ∈ evaluated_times TiramisuConfigEvaluator.new generate_gemm_loop_orders
        (fun _ => 7), t < DBL_MAX)
    ∧ 0 < (search_best_config TiramisuConfigEvaluator.new generate_gemm_loop_orders
        (fun _ => 7)).1.execution_time_ms
    ∧ (search_best_config TiramisuConfigEvaluator.new generate_gemm_loop_orders
        (fun _ => 7)).1 ≠ ScheduleConfig.new :=
  have hset : TiramisuConfigEvaluator.new.apply_bank_conflict_penalty_ = false
      ∨ 1 / 2 ^ 1073 ≤ TiramisuConfigEvaluator.new.bank_conflict_penalty_factor_ :=
    Or.inr (by norm_num [TiramisuConfigEvaluator.new])
  have hlt : ∃ t ∈ evaluated_times TiramisuConfigEvaluator.new generate_gemm_loop_orders
      (fun _ => 7), t < DBL_MAX :=
    (search_best_config_never_sentinel TiramisuConfigEvaluator.new hset).2.2
      (Or.inr (by norm_num [TiramisuConfigEvaluator.new]))
      generate_gemm_loop_orders (fun _ => 7) (by decide) (by decide)
  ⟨hset, hlt,
    ((search_best_config_never_sentinel TiramisuConfigEvaluator.new hset).2.1
      generate_gemm_loop_orders (fun _ => 7) hlt).2⟩

/-- Counterexample to C36 as stated: the penalty factor `10^308` is positive and
the candidate list has one config, marked with a 16-way bank conflict; its
evaluated time `56 × 4 × 10^308` is positive but not below the largest
`double`, and `search_best_config` returns the sentinel. -/
theorem search_best_config_never_sentinel_counterexample :
    0 < (TiramisuConfigEvaluator.new.set_bank_conflict_penalty true
          (10 ^ 308)).bank_conflict_penalty_factor_
    ∧ [overflow_candidate] ≠ []
    ∧ evaluated_times (TiramisuConfigEvaluator.new.set_bank_conflict_penalty true (10 ^ 308))
        [overflow_candidate] (fun _ => 10) = [224 * 10 ^ 308]
    ∧ DBL_MAX ≤ 224 * 10 ^ 308
    ∧ (search_best_config (TiramisuConfigEvaluator.new.set_bank_conflict_penalty true (10 ^ 308))
        [overflow_candidate] (fun _ => 10)).1 = ScheduleConfig.new
    ∧ (search_best_config (TiramisuConfigEvaluator.new.set_bank_conflict_penalty true (10 ^ 308))
        [overflow_candidate] (fun _ => 10)).1.execution_time_ms = -1 := by
  have htimes : evaluated_times
      (TiramisuConfigEvaluator.new.set_bank_conflict_penalty true (10 ^ 308))
      [overflow_candidate] (fun _ => 10) = [224 * 10 ^ 308] := by
    have h10 : Int.tmod 10 20 = 10 := by decide
    simp [h10, overflow_candidate, evaluated_times, evaluate_config, rand, average_tile,
      toInt32, gemm_loop_order_config, ScheduleConfig.new, Transformation.new,
      TiramisuConfigEvaluator.satisfies_coalescing_constraint, TiramisuConfigEvaluator.new,
      TiramisuConfigEvaluator.set_bank_conflict_penalty, compute_penalized_score]
    norm_num
  have hbig : DBL_MAX ≤ 224 * 10 ^ 308 := by
    unfold DBL_MAX
    norm_num
  have hres : (search_best_config
      (TiramisuConfigEvaluator.new.set_bank_conflict_penalty true (10 ^ 308))
      [overflow_candidate] (fun _ => 10)).1 = ScheduleConfig.new := by
    apply search_best_config_of_none_improving
    intro t ht
    rw [htimes, List.mem_singleton] at ht
    right
    rw [ht]
    exact hbig
  refine ⟨?_, by simp, htimes, hbig, hres, ?_⟩
  · norm_num [TiramisuConfigEvaluator.set_bank_conflict_penalty]
  · rw [hres]; rfl

/-! ### Fields left untouched by the generators -/

theorem foldlM_option_invariant {α β : Type} (f : β → α → Option β) (P : β → Prop)
    (hstep : ∀ b a b', f b a = some b' → P b → P b') (l : List α) (init out : β)
    (h : l.foldlM f init = some out) (h0 : P init) : P out := by
  induction l generalizing init with
  | nil =>
    simp only [List.foldlM_nil] at h
    cases h
    exact h0
  | cons a l ih =>
    rw [List.foldlM_cons] at h
    cases hf : f init a with
    | none => rw [hf] at h; simp at h
    | some b =>
      rw [hf] at h
      exact ih b h (hstep init a b hf h0)

/-- The config returned by `pluto_prog_to_config` is a freshly constructed config
in which only the transformations are set. -/
theorem pluto_prog_to_config_fresh (prog : Option PlutoProg) (c : ScheduleConfig)
    (h : pluto_prog_to_config prog = some c) :
    c = { ScheduleConfig.new with transformations := c.transformations } := by
  have hnew : ScheduleConfig.new
      = { ScheduleConfig.new with transformations := ScheduleConfig.new.transformations } := rfl
  unfold pluto_prog_to_config at h
  cases prog with
  | none => simp only [Option.some.injEq] at h; rw [← h]
  | some p =>
    simp only at h
    by_cases hs : p.nstmts = 0
    · simp only [hs, if_true, Option.some.injEq] at h; rw [← h]
    · simp only [hs, if_false] at h
      cases hh : p.stmts.head? with
      | none => rw [hh] at h; simp at h
      | some stmt =>
        rw [hh] at h
        simp only at h
        refine foldlM_option_invariant (pluto_prog_to_config_step stmt)
          (fun c => c = { ScheduleConfig.new with transformations := c.transformations })
          ?_ _ _ _ h hnew
        intro b a b' hb hP
        unfold pluto_prog_to_config_step at hb
        cases hi : stmt.iterators with
        | none =>
          rw [hi] at hb
          simp only [Option.some.injEq] at hb
          rw [← hb, hP]
        | some iterators =>
          rw [hi] at hb
          simp only at hb
          cases hg : iterators[a]? with
          | none => rw [hg] at hb; simp at hb
          | some entry =>
            rw [hg] at hb
            cases entry with
            | none =>
              simp only [Option.some.injEq] at hb
              rw [← hb, hP]
            | some name =>
              simp only [Option.some.injEq] at hb
              rw [← hb, hP]

theorem one_le_check_bank_conflict (config : ScheduleConfig) :
    1 ≤ (check_bank_conflict config).2 := by
  show 1 ≤ config.tile_sizes.foldl bank_conflict_step 1
  rw [foldl_bank_conflict_step _ 1 (le_refl 1)]
  omega

/-- The tiling variant built by `generate_candidates_from_optimal` is the optimal
config with a new tile-size table and description and with the annotations of
`check_bank_conflict` for that table. -/
theorem tiling_variant_annotated (p : PlutoProg) (oc : ScheduleConfig) (t : Int)
    (v : ScheduleConfig) (h : tiling_variant p oc t = some v) :
    v = { oc with
          tile_sizes := v.tile_sizes
          description := "Tiling variant " ++ toString t
          has_coalescing_violation := !satisfies_coalescing_constraint oc
          bank_conflict_way := (check_bank_conflict v).2
          has_bank_conflict := decide ((check_bank_conflict v).2 > 1) } := by
  unfold tiling_variant at h
  simp only at h
  cases hfold : (List.range p.nvar.toNat).foldlM
      (fun (variant : ScheduleConfig) (d : Nat) =>
        match read_iterator_name p d with
        | none => none
        | some loop_name =>
          some { variant with
                 tile_sizes := variant.tile_sizes ++ [TileSize.mk loop_name t] })
      { oc with tile_sizes := [] } with
  | none => rw [hfold] at h; simp at h
  | some variant1 =>
    rw [hfold] at h
    simp only [Option.some.injEq] at h
    have hinv : variant1 = { oc with tile_sizes := variant1.tile_sizes } := by
      refine foldlM_option_invariant _
        (fun c : ScheduleConfig => c = { oc with tile_sizes := c.tile_sizes }) ?_ _ _ _ hfold rfl
      intro b a b' hb hP
      cases hr : read_iterator_name p a with
      | none => rw [hr] at hb; simp at hb
      | some name =>
        rw [hr] at hb
        simp only [Option.some.injEq] at hb
        rw [← hb, hP]
    generalize variant1.tile_sizes = ts at hinv
    subst hinv
    rw [← h]
    rfl

theorem generate_candidates_loop_mem (p : PlutoProg) (oc : ScheduleConfig) (k : Int)
    (tiles : List Int) (cands out : List ScheduleConfig)
    (h : generate_candidates_loop p oc k tiles cands = some out) :
    ∃ vs, out = cands ++ vs ∧ ∀ v ∈ vs, ∃ t ∈ tiles, tiling_variant p oc t = some v := by
  induction tiles generalizing cands with
  | nil =>
    simp only [generate_candidates_loop, Option.some.injEq] at h
    exact ⟨[], by simp [h], by simp⟩
  | cons t rest ih =>
    by_cases hbreak : cands.length ≥ size_t_of_int k
    · simp only [generate_candidates_loop, hbreak, if_true, Option.some.injEq] at h
      exact ⟨[], by simp [h], by simp⟩
    · simp only [generate_candidates_loop, hbreak, if_false] at h
      cases hv : tiling_variant p oc t with
      | none => rw [hv] at h; simp at h
      | some v =>
        rw [hv] at h
        simp only at h
        by_cases hs : satisfies_coalescing_constraint v = true
        · simp only [hs, if_true] at h
          obtain ⟨vs, hout, hvs⟩ := ih (cands ++ [v]) h
          refine ⟨v :: vs, by simp [hout], ?_⟩
          intro w hw
          rcases List.mem_cons.mp hw with e | e
          · exact ⟨t, List.mem_cons_self t rest, by rw [e]; exact hv⟩
          · obtain ⟨t', ht', hw'⟩ := hvs w e
            exact ⟨t', List.mem_cons_of_mem t ht', hw'⟩
        · simp only [hs, if_false] at h
          obtain ⟨vs, hout, hvs⟩ := ih cands h
          refine ⟨vs, hout, ?_⟩
          intro w hw
          obtain ⟨t', ht', hw'⟩ := hvs w hw
          exact ⟨t', List.mem_cons_of_mem t ht', hw'⟩

/-- The list returned by `generate_candidates_from_optimal`: the baseline config,
fresh but for its transformations and description, followed by tiling variants
of it. -/
theorem generate_candidates_from_optimal_shape (prog : Option PlutoProg) (k : Int)
    (cands : List ScheduleConfig) (h : generate_candidates_from_optimal prog k = some cands) :
    ∃ p base vs, prog = some p ∧ cands = base :: vs
      ∧ base = { ScheduleConfig.new with
                 transformations := base.transformations, description := "PLUTO Optimal" }
      ∧ ∀ v ∈ vs, ∃ t ∈ ([16, 32, 64, 128, 256] : List Int),
          tiling_variant p base t = some v := by
  unfold generate_candidates_from_optimal at h
  cases hc : pluto_prog_to_config prog with
  | none => rw [hc] at h; simp at h
  | some config0 =>
    rw [hc] at h
    simp only at h
    cases prog with
    | none => simp at h
    | some p =>
      simp only at h
      obtain ⟨vs, hout, hvs⟩ := generate_candidates_loop_mem p _ k _ _ _ h
      refine ⟨p, { config0 with description := "PLUTO Optimal" }, vs, rfl, by simpa using hout,
        ?_, hvs⟩
      have hfresh := pluto_prog_to_config_fresh (some p) config0 hc
      conv_lhs => rw [hfresh]

theorem sampling_loop_mem (tile_variants : List Int) (num_samples : Int)
    (idxs : List Nat) (first : ScheduleConfig) (tl out : List ScheduleConfig)
    (h : sampling_loop tile_variants num_samples idxs (first :: tl) = some out) :
    ∃ samples, out = first :: tl ++ samples ∧ samples.length ≤ idxs.length
      ∧ ∀ s ∈ samples, ∃ i ∈ idxs, ∃ tile,
          tile_variants[i]? = some tile ∧ s = sampling_variant first tile := by
  induction idxs generalizing tl with
  | nil =>
    simp only [sampling_loop, Option.some.injEq] at h
    exact ⟨[], by simp [h], by simp, by simp⟩
  | cons i rest ih =>
    by_cases hlt : (((first :: tl).length : Nat) : Int) < num_samples
    · simp only [sampling_loop, hlt, if_true, List.head?_cons] at h
      cases hg : tile_variants[i]? with
      | none => rw [hg] at h; simp at h
      | some tile =>
        rw [hg] at h
        simp only at h
        by_cases hs : satisfies_coalescing_constraint (sampling_variant first tile) = true
        · simp only [hs, if_true] at h
          obtain ⟨samples, hout, hlen, hmem⟩ := ih (tl ++ [sampling_variant first tile]) h
          refine ⟨sampling_variant first tile :: samples, by simp [hout], by simp; omega, ?_⟩
          intro s hsm
          rcases List.mem_cons.mp hsm with e | e
          · exact ⟨i, List.mem_cons_self i rest, tile, hg, e⟩
          · obtain ⟨j, hj, tj, htj, hsj⟩ := hmem s e
            exact ⟨j, List.mem_cons_of_mem i hj, tj, htj, hsj⟩
        · simp only [hs, if_false] at h
          obtain ⟨samples, hout, hlen, hmem⟩ := ih tl h
          refine ⟨samples, hout, by simp; omega, ?_⟩
          intro s hsm
          obtain ⟨j, hj, tj, htj, hsj⟩ := hmem s hsm
          exact ⟨j, List.mem_cons_of_mem i hj, tj, htj, hsj⟩
    · simp only [sampling_loop, hlt, if_false, Option.some.injEq] at h
      exact ⟨[], by simp [h], by simp, by simp⟩

/-- The list returned by `generate_by_constraint_sampling`: the baseline config,
fresh but for its transformations and description, followed by at most three
copies of it that differ in the description only, one for each of the tile
sizes at the indices 1, 2, 3 of the menu. -/
theorem generate_by_constraint_sampling_shape (prog : Option PlutoProg) (n : Int)
    (cands : List ScheduleConfig) (h : generate_by_constraint_sampling prog n = some cands) :
    ∃ base samples, cands = base :: samples
      ∧ base = { ScheduleConfig.new with
                 transformations := base.transformations
                 description := "Base PLUTO solution" }
      ∧ samples.length ≤ 3
      ∧ ∀ s ∈ samples, ∃ tile ∈ ([32, 64, 128] : List Int),
          s = { base with description := "Tile variant " ++ toString tile } := by
  unfold generate_by_constraint_sampling at h
  cases hc : pluto_prog_to_config prog with
  | none => rw [hc] at h; simp at h
  | some config0 =>
    rw [hc] at h
    simp only at h
    obtain ⟨samples, hout, hlen, hmem⟩ := sampling_loop_mem _ _ _ _ _ _ h
    have hfresh := pluto_prog_to_config_fresh prog config0 hc
    have hbase : ({ config0 with description := "Base PLUTO solution" } : ScheduleConfig)
        = { ScheduleConfig.new with
            transformations := config0.transformations
            description := "Base PLUTO solution" } := by
      conv_lhs => rw [hfresh]
    refine ⟨{ config0 with description := "Base PLUTO solution" }, samples,
      by simpa using hout, hbase, by simpa using hlen, ?_⟩
    intro s hs
    obtain ⟨i, hi, tile, htile, hsv⟩ := hmem s hs
    have htl : tile ∈ ([32, 64, 128] : List Int) := by
      simp only [List.mem_cons, List.mem_singleton, List.not_mem_nil, or_false] at hi
      rcases hi with e | e | e <;> subst e <;> simp at htile <;> simp [← htile]
    refine ⟨tile, htl, ?_⟩
    rw [hsv, hbase]
    rfl

/-! ### The conflict degree of generated configs -/

/-- C31 (amended). Every config produced by the generators of the solver,
starting from a freshly constructed config, has `bank_conflict_way ≥ 0`: the
baseline config at index 0 of `generate_candidates_from_optimal` and every
config of `generate_all_legal_configs` and `generate_by_constraint_sampling`
keep the value 0 of the constructor, and every tiling variant, which
`check_bank_conflict` annotates, has `bank_conflict_way ≥ 1`; in all of them
`has_bank_conflict` holds iff `bank_conflict_way > 1`. -/
theorem generated_bank_conflict_way (prog : Option PlutoProg) (k n : Int)
    (num_loops : Int) (loop_names : List String) (only_coalesced : Bool) :
    (∀ cands, generate_candidates_from_optimal prog k = some cands →
      ∃ base vs, cands = base :: vs
        ∧ base.bank_conflict_way = 0 ∧ base.has_bank_conflict = false
        ∧ ∀ v ∈ vs, 1 ≤ v.bank_conflict_way
            ∧ (v.has_bank_conflict = true ↔ v.bank_conflict_way > 1))
    ∧ (∀ c ∈ generate_all_legal_configs num_loops loop_names only_coalesced,
        c.bank_conflict_way = 0 ∧ c.has_bank_conflict = false)
    ∧ (∀ cands, generate_by_constraint_sampling prog n = some cands →
        ∀ c ∈ cands, c.bank_conflict_way = 0 ∧ c.has_bank_conflict = false) := by
  refine ⟨?_, ?_, ?_⟩
  · intro cands h
    obtain ⟨p, base, vs, _, hc, hbase, hvs⟩ := generate_candidates_from_optimal_shape prog k cands h
    refine ⟨base, vs, hc, by rw [hbase]; rfl, by rw [hbase]; rfl, ?_⟩
    intro v hv
    obtain ⟨t, _, ht⟩ := hvs v hv
    have ha := tiling_variant_annotated p base t v ht
    have hway : v.bank_conflict_way = (check_bank_conflict v).2 := by
      conv_lhs => rw [ha]
    have hhas : v.has_bank_conflict = decide ((check_bank_conflict v).2 > 1) := by
      conv_lhs => rw [ha]
    rw [hhas, hway]
    exact ⟨one_le_check_bank_conflict v, by simp⟩
  · intro c hc
    cases only_coalesced with
    | true => rw [generate_all_legal_configs_only_coalesced] at hc; simp at hc
    | false =>
      have hfalse : generate_all_legal_configs num_loops loop_names false
          = (List.range num_loops.toNat).map
              (fun i => { ScheduleConfig.new with
                          description := "Config with loop " ++ toString i ++ " innermost" }) := by
        unfold generate_all_legal_configs
        simp only [Bool.not_false, Bool.true_or, if_true]
        rw [foldl_push_map]
        rfl
      rw [hfalse] at hc
      obtain ⟨i, _, hi⟩ := List.mem_map.mp hc
      rw [← hi]
      exact ⟨rfl, rfl⟩
  · intro cands h c hc
    obtain ⟨base, samples, hcs, hbase, _, hs⟩ := generate_by_constraint_sampling_shape prog n cands h
    rw [hcs] at hc
    rcases List.mem_cons.mp hc with e | e
    · rw [e, hbase]; exact ⟨rfl, rfl⟩
    · obtain ⟨tile, _, hst⟩ := hs c e
      rw [hst, hbase]; exact ⟨rfl, rfl⟩

/-- Witness for C31 (amended): the GEMM baseline with `k = 3`; the baseline
config has way 0, the tiling variants for 16 and 32 have way 16 and 1. -/
theorem generated_bank_conflict_way_witness :
    ∃ base vs, [gemm_optimal_config, gemm_tiling_variant 16 16, gemm_tiling_variant 32 1]
        = base :: vs
      ∧ base.bank_conflict_way = 0 ∧ base.has_bank_conflict = false
      ∧ ∀ v ∈ vs, 1 ≤ v.bank_conflict_way
          ∧ (v.has_bank_conflict = true ↔ v.bank_conflict_way > 1) :=
  (generated_bank_conflict_way (some gemm_prog) 3 5 0 [] false).1
    [gemm_optimal_config, gemm_tiling_variant 16 16, gemm_tiling_variant 32 1] rfl

/-- Counterexample to C31 as stated: the baseline config that
`generate_candidates_from_optimal` returns at index 0 for the GEMM baseline, the
configs of `generate_all_legal_configs` and the configs that
`generate_by_constraint_sampling` returns have `bank_conflict_way = 0`, the
value set by the constructor, which is not `≥ 1`. -/
theorem generated_bank_conflict_way_counterexample :
    (generate_candidates_from_optimal (some gemm_prog) 3).map
        (fun cands => cands.map (fun c => c.bank_conflict_way)) = some [0, 16, 1]
    ∧ (generate_all_legal_configs 2 ["i", "j"] false).map (fun c => c.bank_conflict_way)
        = [0, 0]
    ∧ (generate_by_constraint_sampling (some gemm_prog) 5).map
        (fun cands => cands.map (fun c => c.bank_conflict_way)) = some [0, 0, 0, 0]
    ∧ ScheduleConfig.new.bank_conflict_way = 0 := by
  refine ⟨rfl, rfl, rfl, rfl⟩

/-! ### Samples of the constraint sampling -/

/-- C37. For every baseline and `n`, every config returned by
`generate_by_constraint_sampling` has the same transformations and the same,
empty, tile-size table as the baseline config at index 0: the sampled tile size
(32, 64 or 128 only, 16 is never sampled) appears only in the description, so
every returned config is evaluated as the baseline config is (equal times for
equal values of `rand()`), and the result has at most 4 elements.  The call
returns whenever `pluto_prog_to_config` translates the baseline, as it does the
null baseline. -/
theorem generate_by_constraint_sampling_frame (prog : Option PlutoProg) (n : Int) :
    (∀ cands, generate_by_constraint_sampling prog n = some cands →
      ∃ base samples, cands = base :: samples
        ∧ base.tile_sizes = []
        ∧ cands.length ≤ 4
        ∧ ∀ s ∈ samples,
            s.transformations = base.transformations
            ∧ s.tile_sizes = []
            ∧ (∃ tile ∈ ([32, 64, 128] : List Int),
                s = { base with description := "Tile variant " ++ toString tile })
            ∧ ∀ (ev : TiramisuConfigEvaluator) (rng : RandSource),
                evaluate_config ev s rng = evaluate_config ev base rng)
    ∧ (∀ c0, pluto_prog_to_config prog = some c0 →
        ∃ cands, generate_by_constraint_sampling prog n = some cands)
    ∧ (prog = none → ∃ cands, generate_by_constraint_sampling prog n = some cands) := by
  have hret : ∀ c0, pluto_prog_to_config prog = some c0 →
      ∃ cands, generate_by_constraint_sampling prog n = some cands := by
    intro c0 hc0
    obtain ⟨samples, hloop, _, _, _⟩ := sampling_loop_spec [16, 32, 64, 128] n [1, 2, 3]
      { c0 with description := "Base PLUTO solution" } [] (by decide)
    simp only [generate_by_constraint_sampling, hc0, hloop]
    exact ⟨_, rfl⟩
  refine ⟨?_, hret, ?_⟩
  · intro cands h
    obtain ⟨base, samples, hcs, hbase, hlen, hs⟩ :=
      generate_by_constraint_sampling_shape prog n cands h
    have hts : base.tile_sizes = [] := by rw [hbase]; rfl
    refine ⟨base, samples, hcs, hts, by rw [hcs, List.length_cons]; omega, ?_⟩
    intro s hsm
    obtain ⟨tile, htile, hst⟩ := hs s hsm
    refine ⟨by rw [hst], by rw [hst]; exact hts, ⟨tile, htile, hst⟩, ?_⟩
    intro ev rng
    rw [hst]
    rfl
  · intro hnull
    exact hret ScheduleConfig.new (by rw [hnull]; rfl)

/-- Witness for C37: the GEMM baseline with `n = 5` returns the baseline config
and the samples for 32, 64 and 128. -/
theorem generate_by_constraint_sampling_frame_witness :
    ∃ base samples, (generate_by_constraint_sampling (some gemm_prog) 5).getD []
        = base :: samples
      ∧ base.tile_sizes = []
      ∧ samples.length = 3
      ∧ ∀ s ∈ samples,
          s.transformations = base.transformations
          ∧ s.tile_sizes = [] := by
  obtain ⟨cands, hc⟩ := (generate_by_constraint_sampling_frame (some gemm_prog) 5).2.1
    { ScheduleConfig.new with transformations := ["i", "j", "k"].map named_interchange } rfl
  obtain ⟨base, samples, hcs, hts, _, hs⟩ :=
    (generate_by_constraint_sampling_frame (some gemm_prog) 5).1 cands hc
  have hlen : ((generate_by_constraint_sampling (some gemm_prog) 5).getD []).length = 4 := rfl
  rw [hc] at hlen ⊢
  simp only [Option.getD_some] at hlen ⊢
  refine ⟨base, samples, hcs, hts, ?_, fun s hsm => ⟨(hs s hsm).1, (hs s hsm).2.1⟩⟩
  rw [hcs, List.length_cons] at hlen
  omega

/-! ### The conflict degree as a greatest common divisor -/

theorem degree_loop_gcd (r : Int) (h1 : 1 ≤ r) (h2 : r ≤ 31) :
    bank_conflict_degree_loop r 1 = (Int.gcd r 32 : Int) := by
  interval_cases r <;> decide

theorem gcd_emod_thirty_two (s : Int) (hs : 0 ≤ s) : Int.gcd (s % 32) 32 = Int.gcd s 32 := by
  lift s to ℕ using hs
  have e : ((s : Int) % 32) = ((s % 32 : ℕ) : Int) := by push_cast; rfl
  rw [e]
  show Nat.gcd (s % 32) 32 = Nat.gcd s 32
  rw [Nat.gcd_comm s 32, Nat.gcd_rec 32 s]

/-- Contribution of one size to the way in terms of the greatest common
divisor. -/
theorem bank_conflict_step_gcd (cw : Int) (hcw : 1 ≤ cw) (ts : TileSize) :
    bank_conflict_step cw ts
      = if ts.size > 1 ∧ ¬ (32 : Int) ∣ ts.size then max cw (gcd_conflict_degree ts.size)
        else cw := by
  unfold bank_conflict_step gcd_conflict_degree
  by_cases hs : ts.size > 1
  · have hmod : Int.tmod ts.size 32 = ts.size % 32 := Int.tmod_eq_emod (by omega) (by omega)
    by_cases hd : (32 : Int) ∣ ts.size
    · have hr : ts.size % 32 = 0 := Int.emod_eq_zero_of_dvd hd
      have hne : ¬ (ts.size = 33 ∨ ts.size = 65 ∨ ts.size = 17) := by omega
      simp only [hmod, hr, hs, hd, ne_eq, not_true_eq_false, false_and, and_false, if_false,
        hne]
    · have hr : ts.size % 32 ≠ 0 := fun h => hd (Int.dvd_of_emod_eq_zero h)
      have h1 : 1 ≤ ts.size % 32 := by omega
      have h2 : ts.size % 32 ≤ 31 := by omega
      have hloop := degree_loop_of_one_le (ts.size % 32) cw hcw
      have hgcd : bank_conflict_degree_loop (ts.size % 32) 1 = (Int.gcd ts.size 32 : Int) := by
        rw [degree_loop_gcd _ h1 h2, gcd_emod_thirty_two ts.size (by omega)]
      simp only [hmod, hr, hs, hd, ne_eq, not_false_eq_true, and_self, if_true, hloop, hgcd]
      have hg : (1 : Int) ≤ (Int.gcd ts.size 32 : Int) := by
        have : 0 < Int.gcd ts.size 32 := Int.gcd_pos_of_ne_zero_right _ (by decide)
        exact_mod_cast this
      split_ifs with hb hb2 hb2
      · omega
      · omega
      · omega
      · rfl
  · have hne : ¬ (ts.size = 33 ∨ ts.size = 65 ∨ ts.size = 17) := by omega
    simp only [hs, and_false, false_and, if_false, hne]

theorem gcd_conflict_degree_mem (s : Int) (hs : s > 1) (hd : ¬ (32 : Int) ∣ s) :
    gcd_conflict_degree s = 1 ∨ gcd_conflict_degree s = 2 ∨ gcd_conflict_degree s = 4
      ∨ gcd_conflict_degree s = 8 ∨ gcd_conflict_degree s = 16 := by
  have hr : s % 32 ≠ 0 := fun h => hd (Int.dvd_of_emod_eq_zero h)
  have h1 : 1 ≤ s % 32 := by omega
  have h2 : s % 32 ≤ 31 := by omega
  have hg : Int.gcd s 32 = Int.gcd (s % 32) 32 := (gcd_emod_thirty_two s (by omega)).symm
  have hgm : (Int.gcd (s % 32) 32 = 1 ∨ Int.gcd (s % 32) 32 = 2 ∨ Int.gcd (s % 32) 32 = 4
      ∨ Int.gcd (s % 32) 32 = 8 ∨ Int.gcd (s % 32) 32 = 16) := by
    generalize s % 32 = r at h1 h2
    interval_cases r <;> decide
  unfold gcd_conflict_degree
  rw [hg]
  split_ifs <;> omega

theorem foldl_bank_conflict_step_gcd (l : List TileSize) (cw : Int) (hcw : 1 ≤ cw) :
    l.foldl bank_conflict_step cw
      = (((l.map (fun ts => ts.size)).filter
            (fun s => decide (s > 1 ∧ ¬ (32 : Int) ∣ s))).map gcd_conflict_degree).foldl
          max cw
    ∧ (cw = 1 ∨ cw = 2 ∨ cw = 4 ∨ cw = 8 ∨ cw = 16 →
        l.foldl bank_conflict_step cw = 1 ∨ l.foldl bank_conflict_step cw = 2
        ∨ l.foldl bank_conflict_step cw = 4 ∨ l.foldl bank_conflict_step cw = 8
        ∨ l.foldl bank_conflict_step cw = 16) := by
  induction l generalizing cw with
  | nil => exact ⟨rfl, fun h => h⟩
  | cons ts l ih =>
    have hstep := bank_conflict_step_gcd cw hcw ts
    by_cases hc : ts.size > 1 ∧ ¬ (32 : Int) ∣ ts.size
    · rw [if_pos hc] at hstep
      have hmem := gcd_conflict_degree_mem ts.size hc.1 hc.2
      have hge : 1 ≤ max cw (gcd_conflict_degree ts.size) := by omega
      obtain ⟨ih1, ih2⟩ := ih (max cw (gcd_conflict_degree ts.size)) hge
      rw [List.foldl_cons, hstep]
      refine ⟨?_, ?_⟩
      · rw [ih1]
        simp only [List.map_cons, List.filter_cons, hc, not_false_eq_true, and_self,
          decide_True, if_true, List.foldl_cons]
      · intro hcw'
        apply ih2
        omega
    · rw [if_neg hc] at hstep
      obtain ⟨ih1, ih2⟩ := ih cw hcw
      rw [List.foldl_cons, hstep]
      refine ⟨?_, ih2⟩
      rw [ih1]
      simp only [List.map_cons, List.filter_cons, hc, decide_False, Bool.false_eq_true,
        if_false]

/-- C34. For every config with arbitrary integer tile sizes, the way computed by
`check_bank_conflict` equals the maximum of 1 and, over the tile sizes `s > 1`
that are not multiples of 32, of `gcd(s, 32)` (raised to at least 2 when `s` is
17, 33 or 65); tile sizes `≤ 1`, zero and negative sizes included, never
contribute.  Hence the way is always one of 1, 2, 4, 8, 16, never 32 and never
another number, so on a config annotated by `check_bank_conflict` the 32-way
branch and the default branch of `compute_penalized_score` are never taken: the
config is either unmarked, and the time is returned unchanged, or its way is 2,
4, 8 or 16. -/
theorem check_bank_conflict_gcd (ev : TiramisuConfigEvaluator) (config : ScheduleConfig)
    (t : ℚ) :
    (check_bank_conflict config).2
        = gcd_conflict_way (config.tile_sizes.map (fun ts => ts.size))
    ∧ (check_bank_conflict config).2
        = (check_bank_conflict
            { config with
              tile_sizes := config.tile_sizes.filter (fun ts => decide (ts.size > 1)) }).2
    ∧ ((check_bank_conflict config).2 = 1 ∨ (check_bank_conflict config).2 = 2
        ∨ (check_bank_conflict config).2 = 4 ∨ (check_bank_conflict config).2 = 8
        ∨ (check_bank_conflict config).2 = 16)
    ∧ (((with_constraint_annotations config).has_bank_conflict = false
          ∧ (with_constraint_annotations config).bank_conflict_way = 1
          ∧ compute_penalized_score ev (with_constraint_annotations config) t = t)
        ∨ ((with_constraint_annotations config).has_bank_conflict = true
          ∧ ((with_constraint_annotations config).bank_conflict_way = 2
              ∨ (with_constraint_annotations config).bank_conflict_way = 4
              ∨ (with_constraint_annotations config).bank_conflict_way = 8
              ∨ (with_constraint_annotations config).bank_conflict_way = 16))) := by
  have hway : ∀ c : ScheduleConfig, (check_bank_conflict c).2
      = gcd_conflict_way (c.tile_sizes.map (fun ts => ts.size)) := by
    intro c
    show c.tile_sizes.foldl bank_conflict_step 1 = _
    exact (foldl_bank_conflict_step_gcd c.tile_sizes 1 (le_refl 1)).1
  have hmem : (check_bank_conflict config).2 = 1 ∨ (check_bank_conflict config).2 = 2
      ∨ (check_bank_conflict config).2 = 4 ∨ (check_bank_conflict config).2 = 8
      ∨ (check_bank_conflict config).2 = 16 :=
    (foldl_bank_conflict_step_gcd config.tile_sizes 1 (le_refl 1)).2 (Or.inl rfl)
  refine ⟨hway config, ?_, hmem, ?_⟩
  · rw [hway, hway]
    unfold gcd_conflict_way
    congr 2
    simp only [List.filter_map, List.filter_filter]
    congr 1
    apply List.filter_congr
    intro ts _
    by_cases h1 : ts.size > 1 <;> simp [h1]
  · have hw : (with_constraint_annotations config).bank_conflict_way
        = (check_bank_conflict config).2 := rfl
    have hh : (with_constraint_annotations config).has_bank_conflict
        = decide ((check_bank_conflict config).2 > 1) := rfl
    rw [hw, hh]
    rcases hmem with h | h | h | h | h
    · left
      refine ⟨by rw [h]; rfl, h, ?_⟩
      unfold compute_penalized_score
      rw [hh, h]
      simp
    all_goals
      right
      rw [h]
      simp

/-! ### Coalescing check and unit stride, for distinct indices -/

/-- For pairwise distinct indices and strides inside the range of `int`, the
innermost variable is the last index exactly when the stride found for it is 1. -/
theorem unit_stride_iff_last (indices : List String) (d : Int) (v : String)
    (hnodup : indices.Nodup) (hd : 2 ≤ d)
    (hfit : d ^ (indices.length - 1) < 2147483648) (hsq : toInt32 (d * d) ≠ 1) :
    indices.getLast? = some v
      ↔ (match stride_search v d indices with
          | some stride => stride
          | none => toInt32 (d * d)) = 1 := by
  by_cases hmem : v ∈ indices
  · obtain ⟨pre, post, hsplit, hpre⟩ := exists_first_split indices v hmem
    have hs := stride_search_of_split v d pre post hpre
    rw [← hsplit] at hs
    rw [hs]
    have hpost : v ∉ post := by
      rw [hsplit] at hnodup
      have h1 := (List.nodup_append.mp hnodup).2.1
      exact (List.nodup_cons.mp h1).1
    cases post with
    | nil =>
      have hlast : indices.getLast? = some v := by rw [hsplit]; simp
      simp only [hlast, List.length_nil, pow_zero, true_iff]
      decide
    | cons b post =>
      have hlast : indices.getLast? ≠ some v := by
        intro h
        rw [hsplit] at h
        have e : pre ++ v :: b :: post = (pre ++ [v]) ++ (b :: post) := by simp
        rw [e, List.getLast?_append_of_ne_nil _ (by simp)] at h
        exact hpost (List.mem_of_getLast?_eq_some h)
      have hlen : indices.length = pre.length + 1 + (post.length + 1) := by
        rw [hsplit]; simp; omega
      have h2 : 2 ≤ d ^ (b :: post).length :=
        calc (2 : Int) ≤ d := hd
          _ = d ^ 1 := (pow_one _).symm
          _ ≤ d ^ (b :: post).length := pow_le_pow_right₀ (by omega) (by simp)
      have h3 : d ^ (b :: post).length < 2147483648 :=
        lt_of_le_of_lt (pow_le_pow_right₀ (by omega) (by rw [hlen]; simp; omega)) hfit
      simp only [hlast, false_iff]
      rw [toInt32_of_fits _ (by omega) h3]
      omega
  · have hlast : indices.getLast? ≠ some v :=
      fun h => hmem (List.mem_of_getLast?_eq_some h)
    rw [stride_search_of_not_mem v d indices hmem]
    simp only [hlast, false_iff]
    exact hsq

/-- C35 (amended). For every config with at least one transformation whose last
transformation has a non-empty iterator list, and every pattern with a non-empty
list of `n` pairwise distinct indices and `dimension_size ≥ 2` whose stride
product `dimension_size ^ (n - 1)` and whose square `dimension_size ^ 2`, the
stride returned when the innermost variable is not an index, fit in a signed
32-bit `int`: `check_coalescing_for_pattern` is true if and only if
`compute_stride_for_pattern` equals 1. -/
theorem check_coalescing_iff_unit_stride_distinct (config : ScheduleConfig)
    (pattern : AccessPattern) (innermost : Transformation)
    (hlast : config.transformations.getLast? = some innermost)
    (hnames : innermost.iterator_names ≠ [])
    (hne : pattern.indices ≠ [])
    (hdistinct : pattern.indices.Nodup)
    (hd : 2 ≤ pattern.dimension_size)
    (hfit : pattern.dimension_size ^ (pattern.indices.length - 1) ≤ 2147483647)
    (hsq : pattern.dimension_size ^ 2 ≤ 2147483647) :
    check_coalescing_for_pattern config pattern = true
      ↔ compute_stride_for_pattern config pattern = 1 := by
  obtain ⟨v, hv⟩ : ∃ v, innermost.iterator_names.getLast? = some v := by
    cases h : innermost.iterator_names with
    | nil => exact absurd h hnames
    | cons a l => exact ⟨(a :: l).getLast (by simp), List.getLast?_eq_getLast _ _⟩
  have hinner : innermost_variable config = some v := by
    unfold innermost_variable
    rw [hlast]
    exact hv
  rw [check_coalescing_of_innermost config pattern v hinner,
    compute_stride_of_innermost config pattern v hinner hne]
  apply unit_stride_iff_last _ _ _ hdistinct hd (by omega)
  have e : pattern.dimension_size * pattern.dimension_size = pattern.dimension_size ^ 2 := by
    ring
  have h4 : 4 ≤ pattern.dimension_size ^ 2 := by nlinarith
  rw [e, toInt32_of_fits _ (by omega) (by omega)]
  omega

/-- Witness for C35 (amended): the loop order `(i,j,k)` and the pattern
`B[k][j]` with `dimension_size = 1024`. -/
theorem check_coalescing_iff_unit_stride_distinct_witness :
    check_coalescing_for_pattern (gemm_loop_order_config ["i", "j", "k"]) pattern_B = true
      ↔ compute_stride_for_pattern (gemm_loop_order_config ["i", "j", "k"]) pattern_B = 1 :=
  check_coalescing_iff_unit_stride_distinct (gemm_loop_order_config ["i", "j", "k"]) pattern_B
    { Transformation.new TransformType.TRANS_INTERCHANGE with iterator_names := ["k"] }
    (by decide) (by decide) (by decide) (by decide) (by decide) (by decide) (by decide)

/-- Counterexample to C35 as stated: under the loop order `(i,j,k)`, whose last
transformation has the iterator `k`, the pattern with the two distinct indices
`[i, j]` and `dimension_size = 2147483647` meets every precondition (the stride
product `dimension_size ^ 1` fits in an `int`), but `k` is not an index, so the
stride is `dimension_size ^ 2` narrowed to `int`, which is 1, while the pattern
is not coalesced. -/
theorem check_coalescing_iff_unit_stride_distinct_counterexample :
    (gemm_loop_order_config ["i", "j", "k"]).transformations.getLast?
        = some { Transformation.new TransformType.TRANS_INTERCHANGE with
                 iterator_names := ["k"] }
    ∧ (["i", "j"] : List String).Nodup
    ∧ (2 : Int) ≤ 2147483647
    ∧ (2147483647 : Int) ^ (["i", "j"].length - 1) ≤ 2147483647
    ∧ check_coalescing_for_pattern (gemm_loop_order_config ["i", "j", "k"])
        { AccessPattern.new with indices := ["i", "j"], dimension_size := 2147483647 } = false
    ∧ compute_stride_for_pattern (gemm_loop_order_config ["i", "j", "k"])
        { AccessPattern.new with indices := ["i", "j"], dimension_size := 2147483647 } = 1
    ∧ ¬ (check_coalescing_for_pattern (gemm_loop_order_config ["i", "j", "k"])
          { AccessPattern.new with indices := ["i", "j"], dimension_size := 2147483647 } = true
        ↔ compute_stride_for_pattern (gemm_loop_order_config ["i", "j", "k"])
          { AccessPattern.new with indices := ["i", "j"], dimension_size := 2147483647 }
            = 1) := by
  decide

/-! ### The GEMM benchmark -/

theorem benchmark_gemm_scored_orders_eq :
    benchmark_gemm_scored_orders
      = [(["i", "j", "k"], 4096), (["i", "k", "j"], 16384), (["j", "i", "k"], 4096),
         (["j", "k", "i"], 0), (["k", "i", "j"], 16384), (["k", "j", "i"], 0)] := by
  simp [benchmark_gemm_scored_orders, benchmark_gemm_all_orders, benchmark_gemm_config,
    benchmark_gemm_patterns, compute_weighted_coalescing_score, compute_stride_for_pattern,
    stride_search, pattern_weight, toInt32, ScheduleConfig.new, Transformation.new]
  norm_num

/-- C39. For the GEMM patterns and the six orderings of the loops `i`, `j`, `k`
(one single-iterator interchange per loop), `compute_weighted_coalescing_score`
is positive exactly for the four orders whose innermost loop is `j` or `k` and
is 0 for `(j,k,i)` and `(k,j,i)`; hence `benchmark_gemm` computes
`retained_orders = 4` and `retained_configs = 100` out of
`SearchSpaceEstimate(3, 5).total_configs = 3! × 5^3 = 750`, and its
`max_element` picks `(i,k,j)`. -/
theorem benchmark_gemm_results :
    benchmark_gemm_all_orders.map (fun order => (benchmark_gemm_config order).transformations)
      = benchmark_gemm_all_orders.map (fun order => order.map named_interchange)
    ∧ benchmark_gemm.scored_orders
      = [(["i", "j", "k"], 4096), (["i", "k", "j"], 16384), (["j", "i", "k"], 4096),
         (["j", "k", "i"], 0), (["k", "i", "j"], 16384), (["k", "j", "i"], 0)]
    ∧ (∀ entry ∈ benchmark_gemm.scored_orders,
        (0 < entry.2 ↔ entry.1.getLast? = some "j" ∨ entry.1.getLast? = some "k")
        ∧ (entry.2 = 0 ↔ entry.1.getLast? = some "i"))
    ∧ benchmark_gemm.retained_orders = 4
    ∧ benchmark_gemm.retained_configs = 100
    ∧ benchmark_gemm.original.num_loop_orders = 6
    ∧ benchmark_gemm.original.num_tile_sizes = 125
    ∧ benchmark_gemm.original.total_configs = 750
    ∧ (SearchSpaceEstimate.new 3 5).total_configs = 750
    ∧ benchmark_gemm.best = some (["i", "k", "j"], 16384) := by
  have hs : benchmark_gemm.scored_orders
      = [(["i", "j", "k"], 4096), (["i", "k", "j"], 16384), (["j", "i", "k"], 4096),
         (["j", "k", "i"], 0), (["k", "i", "j"], 16384), (["k", "j", "i"], 0)] :=
    benchmark_gemm_scored_orders_eq
  refine ⟨by decide, hs, ?_, ?_, ?_, by decide, by decide, by decide, by decide, ?_⟩
  · intro entry hentry
    rw [hs] at hentry
    simp only [List.mem_cons, List.mem_singleton, List.not_mem_nil, or_false] at hentry
    rcases hentry with e | e | e | e | e | e <;> subst e <;> norm_num <;> decide
  · have e : benchmark_gemm.retained_orders
        = benchmark_gemm_scored_orders.foldl
            (fun (retained_orders : Int) entry =>
              if entry.2 > 0 then retained_orders + 1 else retained_orders) 0 := rfl
    rw [e, benchmark_gemm_scored_orders_eq]
    norm_num [List.foldl]
  · have e : benchmark_gemm.retained_configs
        = benchmark_gemm_scored_orders.foldl
            (fun (retained_orders : Int) entry =>
              if entry.2 > 0 then retained_orders + 1 else retained_orders) 0 * 25 := rfl
    rw [e, benchmark_gemm_scored_orders_eq]
    norm_num [List.foldl]
  · have e : benchmark_gemm.best
        = std_max_element (fun a b => decide (a.2 < b.2)) benchmark_gemm_scored_orders := rfl
    rw [e, benchmark_gemm_scored_orders_eq]
    norm_num [std_max_element, List.foldl]

/-! ### Tiles extracted from the baseline -/

theorem bridge_prog_3_tiles :
    extract_transformations (some bridge_prog_3) = some [bridge_tile_3] := by
  decide

theorem bridge_prog_4_tiles :
    extract_transformations (some bridge_prog_4)
      = some [{ type := TransformType.TRANS_GPU_TILE, loop_dims := [0, 1, 2],
                tile_sizes := [32, 32, 32, 32], iterator_names := ["i", "j", "k", "l"],
                statement_id := 0, factor := 0 }] := by
  decide

theorem foldlM_append_length {α β : Type} (f : List β → α → Option (List β))
    (hstep : ∀ b a b', f b a = some b' → b'.length = b.length + 1)
    (l : List α) (init out : List β) (h : l.foldlM f init = some out) :
    out.length = init.length + l.length := by
  induction l generalizing init with
  | nil =>
    simp only [List.foldlM_nil] at h
    cases h
    simp
  | cons a l ih =>
    rw [List.foldlM_cons] at h
    cases hf : f init a with
    | none => rw [hf] at h; simp at h
    | some b =>
      rw [hf] at h
      have h1 := ih b h
      have h2 := hstep init a b hf
      simp only [List.length_cons]
      omega

theorem extract_iterator_names_length (stmt : Stmt) (names : List String)
    (h : extract_iterator_names stmt = some names) : names.length = stmt.dim.toNat := by
  unfold extract_iterator_names at h
  cases hi : stmt.iterators with
  | none =>
    rw [hi] at h
    simp only [Option.some.injEq] at h
    rw [← h]
    have key : ∀ (l : List Nat) (init : List String),
        (l.foldl
          (fun (names : List String) (d : Nat) =>
            if d < 6 then names ++ [(["i", "j", "k", "l", "m", "n"] : List String).getD d ""]
            else names ++ ["i" ++ toString d])
          init).length = init.length + l.length := by
      intro l
      induction l with
      | nil => intro init; simp
      | cons a l ih =>
        intro init
        rw [List.foldl_cons, ih]
        split_ifs <;> simp <;> omega
    rw [key]
    simp
  | some iterators =>
    rw [hi] at h
    simp only at h
    have hlen := foldlM_append_length _ ?_ _ _ _ h
    · simpa using hlen
    · intro b a b' hb
      cases hg : iterators[a]? with
      | none => rw [hg] at hb; simp at hb
      | some entry =>
        rw [hg] at hb
        cases entry with
        | none =>
          simp only at hb
          split_ifs at hb <;> simp only [Option.some.injEq] at hb <;> rw [← hb] <;> simp
        | some name =>
          simp only [Option.some.injEq] at hb
          rw [← hb]; simp

/-- The fields of the tile built for a statement of dimension `dim ≥ 2`. -/
theorem extract_tile_fields (dim : Int) (hdim : 2 ≤ dim) (b : Bool) (names : List String)
    (s : Nat) :
    ((extract_tile dim b names s).type = TransformType.TRANS_TILE
      ∨ (extract_tile dim b names s).type = TransformType.TRANS_GPU_TILE)
    ∧ (extract_tile dim b names s).loop_dims
        = (List.range (min dim 3).toNat).map (fun (d : Nat) => (d : Int))
    ∧ (extract_tile dim b names s).tile_sizes = (List.range dim.toNat).map (fun (_ : Nat) => (32 : Int))
    ∧ (extract_tile dim b names s).iterator_names = names
    ∧ (extract_tile dim b names s).statement_id = toInt32 (s : Int) := by
  have hmax : (if dim < 3 then dim else 3) = min dim 3 := by
    split_ifs <;> omega
  have hloop : (extract_tile dim b names s).loop_dims
      = (List.range (min dim 3).toNat).map (fun (d : Nat) => (d : Int)) := by
    unfold extract_tile
    simp only [hmax]
    split_ifs <;> simp only [foldl_push_map, Transformation.new, List.nil_append]
  have hsizes : (extract_tile dim b names s).tile_sizes
      = (List.range dim.toNat).map (fun (_ : Nat) => (32 : Int)) := by
    unfold extract_tile
    by_cases h2 : dim = 2
    · subst h2; simp only [if_true]; rfl
    · by_cases h3 : dim = 3
      · subst h3; simp only [h2, if_false, if_true]; rfl
      · simp only [h2, h3, if_false, foldl_push_map, Transformation.new, List.nil_append]
  refine ⟨?_, hloop, hsizes, ?_, ?_⟩
  · unfold extract_tile
    cases b <;> split_ifs <;> simp [Transformation.new]
  · unfold extract_tile
    split_ifs <;> rfl
  · unfold extract_tile
    split_ifs <;> rfl

theorem extract_transformations_step_cases (stmts : List Stmt)
    (transforms out : List Transformation) (s : Nat)
    (h : extract_transformations_step stmts transforms s = some out) :
    out = transforms
      ∨ ∃ stmt b names, stmts[s]? = some stmt ∧ 2 ≤ stmt.dim
          ∧ extract_iterator_names stmt = some names
          ∧ out = transforms ++ [extract_tile stmt.dim b names s] := by
  unfold extract_transformations_step at h
  cases hs : stmts[s]? with
  | none => rw [hs] at h; simp at h
  | some stmt =>
    rw [hs] at h
    simp only at h
    cases hn : extract_iterator_names stmt with
    | none => rw [hn] at h; simp at h
    | some names =>
      rw [hn] at h
      simp only at h
      cases ht : stmt.trans with
      | none =>
        rw [ht] at h
        simp only [Option.some.injEq] at h
        exact Or.inl h.symm
      | some m =>
        rw [ht] at h
        simp only at h
        by_cases hr : m.nrows > 0
        · simp only [hr, if_true] at h
          cases hl : extract_loop_order (some m) stmt.dim with
          | none => rw [hl] at h; simp at h
          | some lo =>
            rw [hl] at h
            simp only at h
            split at h
            · simp at h
            · rename_i b hb
              by_cases hd : stmt.dim ≥ 2
              · simp only [hd, if_true, Option.some.injEq] at h
                exact Or.inr ⟨stmt, b, names, rfl, hd, hn, h.symm⟩
              · simp only [hd, if_false, Option.some.injEq] at h
                exact Or.inl h.symm
        · simp only [hr, if_false, Option.some.injEq] at h
          exact Or.inl h.symm

/-- C40 (amended). Every transformation returned by `extract_transformations` is
of type tile or GPU tile and belongs to a statement of dimension `dim ≥ 2`; it
has `min(dim, 3)` tiled dimensions (`0`, `1`, `2` at most), `dim` tile sizes, all
32, and the `dim` iterator names of the statement.  The number of its tile
sizes equals the number of its tiled dimensions for statements of dimension 2
or 3, and exceeds it, `dim` against 3, for statements of dimension `≥ 4`. -/
theorem extract_transformations_tiles (prog : Option PlutoProg)
    (transforms : List Transformation)
    (h : extract_transformations prog = some transforms) :
    ∀ t ∈ transforms,
      (t.type = TransformType.TRANS_TILE ∨ t.type = TransformType.TRANS_GPU_TILE)
      ∧ ∃ (p : PlutoProg) (s : Nat) (stmt : Stmt), prog = some p ∧ p.stmts[s]? = some stmt
          ∧ t.statement_id = toInt32 (s : Int)
          ∧ 2 ≤ stmt.dim
          ∧ t.loop_dims = (List.range (min stmt.dim 3).toNat).map (fun (d : Nat) => (d : Int))
          ∧ t.loop_dims.length = min stmt.dim.toNat 3
          ∧ t.tile_sizes.length = stmt.dim.toNat
          ∧ (∀ size ∈ t.tile_sizes, size = 32)
          ∧ extract_iterator_names stmt = some t.iterator_names
          ∧ t.iterator_names.length = stmt.dim.toNat
          ∧ (stmt.dim ≤ 3 → t.tile_sizes.length = t.loop_dims.length)
          ∧ (4 ≤ stmt.dim →
              t.loop_dims.length = 3 ∧ t.loop_dims.length < t.tile_sizes.length) := by
  unfold extract_transformations at h
  cases prog with
  | none =>
    simp only [Option.some.injEq] at h
    subst h; simp
  | some p =>
    simp only at h
    by_cases hz : p.nstmts = 0
    · simp only [hz, if_true, Option.some.injEq] at h
      subst h; simp
    · simp only [hz, if_false] at h
      have hinv := foldlM_option_invariant (extract_transformations_step p.stmts)
        (fun ts => ∀ t ∈ ts, ∃ (s : Nat) (stmt : Stmt) (b : Bool) (names : List String),
          p.stmts[s]? = some stmt ∧ 2 ≤ stmt.dim
          ∧ extract_iterator_names stmt = some names
          ∧ t = extract_tile stmt.dim b names s)
        ?_ _ _ _ h (by simp)
      · intro t ht
        obtain ⟨s, stmt, b, names, hs, hd, hn, hte⟩ := hinv t ht
        obtain ⟨f1, f2, f3, f4, f5⟩ := extract_tile_fields stmt.dim hd b names s
        have hlen := extract_iterator_names_length stmt names hn
        rw [hte]
        have hl : (extract_tile stmt.dim b names s).loop_dims.length = min stmt.dim.toNat 3 := by
          rw [f2, List.length_map, List.length_range]; omega
        have hsz : (extract_tile stmt.dim b names s).tile_sizes.length = stmt.dim.toNat := by
          rw [f3, List.length_map, List.length_range]
        refine ⟨f1, p, s, stmt, rfl, hs, f5, hd, f2, hl, hsz, ?_, by rw [f4]; exact hn,
          by rw [f4]; exact hlen, ?_, ?_⟩
        · intro size hsize
          rw [f3] at hsize
          obtain ⟨_, _, e⟩ := List.mem_map.mp hsize
          exact e.symm
        · intro h3; rw [hl, hsz]; omega
        · intro h4; rw [hl, hsz]; omega
      · intro ts s ts' hstep hP t ht
        rcases extract_transformations_step_cases p.stmts ts ts' s hstep with e | ⟨stmt, b, names, hs, hd, hn, e⟩
        · rw [e] at ht; exact hP t ht
        · rw [e] at ht
          rcases List.mem_append.mp ht with hm | hm
          · exact hP t hm
          · simp only [List.mem_singleton] at hm
            exact ⟨s, stmt, b, names, hs, hd, hn, hm⟩

/-- Witness for C40 (amended): the statement of dimension 3 gives one GPU tile
with three tiled dimensions and three tile sizes. -/
theorem extract_transformations_tiles_witness :
    extract_transformations (some bridge_prog_3) = some [bridge_tile_3]
    ∧ (bridge_tile_3.type = TransformType.TRANS_TILE
        ∨ bridge_tile_3.type = TransformType.TRANS_GPU_TILE)
    ∧ ∃ (p : PlutoProg) (s : Nat) (stmt : Stmt), some bridge_prog_3 = some p
        ∧ p.stmts[s]? = some stmt
        ∧ bridge_tile_3.statement_id = toInt32 (s : Int)
        ∧ 2 ≤ stmt.dim
        ∧ bridge_tile_3.loop_dims
            = (List.range (min stmt.dim 3).toNat).map (fun (d : Nat) => (d : Int))
        ∧ bridge_tile_3.loop_dims.length = min stmt.dim.toNat 3
        ∧ bridge_tile_3.tile_sizes.length = stmt.dim.toNat
        ∧ (∀ size ∈ bridge_tile_3.tile_sizes, size = 32)
        ∧ extract_iterator_names stmt = some bridge_tile_3.iterator_names
        ∧ bridge_tile_3.iterator_names.length = stmt.dim.toNat
        ∧ (stmt.dim ≤ 3 → bridge_tile_3.tile_sizes.length = bridge_tile_3.loop_dims.length)
        ∧ (4 ≤ stmt.dim →
            bridge_tile_3.loop_dims.length = 3
            ∧ bridge_tile_3.loop_dims.length < bridge_tile_3.tile_sizes.length) :=
  ⟨bridge_prog_3_tiles,
   extract_transformations_tiles (some bridge_prog_3) [bridge_tile_3] bridge_prog_3_tiles
     bridge_tile_3 (List.mem_singleton.mpr rfl)⟩

/-- Counterexample to C40 as stated: for one statement of dimension 4 with the
loops `i`, `j`, `k`, `l` and the identity schedule, `extract_transformations`
returns one GPU tile with the three tiled dimensions `0, 1, 2` and four tile
sizes. -/
theorem extract_transformations_tiles_counterexample :
    extract_transformations (some bridge_prog_4)
      = some [{ type := TransformType.TRANS_GPU_TILE, loop_dims := [0, 1, 2],
                tile_sizes := [32, 32, 32, 32], iterator_names := ["i", "j", "k", "l"],
                statement_id := 0, factor := 0 }]
    ∧ ([0, 1, 2] : List Int).length = 3
    ∧ ([32, 32, 32, 32] : List Int).length = 4
    ∧ (extract_transformations (some bridge_prog_4)).map
        (fun ts => ts.map (fun t => decide (t.tile_sizes.length = t.loop_dims.length)))
        = some [false] := by
  decide

theorem foldlM_option_total {α β : Type} (f : β → α → Option β) (l : List α)
    (hstep : ∀ b, ∀ a ∈ l, ∃ b', f b a = some b') (init : β) :
    ∃ out, l.foldlM f init = some out := by
  induction l generalizing init with
  | nil => exact ⟨init, rfl⟩
  | cons a l ih =>
    obtain ⟨b, hb⟩ := hstep init a (List.mem_cons_self a l)
    obtain ⟨out, hout⟩ := ih (fun b' a' ha' => hstep b' a' (List.mem_cons_of_mem a ha')) b
    exact ⟨out, by rw [List.foldlM_cons, hb]; exact hout⟩

theorem matrix_read_total (m : PlutoMatrix) (dim : Nat) (i j : Int)
    (hi0 : 0 ≤ i) (hi : i.toNat < m.val.length) (hj0 : 0 ≤ j) (hj : j.toNat < dim)
    (hrows : ∀ row ∈ m.val, dim ≤ row.length) :
    ∃ coeff, matrix_read m i j = some coeff := by
  unfold matrix_read
  have hneg : ¬ (i < 0 ∨ j < 0) := by omega
  rw [if_neg hneg, List.getElem?_eq_getElem hi]
  have hrow := hrows _ (List.getElem_mem hi)
  exact ⟨_, List.getElem?_eq_getElem (by omega)⟩

theorem extract_loop_order_total (m : PlutoMatrix) (dim : Int)
    (hrows : m.nrows.toNat ≤ m.val.length) (hcols : ∀ row ∈ m.val, dim.toNat ≤ row.length) :
    ∃ loop_order, extract_loop_order (some m) dim = some loop_order := by
  unfold extract_loop_order
  by_cases h0 : m.nrows = 0
  · simp only [h0, if_true]
    exact ⟨_, rfl⟩
  · simp only [h0, if_false]
    apply foldlM_option_total
    intro lo h hh
    have hh' : h < (min m.nrows dim).toNat := List.mem_range.mp hh
    have hrow : ∃ st, extract_loop_order_row m dim h = some st := by
      unfold extract_loop_order_row
      apply foldlM_option_total
      intro st d hd
      have hd' : d < dim.toNat := List.mem_range.mp hd
      obtain ⟨coeff, hc⟩ := matrix_read_total m dim.toNat (h : Int) (d : Int) (by omega)
        (by simp only [Int.toNat_ofNat]; omega) (by omega)
        (by simp only [Int.toNat_ofNat]; exact hd') hcols
      rw [hc]
      simp only
      split_ifs
      · exact ⟨_, rfl⟩
      · exact ⟨_, rfl⟩
    obtain ⟨st, hst⟩ := hrow
    exact ⟨_, by rw [hst]⟩

theorem extract_iterator_names_total (stmt : Stmt)
    (h : ∀ iterators, stmt.iterators = some iterators → stmt.dim.toNat ≤ iterators.length) :
    ∃ names, extract_iterator_names stmt = some names := by
  unfold extract_iterator_names
  cases hi : stmt.iterators with
  | none => exact ⟨_, rfl⟩
  | some iterators =>
    simp only
    apply foldlM_option_total
    intro names d hd
    have hd' : d < stmt.dim.toNat := List.mem_range.mp hd
    have hlen := h iterators hi
    rw [List.getElem?_eq_getElem (by omega)]
    cases iterators[d] with
    | none =>
      simp only
      split_ifs
      · exact ⟨_, rfl⟩
      · exact ⟨_, rfl⟩
    | some name => exact ⟨_, rfl⟩

/-- On a baseline with complete arrays `extract_transformations` returns. -/
theorem extract_transformations_total (p : PlutoProg) (h : prog_arrays_complete p) :
    ∃ transforms, extract_transformations (some p) = some transforms := by
  obtain ⟨h0, h1, hlen, hstmts⟩ := h
  unfold extract_transformations
  simp only
  by_cases hz : p.nstmts = 0
  · rw [if_pos hz]; exact ⟨_, rfl⟩
  · rw [if_neg hz]
    apply foldlM_option_total
    intro transforms s hs
    have hs' : s < (p.nstmts % 4294967296).toNat := List.mem_range.mp hs
    have hs2 : s < p.stmts.length := by omega
    unfold extract_transformations_step
    rw [List.getElem?_eq_getElem hs2]
    simp only
    obtain ⟨hit, htr⟩ := hstmts _ (List.getElem_mem hs2)
    obtain ⟨names, hn⟩ := extract_iterator_names_total p.stmts[s] hit
    rw [hn]
    simp only
    cases ht : p.stmts[s].trans with
    | none => exact ⟨_, rfl⟩
    | some m =>
      simp only
      by_cases hr : m.nrows > 0
      · obtain ⟨hrows, hcols⟩ := htr m ht hr
        obtain ⟨lo, hlo⟩ := extract_loop_order_total m p.stmts[s].dim hrows hcols
        rw [if_pos hr, hlo]
        simp only
        by_cases hd : p.stmts[s].dim > 0 ∧ m.nrows - 1 ≥ 0
        · obtain ⟨coeff, hc⟩ := matrix_read_total m p.stmts[s].dim.toNat (m.nrows - 1)
            (p.stmts[s].dim - 1) (by omega) (by omega) (by omega) (by omega) hcols
          rw [if_pos hd, hc]
          simp only
          split_ifs
          · exact ⟨_, rfl⟩
          · exact ⟨_, rfl⟩
        · rw [if_neg hd]
          simp only
          split_ifs
          · exact ⟨_, rfl⟩
          · exact ⟨_, rfl⟩
      · rw [if_neg hr]; exact ⟨_, rfl⟩

/-! ### Selection among the tiling variants -/

theorem tile_size_sum_uniform (names : List String) (t : Int) :
    tile_size_sum (names.map (fun name => TileSize.mk name t)) = (names.length : Int) * t := by
  induction names with
  | nil => simp [tile_size_sum]
  | cons a l ih =>
    simp only [tile_size_sum, List.map_cons, List.sum_cons, List.length_cons] at ih ⊢
    rw [ih]; push_cast; ring

/-- The integer `avg_tile` of a table with the same size `t` for every loop. -/
theorem average_tile_uniform (names : List String) (t : Int) (hne : names ≠ [])
    (ht : 0 ≤ t) (hfit : (names.length : Int) * t ≤ 2147483647) :
    average_tile (names.map (fun name => TileSize.mk name t)) = t := by
  have hlen : 0 < (names.length : Int) := by
    have : 0 < names.length := List.length_pos.mpr hne
    exact_mod_cast this
  rw [average_tile_of_fits _ (by rw [tile_size_sum_uniform]; positivity)
    (by rw [tile_size_sum_uniform]; exact hfit), tile_size_sum_uniform, List.length_map]
  exact Int.mul_ediv_cancel_left t (by omega)

theorem tile_size_factor_uniform (c : ScheduleConfig) (names : List String) (t : Int)
    (hc : c.tile_sizes = names.map (fun name => TileSize.mk name t)) (hne : names ≠ [])
    (ht : 0 ≤ t) (hfit : (names.length : Int) * t ≤ 2147483647) :
    tile_size_factor c
      = if t ≥ 32 ∧ t ≤ 64 then 0.8 else if t < 16 then 1.3 else if t > 128 then 1.2 else 1 := by
  have hempty : c.tile_sizes.isEmpty = false := by
    rw [hc]
    cases names with
    | nil => exact absurd rfl hne
    | cons a l => rfl
  unfold tile_size_factor
  simp only [hempty, Bool.false_eq_true, if_false]
  rw [hc, average_tile_uniform names t hne ht hfit]

theorem bank_conflict_step_idem (cw : Int) (hcw : 1 ≤ cw) (a b : TileSize)
    (hab : a.size = b.size) :
    bank_conflict_step (bank_conflict_step cw a) b = bank_conflict_step cw a := by
  have h1 := bank_conflict_step_gcd cw hcw a
  have hge : 1 ≤ bank_conflict_step cw a := by
    rw [h1]; split_ifs <;> omega
  rw [bank_conflict_step_gcd _ hge b, ← hab, h1]
  split_ifs <;> omega

/-- The way of a table with the same size `t` for every loop is the way of the
single size `t`. -/
theorem check_bank_conflict_uniform (c : ScheduleConfig) (names : List String) (t : Int)
    (hc : c.tile_sizes = names.map (fun name => TileSize.mk name t)) (hne : names ≠ []) :
    (check_bank_conflict c).2 = bank_conflict_step 1 (TileSize.mk "" t) := by
  show c.tile_sizes.foldl bank_conflict_step 1 = _
  rw [hc]
  have key : ∀ (l : List String) (cw : Int), 1 ≤ cw →
      (l.map (fun name => TileSize.mk name t)).foldl bank_conflict_step
          (bank_conflict_step cw (TileSize.mk "" t))
        = bank_conflict_step cw (TileSize.mk "" t) := by
    intro l
    induction l with
    | nil => intro cw _; rfl
    | cons a l ih =>
      intro cw hcw
      rw [List.map_cons, List.foldl_cons,
        bank_conflict_step_idem cw hcw (TileSize.mk "" t) (TileSize.mk a t) rfl]
      exact ih cw hcw
  cases names with
  | nil => exact absurd rfl hne
  | cons a l =>
    rw [List.map_cons, List.foldl_cons]
    have e : bank_conflict_step 1 (TileSize.mk a t) = bank_conflict_step 1 (TileSize.mk "" t) := by
      rw [bank_conflict_step_gcd 1 (le_refl 1), bank_conflict_step_gcd 1 (le_refl 1)]
    rw [e]
    exact key l 1 (le_refl 1)

theorem legal_tile_sizes_uniform (names : List String) (t : Int) (h1 : 1 ≤ t) (h2 : t ≤ 1024) :
    legal_tile_sizes (names.map (fun name => TileSize.mk name t)) = true := by
  induction names with
  | nil => rfl
  | cons a l ih =>
    have hn : ¬ (t ≤ 0 ∨ t > 1024) := by omega
    simp only [List.map_cons, legal_tile_sizes, hn, if_false]
    exact ih

theorem noise_multiplier_bounds (r : Int) (hr : 0 ≤ r) :
    9 / 10 ≤ noise_multiplier r ∧ noise_multiplier r ≤ 109 / 100 := by
  unfold noise_multiplier
  have hmod : Int.tmod r 20 = r % 20 := Int.tmod_eq_emod hr (by decide)
  have hlo : ((-10 : Int) : ℚ) ≤ ((Int.tmod r 20 - 10 : Int) : ℚ) := by
    exact_mod_cast (by omega : (-10 : Int) ≤ Int.tmod r 20 - 10)
  have hhi : ((Int.tmod r 20 - 10 : Int) : ℚ) ≤ ((9 : Int) : ℚ) := by
    exact_mod_cast (by omega : Int.tmod r 20 - 10 ≤ (9 : Int))
  have e1 : ((-10 : Int) : ℚ) = -10 := by norm_num
  have e2 : ((9 : Int) : ℚ) = 9 := by norm_num
  rw [e1] at hlo
  rw [e2] at hhi
  constructor <;> linarith

theorem evaluated_times_getElem (ev : TiramisuConfigEvaluator)
    (cands : List ScheduleConfig) (rng : RandSource) (i : Nat) :
    (evaluated_times ev cands rng)[i]?
      = (cands[i]?).map (fun c => (evaluate_config ev c (fun n => rng (n + i))).1) := by
  induction cands generalizing rng i with
  | nil => simp [evaluated_times]
  | cons c rest ih =>
    cases i with
    | zero => simp [evaluated_times]
    | succ j =>
      simp only [evaluated_times, List.getElem?_cons_succ]
      rw [ih]
      have e : (evaluate_config ev c rng).2 = fun n => rng (n + 1) := rfl
      rw [e]
      rfl

theorem coalescing_factor_of_transformations (c : ScheduleConfig)
    (h : c.transformations ≠ []) : coalescing_factor c = 7 / 10 := by
  unfold coalescing_factor
  rw [satisfies_coalescing_eq]
  cases ht : c.transformations with
  | nil => exact absurd ht h
  | cons a l => norm_num

/-- The untiled baseline config is estimated at 63 at least. -/
theorem evaluate_untiled_ge (ev : TiramisuConfigEvaluator) (c : ScheduleConfig)
    (rng : RandSource) (hr : 0 ≤ (rand rng).1) (htr : c.transformations ≠ [])
    (hts : c.tile_sizes = []) (hbc : c.has_bank_conflict = false) :
    63 ≤ (evaluate_config ev c rng).1 := by
  have h1 : tile_size_factor c = 1 := by
    unfold tile_size_factor
    simp [hts]
  have h2 := coalescing_factor_of_transformations c htr
  have h3 : applied_penalty ev c = 1 := by
    unfold applied_penalty
    simp [hbc]
  have hn := (noise_multiplier_bounds _ hr).1
  rw [evaluate_config_eq, h1, h2, h3]
  linarith

/-- Under the default settings a tiling variant with the size 32 or 64 for every
loop is estimated at 61.04 at most, and one with the size 16, 128 or 256 at 63
at least. -/
theorem evaluate_uniform_variant (c : ScheduleConfig) (names : List String) (t : Int)
    (rng : RandSource) (hr : 0 ≤ (rand rng).1) (hne : names ≠ [])
    (hfit : (names.length : Int) * 256 ≤ 2147483647)
    (htr : c.transformations ≠ [])
    (hts : c.tile_sizes = names.map (fun name => TileSize.mk name t))
    (hway : c.bank_conflict_way = (check_bank_conflict c).2)
    (hhas : c.has_bank_conflict = decide ((check_bank_conflict c).2 > 1)) :
    (t = 32 ∨ t = 64 → (evaluate_config TiramisuConfigEvaluator.new c rng).1 ≤ 1526 / 25)
    ∧ (t = 16 ∨ t = 128 ∨ t = 256 →
        63 ≤ (evaluate_config TiramisuConfigEvaluator.new c rng).1) := by
  have hlen : 0 ≤ (names.length : Int) := by positivity
  have h2 := coalescing_factor_of_transformations c htr
  have hn := noise_multiplier_bounds _ hr
  have hcb := check_bank_conflict_uniform c names t hts hne
  have hfactor : ∀ ht0 : 0 ≤ t, t ≤ 256 → tile_size_factor c
      = if t ≥ 32 ∧ t ≤ 64 then 0.8 else if t < 16 then 1.3 else if t > 128 then 1.2 else 1 := by
    intro ht0 ht1
    exact tile_size_factor_uniform c names t hts hne ht0 (by nlinarith)
  have hnone : ∀ w : Int, (check_bank_conflict c).2 = w → w = 1 →
      applied_penalty TiramisuConfigEvaluator.new c = 1 := by
    intro w hw hw1
    unfold applied_penalty
    rw [hhas, hw, hw1]
    simp
  rw [evaluate_config_eq, h2]
  constructor
  · intro ht
    rcases ht with e | e
    · subst e
      have hw : (check_bank_conflict c).2 = 1 := by rw [hcb]; decide
      rw [hfactor (by norm_num) (by norm_num), hnone 1 hw rfl]
      norm_num
      linarith [hn.2]
    · subst e
      have hw : (check_bank_conflict c).2 = 1 := by rw [hcb]; decide
      rw [hfactor (by norm_num) (by norm_num), hnone 1 hw rfl]
      norm_num
      linarith [hn.2]
  · intro ht
    rcases ht with e | e | e
    · subst e
      have hw : (check_bank_conflict c).2 = 16 := by rw [hcb]; decide
      have hp : applied_penalty TiramisuConfigEvaluator.new c = 8 := by
        unfold applied_penalty penalty_multiplier
        rw [hhas, hway, hw]
        norm_num [TiramisuConfigEvaluator.new]
      rw [hfactor (by norm_num) (by norm_num), hp]
      norm_num
      linarith [hn.1]
    · subst e
      have hw : (check_bank_conflict c).2 = 1 := by rw [hcb]; decide
      rw [hfactor (by norm_num) (by norm_num), hnone 1 hw rfl]
      norm_num
      linarith [hn.1]
    · subst e
      have hw : (check_bank_conflict c).2 = 1 := by rw [hcb]; decide
      rw [hfactor (by norm_num) (by norm_num), hnone 1 hw rfl]
      norm_num
      linarith [hn.1]

theorem uniform_tiles_injective (names : List String) (hne : names ≠ []) (t t' : Int)
    (h : names.map (fun name => TileSize.mk name t)
      = names.map (fun name => TileSize.mk name t')) : t = t' := by
  cases names with
  | nil => exact absurd rfl hne
  | cons a l =>
    simp only [List.map_cons, List.cons.injEq, TileSize.mk.injEq, true_and] at h
    exact h.1

/-- The candidates of a named baseline for `k ≥ 3`: the untiled baseline config,
then tiling variants with one size of the menu for every loop, annotated by
`check_bank_conflict`, the variant for 32 at index 2. -/
theorem neighbor_candidates_of_named (p : PlutoProg) (names : List String) (k : Int)
    (h : named_baseline p names) (hstmts : 1 ≤ p.nstmts) (hn : 1 ≤ p.nvar)
    (hk : 3 ≤ k) (hkint : k ≤ 2147483647) :
    ∃ base vs, generate_candidates_from_optimal (some p) k = some (base :: vs)
      ∧ names ≠ []
      ∧ base.transformations = names.map named_interchange
      ∧ base.tile_sizes = []
      ∧ base.has_bank_conflict = false
      ∧ (∀ v ∈ vs, v.transformations = names.map named_interchange
          ∧ (∃ t ∈ ([16, 32, 64, 128, 256] : List Int),
              v.tile_sizes = names.map (fun name => TileSize.mk name t))
          ∧ v.bank_conflict_way = (check_bank_conflict v).2
          ∧ v.has_bank_conflict = decide ((check_bank_conflict v).2 > 1))
      ∧ ∃ v32, vs[1]? = some v32
          ∧ v32.tile_sizes = names.map (fun name => TileSize.mk name 32) := by
  have hlen : names.length = p.nvar.toNat := by
    obtain ⟨_, _, _, _, _, hlen⟩ := h
    exact hlen
  have hne : names ≠ [] := by
    intro e
    rw [e] at hlen
    simp only [List.length_nil] at hlen
    omega
  have hcfg := pluto_prog_to_config_of_named p names h (by omega)
  have hsat : satisfies_coalescing_constraint
      { ({ ScheduleConfig.new with transformations := names.map named_interchange } :
          ScheduleConfig) with description := "PLUTO Optimal" } = true := by
    rw [satisfies_coalescing_eq]
    cases names with
    | nil => exact absurd rfl hne
    | cons a l => rfl
  obtain ⟨vs, hloop, _, hts⟩ := generate_candidates_loop_of_named p names h _ hsat k
    [16, 32, 64, 128, 256]
    [{ ({ ScheduleConfig.new with transformations := names.map named_interchange } :
          ScheduleConfig) with description := "PLUTO Optimal" }]
  obtain ⟨vs', hvs', hmem⟩ := generate_candidates_loop_mem p _ k _ _ _ hloop
  have hvs : vs' = vs := (List.append_cancel_left hvs').symm
  subst hvs
  refine ⟨{ ({ ScheduleConfig.new with transformations := names.map named_interchange } :
      ScheduleConfig) with description := "PLUTO Optimal" }, vs', ?_, hne, rfl, rfl, rfl, ?_, ?_⟩
  · simp only [generate_candidates_from_optimal, hcfg, hloop]
    rfl
  · intro v hv
    obtain ⟨t, ht, htv⟩ := hmem v hv
    obtain ⟨v', hv', htr', hts'⟩ := tiling_variant_of_named p names h
      { ({ ScheduleConfig.new with transformations := names.map named_interchange } :
          ScheduleConfig) with description := "PLUTO Optimal" } t
    have e : v = v' := by
      rw [hv'] at htv
      exact (Option.some.inj htv).symm
    have ha := tiling_variant_annotated p _ t v htv
    refine ⟨by rw [e, htr'], ⟨t, ht, by rw [e, hts']⟩, ?_, ?_⟩
    · conv_lhs => rw [ha]
    · conv_lhs => rw [ha]
  · have hsz : size_t_of_int k = k.toNat := size_t_of_int_of_nonneg k (by omega) hkint
    have hget : (vs'.map (fun c => c.tile_sizes))[1]?
        = some (names.map (fun name => TileSize.mk name 32)) := by
      rw [hts, hsz]
      have h2 : k.toNat - [({ ({ ScheduleConfig.new with
          transformations := names.map named_interchange } : ScheduleConfig) with
          description := "PLUTO Optimal" } : ScheduleConfig)].length = (k.toNat - 3) + 2 := by
        simp only [List.length_singleton]
        omega
      rw [h2, List.take_succ_cons, List.take_succ_cons]
      simp
    rw [List.getElem?_map] at hget
    cases hv : vs'[1]? with
    | none => rw [hv] at hget; simp at hget
    | some v32 =>
      rw [hv] at hget
      simp only [Option.map_some', Option.some.injEq] at hget
      exact ⟨v32, rfl, hget⟩

/-- C32. With the default evaluator settings (bank-conflict penalty enabled,
factor 2.0), for every baseline with at least one statement and `nvar ≥ 1`
named iterators (few enough for the sum of the tile sizes to stay an `int`),
every `k ≥ 3` and every sequence of non-negative values returned by `rand()`,
`optimize_with_neighbors` selects as best config a tiling variant whose tile
sizes are all 32 or all 64, never the untiled baseline nor the 16, 128 or 256
variant: every 32 or 64 variant evaluates to at most 61.04 while every other
candidate evaluates to at least 63. -/
theorem optimize_with_neighbors_selects_32_or_64 (p : PlutoProg) (names : List String)
    (k : Int) (rng : RandSource) (t0 t1 : ℚ)
    (h : named_baseline p names) (hstmts : 1 ≤ p.nstmts) (hn : 1 ≤ p.nvar)
    (hdims : p.nvar ≤ 8388607) (hk : 3 ≤ k) (hkint : k ≤ 2147483647)
    (hrand : ∀ n, 0 ≤ rng n) :
    ∃ r, optimize_with_neighbors TiramisuConfigEvaluator.new (some p) k rng t0 t1 = some r
      ∧ (r.1.best_config.tile_sizes = names.map (fun name => TileSize.mk name 32)
          ∨ r.1.best_config.tile_sizes = names.map (fun name => TileSize.mk name 64))
      ∧ r.1.best_config.tile_sizes ≠ []
      ∧ r.1.best_config.transformations = names.map named_interchange
      ∧ r.1.best_config.execution_time_ms ≤ 1526 / 25
      ∧ r.1.best_time_ms = some r.1.best_config.execution_time_ms
      ∧ ∀ c ∈ r.1.all_candidates, ∀ rng' : RandSource, 0 ≤ (rand rng').1 →
          ((c.tile_sizes = names.map (fun name => TileSize.mk name 32)
              ∨ c.tile_sizes = names.map (fun name => TileSize.mk name 64)) →
            (evaluate_config TiramisuConfigEvaluator.new c rng').1 ≤ 1526 / 25)
          ∧ (¬ (c.tile_sizes = names.map (fun name => TileSize.mk name 32)
              ∨ c.tile_sizes = names.map (fun name => TileSize.mk name 64)) →
            63 ≤ (evaluate_config TiramisuConfigEvaluator.new c rng').1) := by
  obtain ⟨base, vs, hgen, hne, hbtr, hbts, hbbc, hvs, v32, hv32, hv32ts⟩ :=
    neighbor_candidates_of_named p names k h hstmts hn hk hkint
  have hlen : names.length = p.nvar.toNat := by
    obtain ⟨_, _, _, _, _, hlen⟩ := h
    exact hlen
  have hfit : (names.length : Int) * 256 ≤ 2147483647 := by
    rw [hlen, Int.toNat_of_nonneg (by omega)]
    omega
  have hmapne : ∀ t : Int, names.map (fun name => TileSize.mk name t) ≠ [] := by
    intro t e
    exact hne (List.map_eq_nil_iff.mp e)
  have htrne : names.map named_interchange ≠ [] := fun e => hne (List.map_eq_nil_iff.mp e)
  -- every candidate: its class, its bounds and its legality
  have hclass : ∀ c ∈ base :: vs,
      c.transformations = names.map named_interchange
      ∧ is_legal_config c = true
      ∧ ∀ rng' : RandSource, 0 ≤ (rand rng').1 →
          ((c.tile_sizes = names.map (fun name => TileSize.mk name 32)
              ∨ c.tile_sizes = names.map (fun name => TileSize.mk name 64)) →
            (evaluate_config TiramisuConfigEvaluator.new c rng').1 ≤ 1526 / 25)
          ∧ (¬ (c.tile_sizes = names.map (fun name => TileSize.mk name 32)
              ∨ c.tile_sizes = names.map (fun name => TileSize.mk name 64)) →
            63 ≤ (evaluate_config TiramisuConfigEvaluator.new c rng').1) := by
    intro c hc
    rcases List.mem_cons.mp hc with e | e
    · subst e
      have hleg : is_legal_config c = true := by
        unfold is_legal_config
        rw [hbtr, hbts]
        cases names with
        | nil => exact absurd rfl hne
        | cons a l => rfl
      refine ⟨hbtr, hleg, ?_⟩
      intro rng' hr
      constructor
      · intro hsweet
        rw [hbts] at hsweet
        rcases hsweet with e | e
        · exact absurd e.symm (hmapne 32)
        · exact absurd e.symm (hmapne 64)
      · intro _
        exact evaluate_untiled_ge _ c rng' hr (by rw [hbtr]; exact htrne) hbts hbbc
    · obtain ⟨hctr, ⟨t, ht, hcts⟩, hway, hhas⟩ := hvs c e
      have hctrne : c.transformations ≠ [] := by rw [hctr]; exact htrne
      have ht' : t = 16 ∨ t = 32 ∨ t = 64 ∨ t = 128 ∨ t = 256 := by
        simpa using ht
      have hleg : is_legal_config c = true := by
        unfold is_legal_config
        rw [hcts, legal_tile_sizes_uniform names t (by omega) (by omega)]
        cases hct : c.transformations with
        | nil => exact absurd hct hctrne
        | cons a l => rfl
      refine ⟨hctr, hleg, ?_⟩
      intro rng' hr
      have hb := evaluate_uniform_variant c names t rng' hr hne hfit hctrne hcts hway hhas
      constructor
      · intro hsweet
        apply hb.1
        rcases hsweet with e | e
        · left; rw [hcts] at e; exact uniform_tiles_injective names hne _ _ e
        · right; rw [hcts] at e; exact uniform_tiles_injective names hne _ _ e
      · intro hns
        apply hb.2
        rcases ht' with e | e | e | e | e
        · exact Or.inl e
        · exact absurd (Or.inl (by rw [hcts, e])) hns
        · exact absurd (Or.inr (by rw [hcts, e])) hns
        · exact Or.inr (Or.inl e)
        · exact Or.inr (Or.inr e)
  have hlegal : (base :: vs).filter is_legal_config = base :: vs :=
    List.filter_eq_self.mpr (fun c hc => (hclass c hc).2.1)
  have hshift : ∀ i : Nat, 0 ≤ (rand (fun n => rng (n + i))).1 := fun i => hrand _
  -- the selection
  have hsel : ∃ c ∈ base :: vs, ∃ t : ℚ,
      (search_best_config TiramisuConfigEvaluator.new (base :: vs) rng).1
        = { c with execution_time_ms := t }
      ∧ t ≤ 1526 / 25
      ∧ (c.tile_sizes = names.map (fun name => TileSize.mk name 32)
          ∨ c.tile_sizes = names.map (fun name => TileSize.mk name 64)) := by
    have hset : TiramisuConfigEvaluator.new.apply_bank_conflict_penalty_ = false
        ∨ 0 < TiramisuConfigEvaluator.new.bank_conflict_penalty_factor_ :=
      Or.inr (by norm_num [TiramisuConfigEvaluator.new])
    have h32m : v32 ∈ base :: vs := List.mem_cons_of_mem _ (List.getElem?_mem hv32)
    have hu : (evaluated_times TiramisuConfigEvaluator.new (base :: vs) rng)[2]?
        = some (evaluate_config TiramisuConfigEvaluator.new v32 (fun n => rng (n + 2))).1 := by
      rw [evaluated_times_getElem]
      have : (base :: vs)[2]? = some v32 := by
        rw [List.getElem?_cons_succ]; exact hv32
      rw [this]
      rfl
    have hupos := evaluate_config_pos TiramisuConfigEvaluator.new v32
      (fun n => rng (n + 2)) hset
    have hule := ((hclass v32 h32m).2.2 (fun n => rng (n + 2)) (hshift 2)).1 (Or.inl hv32ts)
    unfold search_best_config
    rcases search_best_loop_spec TiramisuConfigEvaluator.new (base :: vs)
      (ScheduleConfig.new, DBL_MAX) rng with ⟨hall, _⟩ | ⟨i, c, t, hc, ht, _, hres, hmin, _⟩
    · exfalso
      have hfalse := hall _ (List.getElem?_mem hu)
      rw [improves_of_pos_of_lt _ _ hupos
        (lt_of_le_of_lt hule (lt_trans (by norm_num) million_lt_DBL_MAX))] at hfalse
      exact absurd hfalse (by decide)
    · have hcm : c ∈ base :: vs := List.getElem?_mem hc
      have hte : t = (evaluate_config TiramisuConfigEvaluator.new c (fun n => rng (n + i))).1 := by
        rw [evaluated_times_getElem, hc] at ht
        simpa using ht.symm
      have htle : t ≤ 1526 / 25 := le_trans (hmin 2 _ hu hupos) hule
      refine ⟨c, hcm, t, by simp only [hres], htle, ?_⟩
      by_contra hns
      have h63 := ((hclass c hcm).2.2 (fun n => rng (n + i)) (hshift i)).2 hns
      rw [← hte] at h63
      linarith
  obtain ⟨c, hcm, t, hres, htle, hsweet⟩ := hsel
  unfold optimize_with_neighbors
  rw [hgen]
  simp only [foldl_push_legal, hlegal]
  refine ⟨_, rfl, ?_, ?_, ?_, ?_, rfl, ?_⟩
  · show (search_best_config TiramisuConfigEvaluator.new (base :: vs) rng).1.tile_sizes = _ ∨ _
    rw [hres]; exact hsweet
  · show (search_best_config TiramisuConfigEvaluator.new (base :: vs) rng).1.tile_sizes ≠ []
    rw [hres]
    rcases hsweet with e | e
    · show c.tile_sizes ≠ []
      rw [e]; exact hmapne 32
    · show c.tile_sizes ≠ []
      rw [e]; exact hmapne 64
  · show (search_best_config TiramisuConfigEvaluator.new (base :: vs) rng).1.transformations = _
    rw [hres]; exact (hclass c hcm).1
  · show (search_best_config TiramisuConfigEvaluator.new (base :: vs) rng).1.execution_time_ms
      ≤ 1526 / 25
    rw [hres]; exact htle
  · intro c' hc' rng' hr
    exact (hclass c' hc').2.2 rng' hr

/-- Witness for C32: the GEMM baseline with `k = 6` and a random source that
always returns 19, the largest noise. -/
theorem optimize_with_neighbors_selects_32_or_64_witness :
    ∃ r, optimize_with_neighbors TiramisuConfigEvaluator.new (some gemm_prog) 6
          (fun _ => 19) 0 1 = some r
      ∧ (r.1.best_config.tile_sizes = ["i", "j", "k"].map (fun name => TileSize.mk name 32)
          ∨ r.1.best_config.tile_sizes
              = ["i", "j", "k"].map (fun name => TileSize.mk name 64))
      ∧ r.1.best_config.execution_time_ms ≤ 1526 / 25 := by
  obtain ⟨r, hr, h1, _, _, h2, _⟩ :=
    optimize_with_neighbors_selects_32_or_64 gemm_prog ["i", "j", "k"] 6 (fun _ => 19) 0 1
      ⟨{ dim := 3, iterators := some [some "i", some "j", some "k"] }, [], [], rfl, rfl, rfl⟩
      (by decide) (by decide) (by decide) (by decide) (by decide)
      (fun _ => (by decide : (0 : Int) ≤ 19))
  exact ⟨r, hr, h1, h2⟩

end pluto_tiramisu
